import Mathlib

/-! Branch synchronizer of `av` (internal/actions/sync_branch.go).

A shallow embedding of `SyncBranch` and its helpers.  The Go code drives three
collaborators whose sources are missing from the source tree: the git gateway
(`internal/git`), the metadata store (`internal/meta`) and the pull-request
client (`internal/gh`).  The gateway and the store are modelled from the
specification; what depends on file contents or on the network (whether a
replay conflicts, whether a fetch fails, what the hosting service answers) is
read from an environment record `Env` that stays fixed during a call.

State is passed explicitly: every operation takes a `State` (repository graph,
metadata store, log of issued commands) and returns the state it leaves behind
together with either a value or, for Go's non-nil `err`, an error message.
-/

set_option autoImplicit false

namespace Av

/-! ## Data model -/

/-- The Go type `git.RebaseStatus`: the closed set of rebase outcomes. -/
inductive RebaseStatus where
  | RebaseAlreadyUpToDate
  | RebaseUpdated
  | RebaseConflict
  | RebaseNotInProgress
  deriving DecidableEq, Repr

open RebaseStatus

/-- The Go type `git.RebaseResult` (only the status is consulted by the synchronizer). -/
structure RebaseResult where
  Status : RebaseStatus
  deriving DecidableEq, Repr

/-- The Go type `git.RebaseOpts`; Go's zero values are the defaults. -/
structure RebaseOpts where
  Upstream : String := ""
  Onto : String := ""
  Branch : String := ""
  Continue : Bool := false
  deriving DecidableEq, Repr

/-- The Go type `meta.BranchState`: the parent link of a branch record. -/
structure BranchState where
  Name : String := ""
  Head : String := ""
  Trunk : Bool := false
  deriving DecidableEq, Repr

/-- The Go type `meta.PullRequest`: the pull-request handle kept in the metadata. -/
structure PullRequest where
  ID : String := ""
  Number : Nat := 0
  Permalink : String := ""
  deriving DecidableEq, Repr

/-- The Go type `meta.Branch`: one metadata record per tracked branch. -/
structure Branch where
  Name : String := ""
  Parent : BranchState := {}
  Children : List String := []
  PullRequest : Option Av.PullRequest := none
  MergeCommit : String := ""
  deriving DecidableEq, Repr

/-- The Go method `Branch.IsStackRoot`: a stack root is a branch whose parent is a trunk. -/
def Branch.IsStackRoot (b : Branch) : Bool := b.Parent.Trunk

/-- The Go type `SyncBranchContinuation`. -/
structure SyncBranchContinuation where
  OldHead : String := ""
  ParentCommit : String := ""
  NewTrunk : String := ""
  deriving DecidableEq, Repr

/-- The Go type `SyncBranchOpts`. -/
structure SyncBranchOpts where
  Branch : String := ""
  NoFetch : Bool := false
  NoPush : Bool := false
  ToTrunk : Bool := false
  Continuation : Option SyncBranchContinuation := none
  deriving DecidableEq, Repr

/-- The Go type `SyncBranchResult`; the embedded `git.RebaseResult` is the parent structure. -/
structure SyncBranchResult extends RebaseResult where
  Continuation : Option SyncBranchContinuation := none
  Branch : Av.Branch := {}
  deriving DecidableEq, Repr

/-- The state of a pull request on the hosting service (`githubv4.PullRequestState`). -/
inductive PullRequestState where
  | Open
  | Closed
  | Merged
  deriving DecidableEq, Repr

/-- The Go type `gh.PullRequest`: a pull request as the hosting service reports it. -/
structure GhPullRequest where
  ID : String := ""
  Number : Nat := 0
  State : PullRequestState := PullRequestState.Open
  BaseRefName : String := ""
  Body : String := ""
  Permalink : String := ""
  deriving DecidableEq, Repr

/-- The Go method `gh.PullRequest.BaseBranchName`. -/
def GhPullRequest.BaseBranchName (p : GhPullRequest) : String := p.BaseRefName

/-- The Go type `PushOpts` as `syncBranchPushAndUpdatePullRequest` fills it. -/
structure PushOpts where
  ForceWithLease : Bool := false
  SkipIfUpstreamNotSet : Bool := false
  SkipIfUpstreamMatches : Bool := false
  deriving DecidableEq, Repr

/-- The answer of the hosting service to a refresh: the pull-request handle and merge commit
the record is to carry, and the pull request itself (a nil pointer is `none`). -/
structure RemoteState where
  PullRequest : Option Av.PullRequest := none
  MergeCommit : String := ""
  Pull : Option GhPullRequest := none
  deriving DecidableEq, Repr

/-- The result of `UpdatePullRequestState`: the refreshed record, the remote pull request
(a nil pointer is `none`) and whether anything changed. -/
structure UpdatePullRequestResult where
  Changed : Bool := false
  Branch : Av.Branch := {}
  Pull : Option GhPullRequest := none
  deriving DecidableEq, Repr

/-! ## Repository graph (Repo Gateway) -/

/-- A rebase that stopped on a conflict: the branch it rewrites and the commits that
finishing it will create. -/
structure PendingRebase where
  Branch : String
  NewHead : String
  NewCommits : List (String × List String)
  deriving DecidableEq, Repr

/-- Modelled from the spec: the repository behind the Repo Gateway of section 4.1, whose Go
source (`internal/git`) is missing.  `refs` maps a local branch name to its tip, `commits`
maps a commit id to its strict ancestors (nearest first), `rebasing` is the suspended
rebase if any, `remote` the label of the default remote. -/
structure Repo where
  refs : List (String × String) := []
  commits : List (String × List String) := []
  rebasing : Option PendingRebase := none
  remote : Option String := none
  deriving DecidableEq, Repr

/-- Whether `c` is the id of a commit of the repository. -/
def Repo.hasCommit (r : Repo) (c : String) : Bool :=
  decide (c ≠ "") && (r.commits.lookup c).isSome

/-- The commit `c` followed by its strict ancestors, nearest first. -/
def Repo.ancestry (r : Repo) (c : String) : List String := c :: (r.commits.lookup c).getD []

/-- Modelled from the spec: `resolve(rev) → commit_id | NotFound` (the Go `Repo.RevParse`,
missing).  A commit id resolves to itself, a branch name to its tip. -/
def Repo.RevParse (r : Repo) (rev : String) : Except String String :=
  if rev = "" then .error "empty revision"
  else if r.hasCommit rev then .ok rev
  else
    match r.refs.lookup rev with
    | some c => if r.hasCommit c then .ok c else .error ("bad object " ++ c)
    | none => .error ("unknown revision " ++ rev)

/-- Modelled from the spec: `merge_base(a, b) → commit_id | None` (the Go `Repo.MergeBase`,
missing): the nearest commit in the history of `a` that is also in the history of `b`;
unrelated histories are reported as an error. -/
def Repo.MergeBase (r : Repo) (a b : String) : Except String String :=
  match r.RevParse a with
  | .error e => .error e
  | .ok ca =>
    match r.RevParse b with
    | .error e => .error e
    | .ok cb =>
      match (r.ancestry ca).find? (fun c => decide (c ∈ r.ancestry cb)) with
      | some m => .ok m
      | none => .error "no merge base"

/-- Modelled from the spec: `is_ancestor(a, b) → bool` (missing from the sources): both
revisions resolve and the commit of `a` lies in the history of `b`. -/
def Repo.IsAncestor (r : Repo) (a b : String) : Bool :=
  match r.RevParse a, r.RevParse b with
  | .ok ca, .ok cb => decide (ca ∈ r.ancestry cb)
  | _, _ => false

/-- Modelled from the spec: `Repo.DefaultRemote` (missing): the default remote, an error when
none is configured. -/
def Repo.DefaultRemote (r : Repo) : Except String String :=
  match r.remote with
  | some label => .ok label
  | none => .error "no remote configured"

/-- The id given to the replay of commit `c` on top of `onto`. -/
def replayId (onto c : String) : String := c ++ "@" ++ onto

/-- The history entries of a chain of new commits (nearest first) placed on `base`. -/
def replayCommits (base : List String) : List String → List (String × List String)
  | [] => []
  | c :: cs => (c, cs ++ base) :: replayCommits base cs

/-- The commits reachable from `tip` but not from `upstream`: the replay set of section 6. -/
def Repo.replaySet (r : Repo) (upstream tip : String) : List String :=
  (r.ancestry tip).filter (fun c => !decide (c ∈ r.ancestry upstream))

/-- The rewrite a rebase of `branch` (at `tip`) performs: the replay set is copied onto
`onto`; an empty replay set moves the branch to `onto` itself. -/
def Repo.planRebase (r : Repo) (branch tip upstream onto : String) : PendingRebase :=
  let ids := (r.replaySet upstream tip).map (replayId onto)
  { Branch := branch
    NewHead := ids.headD onto
    NewCommits := replayCommits (r.ancestry onto) ids }

/-- Completing a rebase: the new commits enter the graph and the branch moves to the new tip. -/
def Repo.finishRebase (r : Repo) (p : PendingRebase) : Repo :=
  { r with
    refs := (p.Branch, p.NewHead) :: r.refs.filter (fun e => decide (e.1 ≠ p.Branch))
    commits := p.NewCommits ++ r.commits
    rebasing := none }

/-- Modelled from the spec: `rebase(upstream, onto, branch) → RebaseStatus` (the Go
`Repo.RebaseParse` without `Continue`, missing): replays the commits reachable from `branch`
but not from `upstream` onto `onto` (onto `upstream` when no `onto` is given).  `branch` has
to be a local branch.  Whether the replay stops on a conflict depends on file contents and
is answered by `conflicts`. -/
def Repo.Rebase (r : Repo) (conflicts : Bool) (opts : RebaseOpts) :
    Except String (RebaseResult × Repo) :=
  if r.rebasing.isSome then .error "a rebase is already in progress"
  else if r.hasCommit opts.Branch || (r.refs.lookup opts.Branch).isNone then
    .error ("not a local branch: " ++ opts.Branch)
  else
    match r.RevParse opts.Branch with
    | .error e => .error e
    | .ok tip =>
      match r.RevParse opts.Upstream with
      | .error e => .error e
      | .ok upstream =>
        match (if opts.Onto = "" then .ok upstream else r.RevParse opts.Onto) with
        | .error e => .error e
        | .ok onto =>
          let plan := r.planRebase opts.Branch tip upstream onto
          if r.ancestry tip = r.replaySet upstream tip ++ r.ancestry onto then
            .ok ({ Status := RebaseAlreadyUpToDate }, r)
          else if plan.NewCommits.any
              (fun e => r.hasCommit e.1 || (r.refs.lookup e.1).isSome) then
            .error "object id collision"
          else if conflicts then
            .ok ({ Status := RebaseConflict }, { r with rebasing := some plan })
          else
            .ok ({ Status := RebaseUpdated }, r.finishRebase plan)

/-- Modelled from the spec: `rebase_continue() → RebaseStatus` (the Go `Repo.RebaseParse` with
`Continue`, missing): `NotInProgress` when no rebase is suspended, `Conflict` when the
replay stops again, otherwise the suspended rewrite is completed. -/
def Repo.RebaseContinue (r : Repo) (conflicts : Bool) : Except String (RebaseResult × Repo) :=
  match r.rebasing with
  | none => .ok ({ Status := RebaseNotInProgress }, r)
  | some plan =>
    if conflicts then .ok ({ Status := RebaseConflict }, r)
    else .ok ({ Status := RebaseUpdated }, r.finishRebase plan)

/-- The repository once the suspended rebase, if there is one, has been completed without
a further conflict; a repository with no rebase in progress is left as it is. -/
def Repo.completed (r : Repo) : Repo :=
  match r.RebaseContinue false with
  | .ok (_, r') => r'
  | .error _ => r

/-! ## Metadata store -/

/-- Modelled from the spec: the Metadata Store of section 4.2 (Go package `internal/meta`,
missing): a mapping from branch name to record; `none` is an untracked branch. -/
abbrev Store := String → Option Branch

/-- Modelled from the spec: `ReadBranch(name)` returns an empty record (not an error) when the
branch is untracked; the record of a tracked branch carries its key as `Name`. -/
def Store.ReadBranch (m : Store) (name : String) : Branch × Bool :=
  match m name with
  | some b => ({ b with Name := name }, true)
  | none => ({}, false)

/-- Modelled from the spec: `WriteBranch(meta)` persists one record under its name. -/
def Store.WriteBranch (m : Store) (b : Branch) : Store :=
  fun name => if name = b.Name then some b else m name

/-- Modelled from the spec: `ReadBranchState(name, trunk)` constructs a parent-link record
from a live branch tip plus a trunk flag (Go `meta.ReadBranchState`, missing). -/
def ReadBranchState (r : Repo) (name : String) (trunk : Bool) : Except String BranchState :=
  match r.RevParse name with
  | .error e => .error e
  | .ok head => .ok { Name := name, Head := head, Trunk := trunk }

/-- Modelled from the spec: removal of a name from a children set (Go
`sliceutils.DeleteElement`, missing). -/
def DeleteElement (xs : List String) (x : String) : List String :=
  xs.filter (fun y => decide (y ≠ x))

/-! ## Environment, state and effects -/

/-- The commands the synchronizer issues to its collaborators, in the order issued. -/
inductive Event where
  | refresh (branch : String)
  | fetch (remote ref : String)
  | rebase (opts : RebaseOpts)
  | writeBranch (b : Branch)
  | queryPullRequest (id : String)
  | push (opts : PushOpts)
  | updatePullRequest (id baseRefName body : String)
  | markReadyForReview (id : String)
  deriving DecidableEq, Repr

/-- What the synchronizer cannot compute from the repository graph and the store: answers of
the hosting service, failures of the backend, configuration.  Fixed during a call. -/
structure Env where
  /-- What the hosting service reports for a branch when its pull-request state is
  refreshed, or the failure of that query. -/
  PullRequestState : Branch → Except String RemoteState :=
    fun b => .ok { PullRequest := b.PullRequest, MergeCommit := b.MergeCommit }
  /-- Failure of `git fetch <remote> <ref>`, if any. -/
  fetchError : String → String → Option String := fun _ _ => none
  /-- Whether a fresh rebase with these options stops on a conflict. -/
  rebaseConflicts : RebaseOpts → Bool := fun _ => false
  /-- Whether `git rebase --continue` stops on a conflict again. -/
  continueConflicts : Bool := false
  /-- Failure of a metadata write, if any. -/
  writeError : Branch → Option String := fun _ => none
  /-- The missing `gh.Client.PullRequest`: the pull request with this id. -/
  PullRequest : String → Except String GhPullRequest := fun _ => .error "no such pull request"
  /-- The configured `pullRequest.rebaseWithDraft` (a nil pointer is `none`). -/
  RebaseWithDraft : Option Bool := none
  /-- The missing `ghutils.HasCodeowners`. -/
  HasCodeowners : Bool := false
  /-- Failure of `Push`, if any. -/
  pushError : Option String := none
  /-- The missing `getPRMetadata` and `AddPRMetadata`: the rewritten pull-request body. -/
  AddPRMetadata : String → Branch → Except String String := fun body _ => .ok body
  /-- Failure of `gh.Client.UpdatePullRequest`, if any. -/
  updatePullRequestError : Option String := none
  /-- Failure of `gh.Client.MarkPullRequestReadyForReview`, if any. -/
  markReadyError : Option String := none

/-- The mutable world of a call: repository graph, metadata store, and the commands issued. -/
structure State where
  repo : Repo := {}
  store : Store := fun _ => none
  log : List Event := []

/-- The outcome of a stateful call: Go's `(value, nil)` is `ok`, a non-nil `err` is `error`,
and so is a panic, with a message that starts with `panic:`; both carry the state the call
leaves behind. -/
abbrev Outcome (α : Type) := Except (String × State) (α × State)

/-- The state a call leaves behind, whether it failed or not. -/
def Outcome.state {α : Type} : Outcome α → State
  | .ok v => v.2
  | .error e => e.2

/-- The options of a rebase invocation, `none` for any other command. -/
@[simp] def Event.asRebase : Event → Option RebaseOpts
  | Event.rebase o => some o
  | _ => none

/-- The (remote, ref) of a fetch, `none` for any other command. -/
@[simp] def Event.asFetch : Event → Option (String × String)
  | Event.fetch remote ref => some (remote, ref)
  | _ => none

/-- The record of a metadata write, `none` for any other command. -/
@[simp] def Event.asWrite : Event → Option Branch
  | Event.writeBranch b => some b
  | _ => none

/-- Whether a command changes the remote: a push or a change of a pull request. -/
@[simp] def Event.isRemoteWrite : Event → Bool
  | Event.push _ => true
  | Event.updatePullRequest _ _ _ => true
  | Event.markReadyForReview _ => true
  | _ => false

/-- The rebase invocations recorded in a log, oldest first. -/
def rebaseCalls (log : List Event) : List RebaseOpts := log.filterMap Event.asRebase

/-- The fetch invocations recorded in a log, oldest first, as (remote, ref). -/
def fetchCalls (log : List Event) : List (String × String) := log.filterMap Event.asFetch

/-- The metadata writes recorded in a log, oldest first. -/
def writeCalls (log : List Event) : List Branch := log.filterMap Event.asWrite

/-- The pushes and pull-request changes recorded in a log, oldest first. -/
def remoteWrites (log : List Event) : List Event := log.filter Event.isRemoteWrite

/-- The call `meta.ReadBranch(repo, name)`. -/
def ReadBranch (s : State) (name : String) : Branch × Bool := s.store.ReadBranch name

/-- The call `meta.WriteBranch(repo, b)`: the attempt is logged, the store changes only when
the write succeeds. -/
def WriteBranch (env : Env) (s : State) (b : Branch) : Outcome Unit :=
  let s1 := { s with log := s.log ++ [Event.writeBranch b] }
  match env.writeError b with
  | some e => .error (e, s1)
  | none => .ok ((), { s1 with store := s.store.WriteBranch b })

/-- The call `git fetch <remote> <ref>`; local branches and commits stay as they are. -/
def Fetch (env : Env) (s : State) (remote ref : String) : Outcome Unit :=
  let s1 := { s with log := s.log ++ [Event.fetch remote ref] }
  match env.fetchError remote ref with
  | some e => .error (e, s1)
  | none => .ok ((), s1)

/-- The call `repo.RebaseParse(opts)`. -/
def RebaseParse (env : Env) (s : State) (opts : RebaseOpts) : Outcome RebaseResult :=
  let s1 := { s with log := s.log ++ [Event.rebase opts] }
  match (if opts.Continue then s.repo.RebaseContinue env.continueConflicts
         else s.repo.Rebase (env.rebaseConflicts opts) opts) with
  | .error e => .error (e, s1)
  | .ok (res, r) => .ok (res, { s1 with repo := r })

/-- The call `Push(repo, opts)` (missing): the current branch is pushed. -/
def Push (env : Env) (s : State) (opts : PushOpts) : Outcome Unit :=
  let s1 := { s with log := s.log ++ [Event.push opts] }
  match env.pushError with
  | some e => .error (e, s1)
  | none => .ok ((), s1)

/-! ## The synchronizer (sync_branch.go) -/

/-- The Go function `syncBranchUpdateNewTrunk` (lines 403-427): reparent `branch` onto
`newTrunk` and drop it from the children of its old parent. -/
def syncBranchUpdateNewTrunk (env : Env) (s : State) (branch : Branch) (newTrunk : String) :
    Outcome Branch :=
  let oldParent := (ReadBranch s branch.Parent.Name).1
  match ReadBranchState s.repo newTrunk true with
  | .error e => .error (e, s)
  | .ok parent =>
    let branch := { branch with Parent := parent }
    match WriteBranch env s branch with
    | .error e => .error e
    | .ok (_, s1) =>
      -- Remove from the old parent branches metadata
      if oldParent.Children.length > 0 then
        let oldParent :=
          { oldParent with Children := DeleteElement oldParent.Children branch.Name }
        match WriteBranch env s1 oldParent with
        | .error e => .error e
        | .ok (_, s2) => .ok (branch, s2)
      else .ok (branch, s1)

/-- Lines 140-196 of `syncBranchRebase`: the branch is a stack root. -/
def syncBranchRebaseStackRoot (env : Env) (s : State) (opts : SyncBranchOpts) (branch : Branch)
    (branchHead remote : String) : Outcome SyncBranchResult :=
  let trunk := branch.Parent.Name
  if !opts.ToTrunk then
    .ok ({ Status := RebaseAlreadyUpToDate, Continuation := none, Branch := branch }, s)
  else
    -- First, try to fetch latest commit from the trunk...
    match Fetch env s remote trunk with
    | .error e => .error e
    | .ok (_, s1) =>
    match s1.repo.RevParse trunk with
    | .error e => .error ("failed to get HEAD of trunk: " ++ e, s1)
    | .ok trunkHead =>
    match RebaseParse env s1 { Branch := opts.Branch, Upstream := trunkHead } with
    | .error e => .error e
    | .ok (rebase, s2) =>
      match rebase.Status with
      | RebaseConflict =>
        .ok ({ Status := rebase.Status
               Continuation := some { OldHead := branchHead }
               Branch := branch }, s2)
      | _ => .ok ({ Status := rebase.Status, Continuation := none, Branch := branch }, s2)

/-- Lines 207-273 of `syncBranchRebase`, scenario 1: the parent branch has been merged. -/
def syncBranchRebaseParentMerged (env : Env) (s : State) (opts : SyncBranchOpts)
    (branch parent : Branch) (branchHead remote : String) : Outcome SyncBranchResult :=
  match (if !opts.NoFetch then Fetch env s remote branch.MergeCommit else .ok ((), s)) with
  | .error e => .error e
  | .ok (_, s1) =>
  match RebaseParse env s1
      { Branch := branch.Name, Upstream := branch.Parent.Name, Onto := parent.MergeCommit } with
  | .error e => .error e
  | .ok (rebase, s2) =>
    if rebase.Status = RebaseConflict then
      .ok ({ Status := rebase.Status
             Continuation := some { OldHead := branchHead
                                    ParentCommit := parent.MergeCommit
                                    NewTrunk := parent.Parent.Name }
             Branch := branch }, s2)
    else
      match syncBranchUpdateNewTrunk env s2 branch parent.Parent.Name with
      | .error e => .error e
      | .ok (branch, s3) =>
        .ok ({ Status := rebase.Status, Continuation := none, Branch := branch }, s3)

/-- Lines 275-357 of `syncBranchRebase`, scenarios 2 and 3: the branch is up-to-date with its
parent, or it is not and is rebased onto the parent's tip. -/
def syncBranchRebaseParent (env : Env) (s : State) (branch parent : Branch)
    (branchHead : String) : Outcome SyncBranchResult :=
  -- Scenario 2: the branch is up-to-date with its parent.
  match s.repo.RevParse parent.Name with
  | .error e => .error ("failed to resolve HEAD of parent branch: " ++ e, s)
  | .ok parentHead =>
  match s.repo.MergeBase parentHead branch.Name with
  | .error e => .error ("failed to compute merge base: " ++ e, s)
  | .ok mergeBase =>
  if mergeBase = parentHead then
    .ok ({ Status := RebaseAlreadyUpToDate, Continuation := none, Branch := branch }, s)
  else
  -- Scenario 3: the branch is not up-to-date with its parent.
  match RebaseParse env s
      { Branch := branch.Name, Onto := parentHead, Upstream := branch.Parent.Head } with
  | .error e => .error e
  | .ok (rebase, s1) =>
    match rebase.Status with
    | RebaseConflict =>
      .ok ({ Status := rebase.Status
             Continuation := some { OldHead := branchHead, ParentCommit := parentHead }
             Branch := branch }, s1)
    | RebaseUpdated =>
      .ok ({ Status := rebase.Status, Continuation := none, Branch := branch }, s1)
    | _ =>
      -- We shouldn't even get an already-up-to-date or not-in-progress here...
      .ok ({ Status := rebase.Status, Continuation := none, Branch := branch }, s1)

/-- The Go function `syncBranchRebase` (lines 127-358): the rebase part of `SyncBranch`.  Its
three sections are the definitions above. -/
def syncBranchRebase (env : Env) (s : State) (opts : SyncBranchOpts) (branch : Branch) :
    Outcome SyncBranchResult :=
  match s.repo.RevParse branch.Name with
  | .error e => .error ("failed to get head of branch: " ++ e, s)
  | .ok branchHead =>
  match s.repo.DefaultRemote with
  | .error e => .error ("unable to determine remote target: " ++ e, s)
  | .ok remote =>
  if branch.IsStackRoot then syncBranchRebaseStackRoot env s opts branch branchHead remote
  else
    let parent := (ReadBranch s branch.Parent.Name).1
    if parent.MergeCommit ≠ "" then
      syncBranchRebaseParentMerged env s opts branch parent branchHead remote
    else syncBranchRebaseParent env s branch parent branchHead

/-- The Go function `syncBranchContinue` (lines 360-401): resume a suspended sync. -/
def syncBranchContinue (env : Env) (s : State) (opts : SyncBranchOpts) (branch : Branch) :
    Outcome SyncBranchResult :=
  match RebaseParse env s { Continue := true } with
  | .error e => .error e
  | .ok (rebase, s1) =>
    match rebase.Status with
    | RebaseConflict =>
      .ok ({ Status := rebase.Status, Continuation := opts.Continuation, Branch := branch }, s1)
    | _ =>
      -- Finish setting the new trunk for the branch
      match opts.Continuation with
      | none => .error ("nil continuation", s1)
      | some c =>
        if c.NewTrunk ≠ "" then
          match syncBranchUpdateNewTrunk env s1 branch c.NewTrunk with
          | .error e => .error e
          | .ok (branch, s2) =>
            .ok ({ Status := rebase.Status, Continuation := none, Branch := branch }, s2)
        else
          .ok ({ Status := rebase.Status, Continuation := none, Branch := branch }, s1)

/-- The call `client.PullRequest(ctx, id)` made when no pull request was handed in. -/
def fetchPullRequest (env : Env) (s : State) (id : String) : Outcome GhPullRequest :=
  let s1 := { s with log := s.log ++ [Event.queryPullRequest id] }
  match env.PullRequest id with
  | .error e => .error ("failed to fetch pull request info: " ++ e, s1)
  | .ok p => .ok (p, s1)

/-- The call `client.UpdatePullRequest(ctx, input)`. -/
def UpdatePullRequest (env : Env) (s : State) (id baseRefName body : String) : Outcome Unit :=
  let s1 := { s with log := s.log ++ [Event.updatePullRequest id baseRefName body] }
  match env.updatePullRequestError with
  | some e => .error (e, s1)
  | none => .ok ((), s1)

/-- The call `client.MarkPullRequestReadyForReview(ctx, id)`. -/
def MarkPullRequestReadyForReview (env : Env) (s : State) (id : String) : Outcome Unit :=
  let s1 := { s with log := s.log ++ [Event.markReadyForReview id] }
  match env.markReadyError with
  | some e => .error (e, s1)
  | none => .ok ((), s1)

/-- Lines 460-477 of `syncBranchPushAndUpdatePullRequest`: the flag `rebaseWithDraft`. -/
def rebaseWithDraft (env : Env) (pr : GhPullRequest) (branch : Branch) : Bool :=
  if pr.BaseBranchName ≠ branch.Parent.Name then
    match env.RebaseWithDraft with
    | none => if env.HasCodeowners then true else false
    | some v => v
  else false

/-- The Go function `syncBranchPushAndUpdatePullRequest` (lines 429-507). -/
def syncBranchPushAndUpdatePullRequest (env : Env) (s : State) (branch : Branch)
    (pr : Option GhPullRequest) : Outcome Unit :=
  match branch.PullRequest with
  | none => .ok ((), s)
  | some bpr =>
  if bpr.ID = "" then .ok ((), s)
  else
  match (match pr with
         | some p => (.ok (p, s) : Outcome GhPullRequest)
         | none => fetchPullRequest env s bpr.ID) with
  | .error e => .error e
  | .ok (pr, s0) =>
  if pr.State = PullRequestState.Closed ∨ pr.State = PullRequestState.Merged then .ok ((), s0)
  else
  let rebaseWithDraft := rebaseWithDraft env pr branch
  match Push env s0
      { ForceWithLease := true, SkipIfUpstreamNotSet := true, SkipIfUpstreamMatches := true } with
  | .error e => .error e
  | .ok (_, s1) =>
  match env.AddPRMetadata pr.Body branch with
  | .error e => .error (e, s1)
  | .ok prBody =>
  match UpdatePullRequest env s1 bpr.ID branch.Parent.Name prBody with
  | .error e => .error e
  | .ok (_, s2) =>
    if rebaseWithDraft then MarkPullRequestReadyForReview env s2 pr.ID
    else .ok ((), s2)

/-- Lines 112-123 of `SyncBranch`: on a conflict the result is returned as it is, otherwise
the branch is pushed and its pull request updated unless `NoPush`. -/
def syncBranchFinish (env : Env) (opts : SyncBranchOpts) (pull : Option GhPullRequest)
    (res : SyncBranchResult) (s : State) : Outcome SyncBranchResult :=
  let branch := res.Branch
  if res.Status = RebaseConflict then .ok (res, s)
  else if !opts.NoPush then
    match syncBranchPushAndUpdatePullRequest env s branch pull with
    | .error e => .error e
    | .ok (_, s1) => .ok (res, s1)
  else .ok (res, s)

/-- Modelled from the spec: `UpdatePullRequestState` (missing), step 1 of the dispatch of
section 4.3: refresh PR state from the remote; this may update `pull_request` and
`merge_commit` of the record, which is persisted when it changed. -/
def UpdatePullRequestState (env : Env) (s : State) (branchName : String) :
    Outcome UpdatePullRequestResult :=
  let branch := (ReadBranch s branchName).1
  let s1 := { s with log := s.log ++ [Event.refresh branchName] }
  match env.PullRequestState branch with
  | .error e => .error (e, s1)
  | .ok remote =>
    let updated := { branch with PullRequest := remote.PullRequest, MergeCommit := remote.MergeCommit }
    let changed := decide (branch.PullRequest ≠ remote.PullRequest)
    if updated = branch then .ok ({ Changed := changed, Branch := updated, Pull := remote.Pull }, s1)
    else
      match WriteBranch env s1 updated with
      | .error e => .error e
      | .ok (_, s2) => .ok ({ Changed := changed, Branch := updated, Pull := remote.Pull }, s2)

/-- The pre-sync refresh, lines 73-92 of `SyncBranch`: with `NoFetch` the record read from the
store is kept, otherwise it is replaced by the one `UpdatePullRequestState` returns.  When
the update is flagged `Changed`, lines 81-83 print `update.Pull.Permalink`: with a nil
`update.Pull` the dereference panics, which is the error outcome `panic: ...` here. -/
def syncBranchRefresh (env : Env) (s : State) (opts : SyncBranchOpts) (branch : Branch) :
    Outcome (Branch × Option GhPullRequest) :=
  if !opts.NoFetch then
    match UpdatePullRequestState env s branch.Name with
    | .error e => .error ("failed to fetch latest PR info: " ++ e.1, e.2)
    | .ok (update, s1) =>
      if update.Changed then
        match update.Pull with
        | none => .error ("panic: runtime error: nil pointer dereference", s1)
        | some _ => .ok ((update.Branch, update.Pull), s1)
      else .ok ((update.Branch, update.Pull), s1)
  else .ok ((branch, none), s)

/-- The Go function `SyncBranch` (lines 56-124): synchronizes a branch with its parent. -/
def SyncBranch (env : Env) (s : State) (opts : SyncBranchOpts) : Outcome SyncBranchResult :=
  let branch := (ReadBranch s opts.Branch).1
  match opts.Continuation with
  | some _ =>
    match syncBranchContinue env s opts branch with
    | .error e => .error e
    | .ok (res, s1) => syncBranchFinish env opts none res s1
  | none =>
    match syncBranchRefresh env s opts branch with
    | .error e => .error e
    | .ok ((branch, pull), s1) =>
      if branch.MergeCommit ≠ "" then
        .ok ({ Status := RebaseAlreadyUpToDate }, s1)
      else
        match syncBranchRebase env s1 opts branch with
        | .error e => .error e
        | .ok (res, s2) => syncBranchFinish env opts pull res s2

/-! ## Notions used in the statements -/

/-- Two states that differ only by commands that are neither rebases, fetches nor metadata
writes: same repository graph, same store, same rebase, fetch and write invocations. -/
def SameCore (t s : State) : Prop :=
  t.repo = s.repo ∧ t.store = s.store ∧ rebaseCalls t.log = rebaseCalls s.log ∧
    fetchCalls t.log = fetchCalls s.log ∧ writeCalls t.log = writeCalls s.log

/-- No commit the rewrite creates has the id of an existing commit or the name of a branch. -/
def Repo.Fresh (r : Repo) (p : PendingRebase) : Prop :=
  ∀ x, (p.NewCommits.lookup x).isSome = true → r.hasCommit x = false ∧ r.refs.lookup x = none

/-- The environment in which no fresh replay conflicts, everything else being equal. -/
def Env.withoutConflicts (env : Env) : Env := { env with rebaseConflicts := fun _ => false }

/-- Children-set agreement (P6): for every tracked branch `x` and every name `c`, the record
of `x` lists `c` among its children exactly when `c` is tracked and its record names `x` as
its parent. -/
def Store.ChildrenAgree (m : Store) : Prop :=
  ∀ x c, (m.ReadBranch x).2 = true →
    (c ∈ (m.ReadBranch x).1.Children ↔
      (m.ReadBranch c).2 = true ∧ (m.ReadBranch c).1.Parent.Name = x)

/-- Topology consistency (I1) as far as the reparent depends on it: no tracked branch is its
own parent, and every child a tracked record lists names that branch as its parent.  The
forest condition of I1 is not needed and left out. -/
def Store.TopologyConsistent (m : Store) : Prop :=
  ∀ x, (m.ReadBranch x).2 = true →
    (m.ReadBranch x).1.Parent.Name ≠ x ∧
    ∀ c, c ∈ (m.ReadBranch x).1.Children → (m.ReadBranch c).1.Parent.Name = x

/-- Every stored record carries its key as `Name`, as every record `WriteBranch` stores
does. -/
def Store.Keyed (m : Store) : Prop := ∀ k b, m k = some b → b.Name = k

/-! ## Example repositories -/

/-- An environment in which nothing fails, no replay conflicts and the hosting service
reports what the store already holds. -/
def Example.env : Env := {}

/-- An environment in which every fresh replay stops on a conflict and `rebase --continue`
goes through. -/
def Example.envConflict : Env := { rebaseConflicts := fun _ => true }

/-- The repository of `TestStackSyncMergeCommit`: `stack-1` (commits `1a`, `1b`) was
squash-merged into `main` as commit `S`, `stack-2` (commits `2a`, `2b`) is stacked on it. -/
def Example.squashed : State :=
  { repo :=
      { refs := [("main", "S"), ("stack-1", "1b"), ("stack-2", "2b")]
        commits := [("X", []), ("S", ["X"]), ("1a", ["X"]), ("1b", ["1a", "X"]),
                    ("2a", ["1b", "1a", "X"]), ("2b", ["2a", "1b", "1a", "X"])]
        remote := some "origin" }
    store := fun name =>
      if name = "stack-1" then
        some { Name := "stack-1", Parent := { Name := "main", Trunk := true }
               Children := ["stack-2"], MergeCommit := "S" }
      else if name = "stack-2" then
        some { Name := "stack-2", Parent := { Name := "stack-1", Head := "1b" } }
      else none }

/-- The state `Example.squashed` is left in by a sync of `stack-2` whose rebase onto `S`
stopped on a conflict: the rebase is suspended. -/
def Example.suspended : State :=
  (SyncBranch Example.envConflict Example.squashed
    { Branch := "stack-2", NoFetch := true, NoPush := true }).state

/-- The continuation that sync returned. -/
def Example.continuation : SyncBranchContinuation :=
  { OldHead := "2b", ParentCommit := "S", NewTrunk := "main" }

/-- An environment in which `rebase --continue` stops on a conflict again. -/
def Example.envStuck : Env := { continueConflicts := true }

/-- As `Example.squashed`, but `main` has gained the commit `S2` after `S`. -/
def Example.squashedEarlier : State :=
  { repo :=
      { refs := [("main", "S2"), ("stack-1", "1b"), ("stack-2", "2b")]
        commits := [("X", []), ("S", ["X"]), ("S2", ["S", "X"]), ("1a", ["X"]),
                    ("1b", ["1a", "X"]), ("2a", ["1b", "1a", "X"]),
                    ("2b", ["2a", "1b", "1a", "X"])]
        remote := some "origin" }
    store := Example.squashed.store }

/-- As `Example.squashedEarlier`, but `stack-2` has been merged as well, as commit `S2`. -/
def Example.bothMerged : State :=
  { repo := Example.squashedEarlier.repo
    store := fun name =>
      if name = "stack-1" then
        some { Name := "stack-1", Parent := { Name := "main", Trunk := true }
               Children := ["stack-2"], MergeCommit := "S" }
      else if name = "stack-2" then
        some { Name := "stack-2", Parent := { Name := "stack-1", Head := "1b" }
               MergeCommit := "S2" }
      else none }

/-- As `Example.squashed`, but the parent link of `stack-2` is flagged as a trunk. -/
def Example.flaggedTrunk : State :=
  { repo := Example.squashed.repo
    store := fun name =>
      if name = "stack-1" then
        some { Name := "stack-1", Parent := { Name := "main", Trunk := true }
               Children := ["stack-2"], MergeCommit := "S" }
      else if name = "stack-2" then
        some { Name := "stack-2", Parent := { Name := "stack-1", Head := "1b", Trunk := true } }
      else none }

/-- An environment in which the hosting service reports a pull request the store does not
know yet. -/
def Example.envNewPull : Env :=
  { PullRequestState := fun b =>
      .ok { PullRequest := some { ID := "PR_1", Number := 1 }, MergeCommit := b.MergeCommit
            Pull := some { ID := "PR_1", Number := 1, State := PullRequestState.Merged
                           BaseRefName := "stack-1" } } }

/-- An environment in which the hosting service cannot be reached. -/
def Example.envOffline : Env :=
  { PullRequestState := fun _ => .error "network unreachable" }

/-- A stack in order: `stack-1` (commits `1a`, `1b`) on `main`, `stack-2` (commits `2a`, `2b`)
on the tip of `stack-1`. -/
def Example.stacked : State :=
  { repo :=
      { refs := [("main", "X"), ("stack-1", "1b"), ("stack-2", "2b")]
        commits := [("X", []), ("1a", ["X"]), ("1b", ["1a", "X"]),
                    ("2a", ["1b", "1a", "X"]), ("2b", ["2a", "1b", "1a", "X"])]
        remote := some "origin" }
    store := fun name =>
      if name = "stack-1" then
        some { Name := "stack-1", Parent := { Name := "main", Head := "X", Trunk := true }
               Children := ["stack-2"] }
      else if name = "stack-2" then
        some { Name := "stack-2", Parent := { Name := "stack-1", Head := "1b" } }
      else none }

/-- The parent moved: `stack-2` (commit `Y`) was branched from `stack-1` at `A`, and `stack-1`
has gained the commit `B` since. -/
def Example.moved : State :=
  { repo :=
      { refs := [("main", "X"), ("stack-1", "B"), ("stack-2", "Y")]
        commits := [("X", []), ("A", ["X"]), ("B", ["A", "X"]), ("Y", ["A", "X"])]
        remote := some "origin" }
    store := fun name =>
      if name = "stack-1" then
        some { Name := "stack-1", Parent := { Name := "main", Head := "X", Trunk := true }
               Children := ["stack-2"] }
      else if name = "stack-2" then
        some { Name := "stack-2", Parent := { Name := "stack-1", Head := "A" } }
      else none }

/-- The state `Example.moved` is left in by a sync of `stack-2` whose rebase onto the tip of
`stack-1` stopped on a conflict. -/
def Example.suspendedMoved : State :=
  (SyncBranch Example.envConflict Example.moved
    { Branch := "stack-2", NoFetch := true, NoPush := true }).state

/-- As `Example.moved`, but `stack-2` has been merged into `stack-1` as commit `Z`, which
`stack-1` does not hold locally yet. -/
def Example.movedMerged : State :=
  { repo := Example.moved.repo
    store := fun name =>
      if name = "stack-1" then
        some { Name := "stack-1", Parent := { Name := "main", Head := "X", Trunk := true }
               Children := ["stack-2"] }
      else if name = "stack-2" then
        some { Name := "stack-2", Parent := { Name := "stack-1", Head := "A" }
               MergeCommit := "Z" }
      else none }

/-- As `Example.stacked`, in a repository that has no remote configured. -/
def Example.withoutRemote : State :=
  { repo := { Example.stacked.repo with remote := none }
    store := Example.stacked.store }

/-- As `Example.stacked`, but `stack-1`, the parent of `stack-2`, has no record in the store. -/
def Example.untrackedParent : State :=
  { repo := Example.stacked.repo
    store := fun name =>
      if name = "stack-2" then
        some { Name := "stack-2", Parent := { Name := "stack-1", Head := "1b" } }
      else none }

/-- The trunk advanced: `stack-1` (commit `A`) was branched from `main` at `X`, and `main` has
gained the commit `M` since. -/
def Example.trunkAdvanced : State :=
  { repo :=
      { refs := [("main", "M"), ("stack-1", "A")]
        commits := [("X", []), ("M", ["X"]), ("A", ["X"])]
        remote := some "origin" }
    store := fun name =>
      if name = "stack-1" then
        some { Name := "stack-1", Parent := { Name := "main", Head := "X", Trunk := true } }
      else none }

/-- A stack of three: `stack-0` on `main`, `stack-1` on `stack-0`, `stack-2` on `stack-1`;
`stack-1` has been squash-merged into its parent `stack-0` as commit `S`. -/
def Example.deep : State :=
  { repo :=
      { refs := [("main", "X"), ("stack-0", "S"), ("stack-1", "1a"), ("stack-2", "2a")]
        commits := [("X", []), ("0a", ["X"]), ("S", ["0a", "X"]), ("1a", ["0a", "X"]),
                    ("2a", ["1a", "0a", "X"])]
        remote := some "origin" }
    store := fun name =>
      if name = "stack-0" then
        some { Name := "stack-0", Parent := { Name := "main", Head := "X", Trunk := true }
               Children := ["stack-1"] }
      else if name = "stack-1" then
        some { Name := "stack-1", Parent := { Name := "stack-0", Head := "0a" }
               Children := ["stack-2"], MergeCommit := "S" }
      else if name = "stack-2" then
        some { Name := "stack-2", Parent := { Name := "stack-1", Head := "1a" } }
      else none }

/-- A store in which `stack-2` is recorded as its own parent and its own child. -/
def Example.selfParent : State :=
  { repo :=
      { refs := [("main", "X"), ("stack-2", "2a")]
        commits := [("X", []), ("2a", ["X"])]
        remote := some "origin" }
    store := fun name =>
      if name = "stack-2" then
        some { Name := "stack-2", Parent := { Name := "stack-2", Head := "2a" }
               Children := ["stack-2"] }
      else none }

/-- An environment in which the repository has a CODEOWNERS file and `rebaseWithDraft` is
not configured. -/
def Example.envCodeowners : Env := { HasCodeowners := true }

/-- The record of `stack-2` after its reparent onto `main`, with its pull request. -/
def Example.reparented : Branch :=
  { Name := "stack-2", Parent := { Name := "main", Head := "S", Trunk := true }
    PullRequest := some { ID := "PR_2", Number := 2 } }

/-- The open pull request of `stack-2`, whose base is still `stack-1`. -/
def Example.openPull : GhPullRequest :=
  { ID := "PR_2", Number := 2, State := PullRequestState.Open, BaseRefName := "stack-1" }

/-! ## Effects of the calls on the state -/

@[simp] theorem Outcome.state_ok {α : Type} (v : α × State) :
    Outcome.state (.ok v : Outcome α) = v.2 := rfl

@[simp] theorem Outcome.state_error {α : Type} (e : String × State) :
    Outcome.state (.error e : Outcome α) = e.2 := rfl

@[simp] theorem rebaseCalls_nil : rebaseCalls [] = [] := rfl
@[simp] theorem fetchCalls_nil : fetchCalls [] = [] := rfl
@[simp] theorem writeCalls_nil : writeCalls [] = [] := rfl
@[simp] theorem remoteWrites_nil : remoteWrites [] = [] := rfl

@[simp] theorem rebaseCalls_cons (e : Event) (es : List Event) :
    rebaseCalls (e :: es) = e.asRebase.toList ++ rebaseCalls es := by
  cases e <;> simp [rebaseCalls, List.filterMap_cons]

@[simp] theorem fetchCalls_cons (e : Event) (es : List Event) :
    fetchCalls (e :: es) = e.asFetch.toList ++ fetchCalls es := by
  cases e <;> simp [fetchCalls, List.filterMap_cons]

@[simp] theorem writeCalls_cons (e : Event) (es : List Event) :
    writeCalls (e :: es) = e.asWrite.toList ++ writeCalls es := by
  cases e <;> simp [writeCalls, List.filterMap_cons]

@[simp] theorem remoteWrites_cons (e : Event) (es : List Event) :
    remoteWrites (e :: es) = (if e.isRemoteWrite then [e] else []) ++ remoteWrites es := by
  cases e <;> simp [remoteWrites, List.filter_cons]

@[simp] theorem rebaseCalls_append (l₁ l₂ : List Event) :
    rebaseCalls (l₁ ++ l₂) = rebaseCalls l₁ ++ rebaseCalls l₂ := by
  simp [rebaseCalls]

@[simp] theorem fetchCalls_append (l₁ l₂ : List Event) :
    fetchCalls (l₁ ++ l₂) = fetchCalls l₁ ++ fetchCalls l₂ := by
  simp [fetchCalls]

@[simp] theorem writeCalls_append (l₁ l₂ : List Event) :
    writeCalls (l₁ ++ l₂) = writeCalls l₁ ++ writeCalls l₂ := by
  simp [writeCalls]

@[simp] theorem remoteWrites_append (l₁ l₂ : List Event) :
    remoteWrites (l₁ ++ l₂) = remoteWrites l₁ ++ remoteWrites l₂ := by
  simp [remoteWrites]

theorem WriteBranch_state (env : Env) (s : State) (b : Branch) :
    (WriteBranch env s b).state.log = s.log ++ [Event.writeBranch b] ∧
    (WriteBranch env s b).state.repo = s.repo := by
  unfold WriteBranch
  cases env.writeError b <;> simp

theorem Fetch_state (env : Env) (s : State) (remote ref : String) :
    (Fetch env s remote ref).state = { s with log := s.log ++ [Event.fetch remote ref] } := by
  unfold Fetch
  cases env.fetchError remote ref <;> simp

theorem RebaseParse_state (env : Env) (s : State) (o : RebaseOpts) :
    (RebaseParse env s o).state.log = s.log ++ [Event.rebase o] ∧
    (RebaseParse env s o).state.store = s.store := by
  unfold RebaseParse
  split <;> simp

theorem syncBranchUpdateNewTrunk_state (env : Env) (s : State) (b : Branch) (newTrunk : String) :
    rebaseCalls (syncBranchUpdateNewTrunk env s b newTrunk).state.log = rebaseCalls s.log ∧
    fetchCalls (syncBranchUpdateNewTrunk env s b newTrunk).state.log = fetchCalls s.log ∧
    remoteWrites (syncBranchUpdateNewTrunk env s b newTrunk).state.log = remoteWrites s.log ∧
    (syncBranchUpdateNewTrunk env s b newTrunk).state.repo = s.repo := by
  unfold syncBranchUpdateNewTrunk WriteBranch
  simp only
  cases ReadBranchState s.repo newTrunk true with
  | error e => simp
  | ok parent =>
    simp only
    cases env.writeError { b with Parent := parent } with
    | some e => simp
    | none =>
      simp only
      split
      · cases env.writeError _ <;> simp
      · simp

theorem SameCore.refl (s : State) : SameCore s s := ⟨rfl, rfl, rfl, rfl, rfl⟩

theorem SameCore.trans {a b c : State} (h₁ : SameCore a b) (h₂ : SameCore b c) :
    SameCore a c :=
  ⟨h₁.1.trans h₂.1, h₁.2.1.trans h₂.2.1, h₁.2.2.1.trans h₂.2.2.1,
    h₁.2.2.2.1.trans h₂.2.2.2.1, h₁.2.2.2.2.trans h₂.2.2.2.2⟩

theorem Push_state (env : Env) (s : State) (o : PushOpts) :
    (Push env s o).state = { s with log := s.log ++ [Event.push o] } := by
  unfold Push
  cases env.pushError <;> simp

theorem fetchPullRequest_state (env : Env) (s : State) (id : String) :
    (fetchPullRequest env s id).state = { s with log := s.log ++ [Event.queryPullRequest id] } := by
  unfold fetchPullRequest
  cases env.PullRequest id <;> simp

theorem UpdatePullRequest_state (env : Env) (s : State) (id base body : String) :
    (UpdatePullRequest env s id base body).state
      = { s with log := s.log ++ [Event.updatePullRequest id base body] } := by
  unfold UpdatePullRequest
  cases env.updatePullRequestError <;> simp

theorem MarkPullRequestReadyForReview_state (env : Env) (s : State) (id : String) :
    (MarkPullRequestReadyForReview env s id).state
      = { s with log := s.log ++ [Event.markReadyForReview id] } := by
  unfold MarkPullRequestReadyForReview
  cases env.markReadyError <;> simp

theorem syncBranchPushAndUpdatePullRequest_state (env : Env) (s : State) (branch : Branch)
    (pr : Option GhPullRequest) :
    SameCore (syncBranchPushAndUpdatePullRequest env s branch pr).state s := by
  unfold syncBranchPushAndUpdatePullRequest
  cases branch.PullRequest with
  | none => exact SameCore.refl s
  | some bpr =>
  simp only
  split
  · exact SameCore.refl s
  · have h0 : SameCore (Outcome.state (match pr with
        | some p => (.ok (p, s) : Outcome GhPullRequest)
        | none => fetchPullRequest env s bpr.ID)) s := by
      cases pr with
      | some p => exact SameCore.refl s
      | none => simp [fetchPullRequest_state, SameCore]
    generalize (match pr with
        | some p => (.ok (p, s) : Outcome GhPullRequest)
        | none => fetchPullRequest env s bpr.ID) = x at h0 ⊢
    rcases x with e | ⟨p, s0⟩
    · exact h0
    · simp only [Outcome.state_ok] at h0
      simp only
      split
      · exact h0
      · have h1 := Push_state env s0
          { ForceWithLease := true, SkipIfUpstreamNotSet := true, SkipIfUpstreamMatches := true }
        generalize Push env s0
          { ForceWithLease := true, SkipIfUpstreamNotSet := true,
            SkipIfUpstreamMatches := true } = y at h1 ⊢
        have h1' : SameCore y.state s := by
          rw [h1]; exact SameCore.trans (by simp [SameCore]) h0
        rcases y with e | ⟨_, s1⟩
        · exact h1'
        · simp only [Outcome.state_ok] at h1'
          simp only
          cases env.AddPRMetadata p.Body branch with
          | error e => exact h1'
          | ok prBody =>
          simp only
          have h2 := UpdatePullRequest_state env s1 bpr.ID branch.Parent.Name prBody
          generalize UpdatePullRequest env s1 bpr.ID branch.Parent.Name prBody = z at h2 ⊢
          have h2' : SameCore z.state s := by
            rw [h2]; exact SameCore.trans (by simp [SameCore]) h1'
          rcases z with e | ⟨_, s2⟩
          · exact h2'
          · simp only [Outcome.state_ok] at h2'
            simp only
            cases rebaseWithDraft env p branch with
            | true =>
              simp only [if_true]
              rw [MarkPullRequestReadyForReview_state]
              exact SameCore.trans (by simp [SameCore]) h2'
            | false => exact h2'

theorem syncBranchFinish_state (env : Env) (opts : SyncBranchOpts) (pull : Option GhPullRequest)
    (res : SyncBranchResult) (s : State) :
    SameCore (syncBranchFinish env opts pull res s).state s := by
  unfold syncBranchFinish
  simp only
  split
  · exact SameCore.refl s
  · split
    · have h := syncBranchPushAndUpdatePullRequest_state env s res.Branch pull
      generalize syncBranchPushAndUpdatePullRequest env s res.Branch pull = x at h ⊢
      rcases x with e | ⟨_, s1⟩ <;> exact h
    · exact SameCore.refl s

theorem syncBranchFinish_ok (env : Env) (opts : SyncBranchOpts) (pull : Option GhPullRequest)
    (res r : SyncBranchResult) (s t : State)
    (h : syncBranchFinish env opts pull res s = .ok (r, t)) : r = res := by
  unfold syncBranchFinish at h
  simp only at h
  split at h
  · simp at h; exact h.1.symm
  · split at h
    · split at h
      · simp at h
      · simp at h; exact h.1.symm
    · simp at h; exact h.1.symm

theorem syncBranchFinish_quiet (env : Env) (opts : SyncBranchOpts) (pull : Option GhPullRequest)
    (res : SyncBranchResult) (s : State)
    (h : res.Status = RebaseConflict ∨ opts.NoPush = true) :
    syncBranchFinish env opts pull res s = .ok (res, s) := by
  unfold syncBranchFinish
  rcases h with h | h <;> simp [h]

/-! ## The repository graph -/

theorem Repo.hasCommit_iff (r : Repo) (c : String) :
    r.hasCommit c = true ↔ c ≠ "" ∧ (r.commits.lookup c).isSome = true := by
  simp [Repo.hasCommit]

theorem Repo.mem_ancestry_self (r : Repo) (c : String) : c ∈ r.ancestry c := by
  simp [Repo.ancestry]

theorem Repo.RevParse_hasCommit {r : Repo} {rev c : String} (h : r.RevParse rev = .ok c) :
    r.hasCommit c = true := by
  unfold Repo.RevParse at h
  split at h
  · simp at h
  · split at h
    · rename_i hc
      simp at h; subst h; exact hc
    · split at h
      · split at h
        · rename_i hc
          simp at h; subst h; exact hc
        · simp at h
      · simp at h

theorem Repo.RevParse_ne_empty {r : Repo} {rev c : String} (h : r.RevParse rev = .ok c) :
    rev ≠ "" := by
  intro h0
  simp [Repo.RevParse, h0] at h

theorem Repo.RevParse_of_hasCommit {r : Repo} {c : String} (h : r.hasCommit c = true) :
    r.RevParse c = .ok c := by
  have hne : c ≠ "" := ((Repo.hasCommit_iff r c).1 h).1
  simp [Repo.RevParse, hne, h]

theorem Repo.RevParse_idem {r : Repo} {rev c : String} (h : r.RevParse rev = .ok c) :
    r.RevParse c = .ok c :=
  Repo.RevParse_of_hasCommit (Repo.RevParse_hasCommit h)

theorem Repo.MergeBase_of_mem {r : Repo} {a b ca cb : String} (ha : r.RevParse a = .ok ca)
    (hb : r.RevParse b = .ok cb) (hmem : ca ∈ r.ancestry cb) : r.MergeBase a b = .ok ca := by
  unfold Repo.MergeBase
  simp only [ha, hb]
  have : (r.ancestry ca).find? (fun c => decide (c ∈ r.ancestry cb)) = some ca := by
    simp [Repo.ancestry] at hmem ⊢
    simp [List.find?_cons, hmem]
  simp [this]

theorem Repo.MergeBase_congr {r : Repo} {a a' b c : String} (ha : r.RevParse a = .ok c)
    (ha' : r.RevParse a' = .ok c) : r.MergeBase a b = r.MergeBase a' b := by
  unfold Repo.MergeBase
  simp only [ha, ha']

theorem Repo.mem_ancestry_of_MergeBase {r : Repo} {a b ca cb : String}
    (ha : r.RevParse a = .ok ca) (hb : r.RevParse b = .ok cb) (h : r.MergeBase a b = .ok ca) :
    ca ∈ r.ancestry cb := by
  unfold Repo.MergeBase at h
  simp only [ha, hb] at h
  split at h
  · rename_i m hm
    simp at h; subst h
    have := List.find?_some hm
    simpa using this
  · simp at h

theorem Repo.IsAncestor_of_mem {r : Repo} {a b ca cb : String} (ha : r.RevParse a = .ok ca)
    (hb : r.RevParse b = .ok cb) (hmem : ca ∈ r.ancestry cb) : r.IsAncestor a b = true := by
  simp [Repo.IsAncestor, ha, hb, hmem]


theorem lookup_filter_ne {β : Type} (l : List (String × β)) (k b : String) (h : k ≠ b) :
    (l.filter (fun e => decide (e.1 ≠ b))).lookup k = l.lookup k := by
  induction l with
  | nil => rfl
  | cons e l ih =>
    obtain ⟨k', v⟩ := e
    by_cases hk : k' = b
    · have hd : decide ((k', v).1 ≠ b) = false := by simp [hk]
      have hkk : (k == k') = false := by rw [hk]; simpa using h
      rw [List.filter_cons, hd]
      simp only [Bool.false_eq_true, if_false, List.lookup_cons, hkk]
      exact ih
    · have hd : decide ((k', v).1 ≠ b) = true := by simp [hk]
      rw [List.filter_cons, hd]
      simp only [if_true, List.lookup_cons, ih]

theorem replayId_ne_empty (onto c : String) : replayId onto c ≠ "" := by
  intro h
  have := congrArg String.length h
  simp [replayId, String.length_append] at this
  have h2 : "@".length = 0 := this.1.2
  revert h2
  decide

theorem lookup_replayCommits_cons (base : List String) (i : String) (is : List String) :
    (replayCommits base (i :: is)).lookup i = some (is ++ base) := by
  simp [replayCommits]

theorem Repo.hasCommit_finishRebase (r : Repo) (p : PendingRebase) (x : String) :
    (r.finishRebase p).hasCommit x
      = ((decide (x ≠ "") && (p.NewCommits.lookup x).isSome) || r.hasCommit x) := by
  simp only [Repo.hasCommit, Repo.finishRebase, List.lookup_append]
  cases p.NewCommits.lookup x <;> cases r.commits.lookup x <;> simp

theorem Repo.Fresh_of_any {r : Repo} {p : PendingRebase}
    (h : p.NewCommits.any (fun e => r.hasCommit e.1 || (r.refs.lookup e.1).isSome) = false) :
    r.Fresh p := by
  intro x hx
  rw [List.lookup_isSome_iff] at hx
  obtain ⟨e, he, hxe⟩ := hx
  have hxe' : x = e.1 := by simpa using hxe
  subst hxe'
  have := (List.any_eq_false.1 h) e he
  rw [Bool.not_eq_true, Bool.or_eq_false_iff] at this
  refine ⟨this.1, ?_⟩
  cases hl : r.refs.lookup e.1 with
  | none => rfl
  | some v =>
    have h2 := this.2
    rw [hl] at h2
    simp at h2

theorem Repo.RevParse_finishRebase_of_ne {r : Repo} {p : PendingRebase} (hf : r.Fresh p)
    {rev c : String} (hne : rev ≠ p.Branch) (h : r.RevParse rev = .ok c) :
    (r.finishRebase p).RevParse rev = .ok c := by
  have hrev : rev ≠ "" := Repo.RevParse_ne_empty h
  have hc : r.hasCommit c = true := Repo.RevParse_hasCommit h
  have hc' : (r.finishRebase p).hasCommit c = true := by
    rw [Repo.hasCommit_finishRebase, hc]; simp
  unfold Repo.RevParse at h ⊢
  simp only [hrev, if_false] at h ⊢
  cases hr : r.hasCommit rev with
  | true =>
    simp only [hr, if_true] at h
    have : (r.finishRebase p).hasCommit rev = true := by
      rw [Repo.hasCommit_finishRebase, hr]; simp
    simp only [this, if_true]
    exact h
  | false =>
    simp only [hr, Bool.false_eq_true, if_false] at h
    cases hl : r.refs.lookup rev with
    | none => simp [hl] at h
    | some v =>
      simp only [hl] at h
      have hnew : (p.NewCommits.lookup rev).isSome = false := by
        cases hx : (p.NewCommits.lookup rev).isSome with
        | false => rfl
        | true =>
          have := (hf rev hx).2
          rw [hl] at this
          simp at this
      have hr' : (r.finishRebase p).hasCommit rev = false := by
        rw [Repo.hasCommit_finishRebase, hnew, hr]
        simp
      have hk : (rev == p.Branch) = false := by simpa using hne
      have hl' : (r.finishRebase p).refs.lookup rev = some v := by
        simp only [Repo.finishRebase, List.lookup_cons, hk]
        rw [lookup_filter_ne _ _ _ hne, hl]
      simp only [hr', hl', Bool.false_eq_true, if_false]
      split at h
      · simp at h; subst h
        simp [hc']
      · simp at h


theorem Repo.RevParse_finishRebase_branch {r : Repo} {p : PendingRebase} (hf : r.Fresh p)
    (hb : p.Branch ≠ "") (hc : r.hasCommit p.Branch = false)
    (hl : (r.refs.lookup p.Branch).isSome = true)
    (hh : (r.finishRebase p).hasCommit p.NewHead = true) :
    (r.finishRebase p).RevParse p.Branch = .ok p.NewHead := by
  have hnew : (p.NewCommits.lookup p.Branch).isSome = false := by
    cases hx : (p.NewCommits.lookup p.Branch).isSome with
    | false => rfl
    | true =>
      have := (hf p.Branch hx).2
      rw [this] at hl
      simp at hl
  have hc' : (r.finishRebase p).hasCommit p.Branch = false := by
    rw [Repo.hasCommit_finishRebase, hnew, hc]; simp
  have hl' : (r.finishRebase p).refs.lookup p.Branch = some p.NewHead := by
    simp [Repo.finishRebase]
  unfold Repo.RevParse
  simp only [hb, if_false, hc', Bool.false_eq_true, hl', hh, if_true]

theorem Repo.planRebase_head (r : Repo) (branch tip upstream onto : String)
    (ho : r.hasCommit onto = true) :
    let p := r.planRebase branch tip upstream onto
    (r.finishRebase p).hasCommit p.NewHead = true ∧
      onto ∈ (r.finishRebase p).ancestry p.NewHead := by
  intro p
  show (r.finishRebase (r.planRebase branch tip upstream onto)).hasCommit
      (r.planRebase branch tip upstream onto).NewHead = true ∧
    onto ∈ (r.finishRebase (r.planRebase branch tip upstream onto)).ancestry
      (r.planRebase branch tip upstream onto).NewHead
  unfold Repo.planRebase
  simp only
  cases hids : (r.replaySet upstream tip).map (replayId onto) with
  | nil =>
    constructor
    · rw [Repo.hasCommit_finishRebase]
      simp [ho]
    · simp [Repo.ancestry]
  | cons i is =>
    have hi : i ≠ "" := by
      have hmem : i ∈ (r.replaySet upstream tip).map (replayId onto) := by simp [hids]
      obtain ⟨c, _, hc⟩ := List.mem_map.1 hmem
      rw [← hc]
      exact replayId_ne_empty onto c
    constructor
    · rw [Repo.hasCommit_finishRebase]
      simp [hi, replayCommits]
    · simp [Repo.ancestry, Repo.finishRebase, replayCommits, List.lookup_append]

/-- What a fresh rebase that did not stop on a conflict leaves behind: the branch resolves to
a tip that has the commit of `onto` (of `upstream` when no `onto` was given) in its history,
and every other revision resolves as before. -/
theorem Repo.Rebase_spec {r r' : Repo} {conflicts : Bool} {opts : RebaseOpts}
    {res : RebaseResult} (h : r.Rebase conflicts opts = .ok (res, r'))
    (hs : res.Status ≠ RebaseConflict) :
    ∃ tip onto,
      r.RevParse (if opts.Onto = "" then opts.Upstream else opts.Onto) = .ok onto ∧
      r'.RevParse opts.Branch = .ok tip ∧ onto ∈ r'.ancestry tip ∧
      (∀ rev c, rev ≠ opts.Branch → r.RevParse rev = .ok c → r'.RevParse rev = .ok c) ∧
      r'.remote = r.remote := by
  unfold Repo.Rebase at h
  split at h
  · simp at h
  · split at h
    · simp at h
    · rename_i hg
      simp only [Bool.or_eq_true, not_or, Bool.not_eq_true] at hg
      obtain ⟨hbc, hbl⟩ := hg
      have hbl' : (r.refs.lookup opts.Branch).isSome = true := by
        cases hx : r.refs.lookup opts.Branch with
        | none => simp [hx] at hbl
        | some v => rfl
      cases ht : r.RevParse opts.Branch with
      | error e => simp [ht] at h
      | ok tip =>
      simp only [ht] at h
      cases hu : r.RevParse opts.Upstream with
      | error e => simp [hu] at h
      | ok upstream =>
      simp only [hu] at h
      have honto : ∀ onto, (if opts.Onto = "" then (.ok upstream : Except String String)
          else r.RevParse opts.Onto) = .ok onto →
          r.RevParse (if opts.Onto = "" then opts.Upstream else opts.Onto) = .ok onto := by
        intro onto ho
        by_cases hO : opts.Onto = ""
        · simp only [hO, if_true] at ho ⊢
          simp at ho; subst ho; exact hu
        · simp only [hO, if_false] at ho ⊢
          exact ho
      generalize (if opts.Onto = "" then (.ok upstream : Except String String)
          else r.RevParse opts.Onto) = ox at h honto
      cases ox with
      | error e => simp at h
      | ok onto =>
      have ho := honto onto rfl
      simp only at h
      split at h
      · rename_i hup
        simp at h
        obtain ⟨_, rfl⟩ := h
        refine ⟨tip, onto, ho, ht, ?_, fun _ _ _ hc => hc, rfl⟩
        rw [hup]
        exact List.mem_append_right _ (Repo.mem_ancestry_self r onto)
      · split at h
        · simp at h
        · rename_i hany
          have hfresh : r.Fresh (r.planRebase opts.Branch tip upstream onto) :=
            Repo.Fresh_of_any (by simpa using hany)
          split at h
          · simp at h
            exact absurd (by rw [← h.1]) hs
          · simp at h
            obtain ⟨_, rfl⟩ := h
            have hhead := Repo.planRebase_head r opts.Branch tip upstream onto
              (Repo.RevParse_hasCommit ho)
            refine ⟨_, onto, ho, ?_, hhead.2, ?_, rfl⟩
            · exact Repo.RevParse_finishRebase_branch hfresh
                (Repo.RevParse_ne_empty ht) hbc hbl' hhead.1
            · intro rev c hne hc
              exact Repo.RevParse_finishRebase_of_ne hfresh hne hc

/-! ## The phases of `SyncBranch` -/

theorem RebaseParse_ok {env : Env} {s t : State} {o : RebaseOpts} {res : RebaseResult}
    (h : RebaseParse env s o = .ok (res, t)) :
    t.store = s.store ∧ t.log = s.log ++ [Event.rebase o] ∧
    (if o.Continue then s.repo.RebaseContinue env.continueConflicts
      else s.repo.Rebase (env.rebaseConflicts o) o) = .ok (res, t.repo) := by
  unfold RebaseParse at h
  simp only at h
  split at h
  · simp at h
  · rename_i res' r' heq
    simp at h
    obtain ⟨rfl, rfl⟩ := h
    exact ⟨rfl, rfl, heq⟩

theorem UpdatePullRequestState_state (env : Env) (s : State) (name : String) :
    (UpdatePullRequestState env s name).state.repo = s.repo ∧
    rebaseCalls (UpdatePullRequestState env s name).state.log = rebaseCalls s.log ∧
    fetchCalls (UpdatePullRequestState env s name).state.log = fetchCalls s.log ∧
    remoteWrites (UpdatePullRequestState env s name).state.log = remoteWrites s.log := by
  unfold UpdatePullRequestState WriteBranch
  simp only
  cases env.PullRequestState (ReadBranch s name).1 with
  | error e => simp
  | ok remote =>
    simp only
    split
    · simp
    · cases env.writeError _ <;> simp

theorem syncBranchRefresh_state (env : Env) (s : State) (opts : SyncBranchOpts) (b : Branch) :
    (syncBranchRefresh env s opts b).state.repo = s.repo ∧
    rebaseCalls (syncBranchRefresh env s opts b).state.log = rebaseCalls s.log ∧
    fetchCalls (syncBranchRefresh env s opts b).state.log = fetchCalls s.log ∧
    remoteWrites (syncBranchRefresh env s opts b).state.log = remoteWrites s.log := by
  unfold syncBranchRefresh
  split
  · have h := UpdatePullRequestState_state env s b.Name
    generalize UpdatePullRequestState env s b.Name = x at h ⊢
    rcases x with e | ⟨u, s1⟩
    · exact h
    · simp only
      split
      · split <;> exact h
      · exact h
  · simp

theorem syncBranchRefresh_noFetch {env : Env} {s s1 : State} {opts : SyncBranchOpts}
    {b B : Branch} {pull : Option GhPullRequest} (hn : opts.NoFetch = true)
    (h : syncBranchRefresh env s opts b = .ok ((B, pull), s1)) :
    B = b ∧ pull = none ∧ s1 = s := by
  unfold syncBranchRefresh at h
  simp [hn] at h
  exact ⟨h.1.1.symm, h.1.2.symm, h.2.symm⟩

/-- A refresh that is not skipped hands on what `UpdatePullRequestState` returned. -/
theorem syncBranchRefresh_fetch_ok {env : Env} {s s1 : State} {opts : SyncBranchOpts}
    {b B : Branch} {pull : Option GhPullRequest} (hn : opts.NoFetch = false)
    (h : syncBranchRefresh env s opts b = .ok ((B, pull), s1)) :
    ∃ u, UpdatePullRequestState env s b.Name = .ok (u, s1) ∧ B = u.Branch ∧ pull = u.Pull ∧
      (u.Changed = true → ∃ p, u.Pull = some p) := by
  unfold syncBranchRefresh at h
  simp only [hn, Bool.not_false, if_true] at h
  cases hu : UpdatePullRequestState env s b.Name with
  | error e => rw [hu] at h; simp at h
  | ok v =>
    obtain ⟨u, s2⟩ := v
    rw [hu] at h
    simp only at h
    split at h
    · rename_i hc
      split at h
      · simp at h
      · rename_i p hp
        simp only [Except.ok.injEq, Prod.mk.injEq] at h
        obtain ⟨⟨rfl, rfl⟩, rfl⟩ := h
        exact ⟨u, rfl, rfl, rfl, fun _ => ⟨p, hp⟩⟩
    · rename_i hc
      simp only [Except.ok.injEq, Prod.mk.injEq] at h
      obtain ⟨⟨rfl, rfl⟩, rfl⟩ := h
      exact ⟨u, rfl, rfl, rfl, fun hch => absurd hch hc⟩

/-- The dereference of lines 81-83: an update flagged `Changed` without a pull request makes
the refresh panic. -/
theorem syncBranchRefresh_nil_pull {env : Env} {s s1 : State} {opts : SyncBranchOpts}
    {b : Branch} {u : UpdatePullRequestResult} (hn : opts.NoFetch = false)
    (hu : UpdatePullRequestState env s b.Name = .ok (u, s1)) (hc : u.Changed = true)
    (hp : u.Pull = none) :
    syncBranchRefresh env s opts b
      = .error ("panic: runtime error: nil pointer dereference", s1) := by
  unfold syncBranchRefresh
  simp only [hn, Bool.not_false, if_true, hu, hc, hp]

theorem Store.ReadBranch_name (m : Store) (name : String) :
    (m.ReadBranch name).1.Name = name ∨ m.ReadBranch name = ({}, false) := by
  unfold Store.ReadBranch
  cases m name <;> simp

theorem Store.ReadBranch_write (m : Store) (b : Branch) :
    ((m.WriteBranch b).ReadBranch b.Name).1 = b := by
  simp [Store.ReadBranch, Store.WriteBranch]

theorem Store.ReadBranch_write_ne (m : Store) (b : Branch) (name : String) (h : name ≠ b.Name) :
    (m.WriteBranch b).ReadBranch name = m.ReadBranch name := by
  simp [Store.ReadBranch, Store.WriteBranch, h]

theorem UpdatePullRequestState_ok {env : Env} {s s1 : State} {name : String}
    {u : UpdatePullRequestResult} (h : UpdatePullRequestState env s name = .ok (u, s1)) :
    u.Branch.Name = (ReadBranch s name).1.Name ∧
    u.Branch.Parent = (ReadBranch s name).1.Parent ∧
    u.Branch.Children = (ReadBranch s name).1.Children ∧
    ((s1.store = s.store ∧ u.Branch = (ReadBranch s name).1) ∨
      s1.store = s.store.WriteBranch u.Branch) := by
  unfold UpdatePullRequestState at h
  simp only at h
  cases hq : env.PullRequestState (ReadBranch s name).1 with
  | error e => rw [hq] at h; simp at h
  | ok remote =>
    rw [hq] at h
    simp only at h
    split at h
    · rename_i hsame
      simp only [Except.ok.injEq, Prod.mk.injEq] at h
      obtain ⟨rfl, rfl⟩ := h
      exact ⟨rfl, rfl, rfl, Or.inl ⟨rfl, hsame⟩⟩
    · unfold WriteBranch at h
      simp only at h
      cases hw : env.writeError { (ReadBranch s name).1 with
          PullRequest := remote.PullRequest, MergeCommit := remote.MergeCommit } with
      | some e => rw [hw] at h; simp at h
      | none =>
        rw [hw] at h
        simp only [Except.ok.injEq, Prod.mk.injEq] at h
        obtain ⟨rfl, rfl⟩ := h
        exact ⟨rfl, rfl, rfl, Or.inr rfl⟩

/-- When the record the refresh hands on names a branch, it is the record of the branch being
synchronized: it keeps the parent link and the children of the stored record and it is the
record the store holds afterwards. -/
theorem syncBranchRefresh_ok {env : Env} {s s1 : State} {opts : SyncBranchOpts}
    {B : Branch} {pull : Option GhPullRequest}
    (h : syncBranchRefresh env s opts (ReadBranch s opts.Branch).1 = .ok ((B, pull), s1))
    (hB : B.Name ≠ "") :
    B.Name = opts.Branch ∧ B.Parent = (ReadBranch s opts.Branch).1.Parent ∧
    B.Children = (ReadBranch s opts.Branch).1.Children ∧ (ReadBranch s1 opts.Branch).1 = B := by
  have hname := Store.ReadBranch_name s.store opts.Branch
  have hempty : (ReadBranch s opts.Branch).1.Name ≠ "" →
      (ReadBranch s opts.Branch).1.Name = opts.Branch := by
    intro hne
    rcases hname with hn | hn
    · exact hn
    · exfalso; apply hne; simp [ReadBranch, hn]
  by_cases hn : opts.NoFetch = true
  · obtain ⟨rfl, _, rfl⟩ := syncBranchRefresh_noFetch hn h
    exact ⟨hempty hB, rfl, rfl, rfl⟩
  · obtain ⟨u, hu, rfl, rfl, _⟩ := syncBranchRefresh_fetch_ok (by simpa using hn) h
    · obtain ⟨h1, h2, h3, h4⟩ := UpdatePullRequestState_ok hu
      have hne : (ReadBranch s opts.Branch).1.Name ≠ "" := by
        intro h0
        rw [h0] at h1
        apply hB
        rw [h1]
        rcases Store.ReadBranch_name s.store "" with hx | hx
        · exact hx
        · simp [ReadBranch, hx]
      have hk := hempty hne
      rw [hk] at h1 h2 h3 h4
      refine ⟨h1.trans hk, h2, h3, ?_⟩
      rcases h4 with ⟨hs, hb⟩ | hs
      · simp only [ReadBranch] at hb ⊢
        rw [hs]; exact hb.symm
      · simp only [ReadBranch]
        rw [hs]
        have := Store.ReadBranch_write s.store u.Branch
        rw [h1, hk] at this
        exact this

/-- A fresh `SyncBranch` in terms of its phases: refresh, merged check, rebase, finish. -/
theorem SyncBranch_fresh {env : Env} {s s1 : State} {opts : SyncBranchOpts} {B : Branch}
    {pull : Option GhPullRequest} (hfresh : opts.Continuation = none)
    (href : syncBranchRefresh env s opts (ReadBranch s opts.Branch).1 = .ok ((B, pull), s1)) :
    SyncBranch env s opts =
      if B.MergeCommit ≠ "" then .ok ({ Status := RebaseAlreadyUpToDate }, s1)
      else
        match syncBranchRebase env s1 opts B with
        | .error e => .error e
        | .ok (res, s2) => syncBranchFinish env opts pull res s2 := by
  unfold SyncBranch
  simp only [hfresh, href]

/-- A fresh sync skips a branch whose record, after the refresh, has a merge commit. -/
theorem SyncBranch_fresh_merged {env : Env} {s s1 : State} {opts : SyncBranchOpts} {B : Branch}
    {pull : Option GhPullRequest} (hfresh : opts.Continuation = none)
    (href : syncBranchRefresh env s opts (ReadBranch s opts.Branch).1 = .ok ((B, pull), s1))
    (hB : B.MergeCommit ≠ "") :
    SyncBranch env s opts
      = .ok ({ Status := RebaseAlreadyUpToDate, Continuation := none, Branch := {} }, s1) := by
  rw [SyncBranch_fresh hfresh href, if_pos hB]

/-- A fresh sync of a branch that is not merged returns what its rebase phase returns; the
finish changes neither the repository graph nor the store and issues no rebase, fetch or
metadata write. -/
theorem SyncBranch_fresh_ok {env : Env} {s s1 t : State} {opts : SyncBranchOpts} {B : Branch}
    {pull : Option GhPullRequest} {res : SyncBranchResult} (hfresh : opts.Continuation = none)
    (href : syncBranchRefresh env s opts (ReadBranch s opts.Branch).1 = .ok ((B, pull), s1))
    (hB : B.MergeCommit = "") (h : SyncBranch env s opts = .ok (res, t)) :
    ∃ s2, syncBranchRebase env s1 opts B = .ok (res, s2) ∧ SameCore t s2 := by
  rw [SyncBranch_fresh hfresh href] at h
  simp only [hB, ne_eq, not_true_eq_false, if_false] at h
  cases hr : syncBranchRebase env s1 opts B with
  | error e => rw [hr] at h; simp at h
  | ok v =>
    obtain ⟨res', s2⟩ := v
    rw [hr] at h
    simp only at h
    have hres := syncBranchFinish_ok env opts pull res' res s2 t h
    subst hres
    refine ⟨s2, rfl, ?_⟩
    have := syncBranchFinish_state env opts pull res s2
    rw [h] at this
    exact this

theorem SyncBranch_fresh_state {env : Env} {s s1 : State} {opts : SyncBranchOpts} {B : Branch}
    {pull : Option GhPullRequest} (hfresh : opts.Continuation = none)
    (href : syncBranchRefresh env s opts (ReadBranch s opts.Branch).1 = .ok ((B, pull), s1))
    (hB : B.MergeCommit = "") :
    SameCore (SyncBranch env s opts).state (syncBranchRebase env s1 opts B).state := by
  rw [SyncBranch_fresh hfresh href]
  simp only [hB, ne_eq, not_true_eq_false, if_false]
  cases hr : syncBranchRebase env s1 opts B with
  | error e => exact SameCore.refl _
  | ok v =>
    obtain ⟨res', s2⟩ := v
    exact syncBranchFinish_state env opts pull res' s2

/-! ## C1: the arguments of the rebase -/

theorem syncBranchRebaseParentMerged_calls (env : Env) (s : State) (opts : SyncBranchOpts)
    (B P : Branch) (branchHead remote : String) :
    rebaseCalls (syncBranchRebaseParentMerged env s opts B P branchHead remote).state.log
        = rebaseCalls s.log ∨
    rebaseCalls (syncBranchRebaseParentMerged env s opts B P branchHead remote).state.log
        = rebaseCalls s.log ++
          [{ Branch := B.Name, Upstream := B.Parent.Name, Onto := P.MergeCommit }] := by
  unfold syncBranchRebaseParentMerged
  have hf : rebaseCalls (Outcome.state (if !opts.NoFetch then Fetch env s remote B.MergeCommit
      else .ok ((), s))).log = rebaseCalls s.log := by
    split <;> simp [Fetch_state]
  generalize (if !opts.NoFetch then Fetch env s remote B.MergeCommit
      else (.ok ((), s) : Outcome Unit)) = x at hf ⊢
  rcases x with e | ⟨_, s1⟩
  · left; simpa using hf
  · right
    simp only [Outcome.state_ok] at hf
    simp only
    have hr := RebaseParse_state env s1
      { Branch := B.Name, Upstream := B.Parent.Name, Onto := P.MergeCommit }
    generalize RebaseParse env s1
      { Branch := B.Name, Upstream := B.Parent.Name, Onto := P.MergeCommit } = y at hr ⊢
    rcases y with e | ⟨rebase, s2⟩
    · simp at hr; simp [hr.1, hf]
    · simp only [Outcome.state_ok] at hr
      simp only
      split
      · simp [hr.1, hf]
      · have hu := syncBranchUpdateNewTrunk_state env s2 B P.Parent.Name
        generalize syncBranchUpdateNewTrunk env s2 B P.Parent.Name = z at hu ⊢
        rcases z with e | ⟨b, s3⟩
        · simp at hu; simp [hu.1, hr.1, hf]
        · simp at hu; simp [hu.1, hr.1, hf]

theorem syncBranchRebaseParent_calls (env : Env) (s : State) (B P : Branch)
    (branchHead : String) :
    rebaseCalls (syncBranchRebaseParent env s B P branchHead).state.log = rebaseCalls s.log ∨
    ∃ parentHead, s.repo.RevParse P.Name = .ok parentHead ∧
      rebaseCalls (syncBranchRebaseParent env s B P branchHead).state.log
        = rebaseCalls s.log ++
          [{ Branch := B.Name, Onto := parentHead, Upstream := B.Parent.Head }] := by
  unfold syncBranchRebaseParent
  cases hp : s.repo.RevParse P.Name with
  | error e => left; rfl
  | ok parentHead =>
    simp only
    cases s.repo.MergeBase parentHead B.Name with
    | error e => left; rfl
    | ok mergeBase =>
      simp only
      split
      · left; rfl
      · right
        refine ⟨parentHead, rfl, ?_⟩
        have hr := RebaseParse_state env s
          { Branch := B.Name, Onto := parentHead, Upstream := B.Parent.Head }
        generalize RebaseParse env s
          { Branch := B.Name, Onto := parentHead, Upstream := B.Parent.Head } = y at hr ⊢
        rcases y with e | ⟨rebase, s1⟩
        · simp at hr; simp [hr.1]
        · simp only [Outcome.state_ok] at hr
          simp only
          split <;> simp [hr.1]

/-- C1 (rebase phase): every rebase `syncBranchRebase` issues for a branch that is not a stack
root has the arguments of its scenario. -/
theorem syncBranchRebase_calls (env : Env) (s : State) (opts : SyncBranchOpts) (B : Branch)
    (hroot : B.IsStackRoot = false) :
    rebaseCalls (syncBranchRebase env s opts B).state.log = rebaseCalls s.log ∨
    ((ReadBranch s B.Parent.Name).1.MergeCommit ≠ "" ∧
      rebaseCalls (syncBranchRebase env s opts B).state.log = rebaseCalls s.log ++
        [{ Branch := B.Name, Upstream := B.Parent.Name,
           Onto := (ReadBranch s B.Parent.Name).1.MergeCommit }]) ∨
    ((ReadBranch s B.Parent.Name).1.MergeCommit = "" ∧
      ∃ parentHead, s.repo.RevParse (ReadBranch s B.Parent.Name).1.Name = .ok parentHead ∧
        rebaseCalls (syncBranchRebase env s opts B).state.log = rebaseCalls s.log ++
          [{ Branch := B.Name, Upstream := B.Parent.Head, Onto := parentHead }]) := by
  unfold syncBranchRebase
  cases s.repo.RevParse B.Name with
  | error e => left; rfl
  | ok branchHead =>
  cases s.repo.DefaultRemote with
  | error e => left; rfl
  | ok remote =>
  simp only [hroot, Bool.false_eq_true, if_false]
  by_cases hM : (ReadBranch s B.Parent.Name).1.MergeCommit = ""
  · simp only [hM, ne_eq, not_true_eq_false, if_false]
    rcases syncBranchRebaseParent_calls env s B (ReadBranch s B.Parent.Name).1 branchHead
      with h | ⟨parentHead, hp, h⟩
    · left; exact h
    · right; right; exact ⟨trivial, parentHead, hp, h⟩
  · simp only [hM, ne_eq, not_false_eq_true, if_true]
    rcases syncBranchRebaseParentMerged_calls env s opts B (ReadBranch s B.Parent.Name).1
      branchHead remote with h | h
    · left; exact h
    · right; left; exact ⟨trivial, h⟩


/-- C1: in a fresh sync of a branch `B` (the record at hand after the refresh) that is neither
a stack root nor merged, every rebase that is invoked has the arguments of its scenario: with
`M` the non-empty merge commit of the parent record `P`, `branch = B.Name`,
`upstream = B.Parent.Name` and `onto = M`; otherwise `branch = B.Name`,
`upstream = B.Parent.Head` (the stored snapshot) and `onto` the tip of `P` resolved in this
sync.  At most one rebase is invoked. -/
theorem SyncBranch_rebase_arguments (env : Env) (s s1 : State) (opts : SyncBranchOpts)
    (B : Branch) (pull : Option GhPullRequest) (hfresh : opts.Continuation = none)
    (href : syncBranchRefresh env s opts (ReadBranch s opts.Branch).1 = .ok ((B, pull), s1))
    (hroot : B.IsStackRoot = false) (hmerged : B.MergeCommit = "") :
    rebaseCalls (SyncBranch env s opts).state.log = rebaseCalls s.log ∨
    ((ReadBranch s1 B.Parent.Name).1.MergeCommit ≠ "" ∧
      rebaseCalls (SyncBranch env s opts).state.log = rebaseCalls s.log ++
        [{ Branch := B.Name, Upstream := B.Parent.Name,
           Onto := (ReadBranch s1 B.Parent.Name).1.MergeCommit }]) ∨
    ((ReadBranch s1 B.Parent.Name).1.MergeCommit = "" ∧
      ∃ parentHead, s1.repo.RevParse (ReadBranch s1 B.Parent.Name).1.Name = .ok parentHead ∧
        rebaseCalls (SyncBranch env s opts).state.log = rebaseCalls s.log ++
          [{ Branch := B.Name, Upstream := B.Parent.Head, Onto := parentHead }]) := by
  have h1 : rebaseCalls s1.log = rebaseCalls s.log := by
    have := (syncBranchRefresh_state env s opts (ReadBranch s opts.Branch).1).2.1
    rw [href] at this
    exact this
  have h2 := (SyncBranch_fresh_state hfresh href hmerged).2.2.1
  rw [h2, ← h1]
  exact syncBranchRebase_calls env s1 opts B hroot

/-! ## What a returned result tells about the run -/

theorem ReadBranchState_ok {r : Repo} {name : String} {trunk : Bool} {p : BranchState}
    (h : ReadBranchState r name trunk = .ok p) :
    ∃ head, r.RevParse name = .ok head ∧ p = { Name := name, Head := head, Trunk := trunk } := by
  unfold ReadBranchState at h
  cases hr : r.RevParse name with
  | error e => rw [hr] at h; simp at h
  | ok head =>
    rw [hr] at h
    simp only [Except.ok.injEq] at h
    exact ⟨head, rfl, h.symm⟩

theorem WriteBranch_ok {env : Env} {s t : State} {b : Branch}
    (h : WriteBranch env s b = .ok ((), t)) :
    t.repo = s.repo ∧ t.store = s.store.WriteBranch b ∧
      t.log = s.log ++ [Event.writeBranch b] := by
  unfold WriteBranch at h
  simp only at h
  cases hw : env.writeError b with
  | some e => rw [hw] at h; simp at h
  | none =>
    rw [hw] at h
    simp only [Except.ok.injEq, Prod.mk.injEq, true_and] at h
    subst h
    exact ⟨rfl, rfl, rfl⟩

/-- The reparent, when it succeeds: the branch gets the link to the new trunk, is written,
and the old parent is rewritten without it when it had children. -/
theorem syncBranchUpdateNewTrunk_ok {env : Env} {s t : State} {b b' : Branch}
    {newTrunk : String} (h : syncBranchUpdateNewTrunk env s b newTrunk = .ok (b', t)) :
    ∃ head, s.repo.RevParse newTrunk = .ok head ∧
      b' = { b with Parent := { Name := newTrunk, Head := head, Trunk := true } } ∧
      t.repo = s.repo ∧
      t.store =
        (if (ReadBranch s b.Parent.Name).1.Children.length > 0 then
          (s.store.WriteBranch b').WriteBranch
            { (ReadBranch s b.Parent.Name).1 with
              Children := DeleteElement (ReadBranch s b.Parent.Name).1.Children b.Name }
        else s.store.WriteBranch b') := by
  unfold syncBranchUpdateNewTrunk at h
  simp only at h
  cases hp : ReadBranchState s.repo newTrunk true with
  | error e => rw [hp] at h; simp at h
  | ok parent =>
    rw [hp] at h
    simp only at h
    obtain ⟨head, hhead, rfl⟩ := ReadBranchState_ok hp
    refine ⟨head, hhead, ?_⟩
    cases hw : WriteBranch env s { b with Parent := { Name := newTrunk, Head := head, Trunk := true } } with
    | error e => rw [hw] at h; simp at h
    | ok v =>
      obtain ⟨_, s1⟩ := v
      rw [hw] at h
      simp only at h
      obtain ⟨hr1, hs1, _⟩ := WriteBranch_ok hw
      split at h
      · rename_i hlen
        cases hw2 : WriteBranch env s1
          { (ReadBranch s b.Parent.Name).1 with
            Children := DeleteElement (ReadBranch s b.Parent.Name).1.Children b.Name } with
        | error e => rw [hw2] at h; simp at h
        | ok v2 =>
          obtain ⟨_, s2⟩ := v2
          rw [hw2] at h
          simp only [Except.ok.injEq, Prod.mk.injEq] at h
          obtain ⟨rfl, rfl⟩ := h
          obtain ⟨hr2, hs2, _⟩ := WriteBranch_ok hw2
          refine ⟨rfl, hr2.trans hr1, ?_⟩
          rw [if_pos hlen, hs2, hs1]
      · rename_i hlen
        simp only [Except.ok.injEq, Prod.mk.injEq] at h
        obtain ⟨rfl, rfl⟩ := h
        refine ⟨rfl, hr1, ?_⟩
        rw [if_neg hlen, hs1]


theorem Fetch_ok {env : Env} {s t : State} {remote ref : String}
    (h : Fetch env s remote ref = .ok ((), t)) :
    t = { s with log := s.log ++ [Event.fetch remote ref] } := by
  have := Fetch_state env s remote ref
  rw [h] at this
  exact this

/-- The dispatch of `syncBranchRebase`, when it returns a result. -/
theorem syncBranchRebase_ok {env : Env} {s t : State} {opts : SyncBranchOpts} {B : Branch}
    {res : SyncBranchResult} (h : syncBranchRebase env s opts B = .ok (res, t)) :
    ∃ branchHead remote, s.repo.RevParse B.Name = .ok branchHead ∧
      s.repo.DefaultRemote = .ok remote ∧
      (if B.IsStackRoot then syncBranchRebaseStackRoot env s opts B branchHead remote
        else if (ReadBranch s B.Parent.Name).1.MergeCommit ≠ "" then
          syncBranchRebaseParentMerged env s opts B (ReadBranch s B.Parent.Name).1 branchHead remote
        else syncBranchRebaseParent env s B (ReadBranch s B.Parent.Name).1 branchHead)
        = .ok (res, t) := by
  unfold syncBranchRebase at h
  cases hb : s.repo.RevParse B.Name with
  | error e => rw [hb] at h; simp at h
  | ok branchHead =>
    rw [hb] at h
    simp only at h
    cases hr : s.repo.DefaultRemote with
    | error e => rw [hr] at h; simp at h
    | ok remote =>
      rw [hr] at h
      simp only at h
      exact ⟨branchHead, remote, rfl, rfl, h⟩

/-- Scenario 1, when it returns a result: the rebase onto the merge commit ran on the state
the optional fetch left; on a conflict the record is returned as it is with the continuation
of the scenario, otherwise the branch was reparented. -/
theorem syncBranchRebaseParentMerged_ok {env : Env} {s t : State} {opts : SyncBranchOpts}
    {B P : Branch} {branchHead remote : String} {res : SyncBranchResult}
    (h : syncBranchRebaseParentMerged env s opts B P branchHead remote = .ok (res, t)) :
    ∃ s1 s2 rebase, s1.repo = s.repo ∧ s1.store = s.store ∧
      rebaseCalls s1.log = rebaseCalls s.log ∧
      RebaseParse env s1
        { Branch := B.Name, Upstream := B.Parent.Name, Onto := P.MergeCommit } = .ok (rebase, s2) ∧
      res.Status = rebase.Status ∧
      ((rebase.Status = RebaseConflict ∧ t = s2 ∧ res.Branch = B ∧
          res.Continuation = some { OldHead := branchHead, ParentCommit := P.MergeCommit,
                                    NewTrunk := P.Parent.Name }) ∨
        (rebase.Status ≠ RebaseConflict ∧ res.Continuation = none ∧
          syncBranchUpdateNewTrunk env s2 B P.Parent.Name = .ok (res.Branch, t))) := by
  unfold syncBranchRebaseParentMerged at h
  have hf : ∀ u s1, (if !opts.NoFetch then Fetch env s remote B.MergeCommit
      else (.ok ((), s) : Outcome Unit)) = .ok (u, s1) →
      s1.repo = s.repo ∧ s1.store = s.store ∧ rebaseCalls s1.log = rebaseCalls s.log := by
    intro u s1 hx
    split at hx
    · rw [Fetch_ok hx]; exact ⟨rfl, rfl, by simp⟩
    · simp only [Except.ok.injEq, Prod.mk.injEq] at hx
      rw [← hx.2]; exact ⟨rfl, rfl, rfl⟩
  generalize (if !opts.NoFetch then Fetch env s remote B.MergeCommit
      else (.ok ((), s) : Outcome Unit)) = x at h hf
  rcases x with e | ⟨u, s1⟩
  · simp at h
  · simp only at h
    obtain ⟨hr1, hs1, hl1⟩ := hf u s1 rfl
    cases hr : RebaseParse env s1
        { Branch := B.Name, Upstream := B.Parent.Name, Onto := P.MergeCommit } with
    | error e => rw [hr] at h; simp at h
    | ok v =>
      obtain ⟨rebase, s2⟩ := v
      rw [hr] at h
      simp only at h
      refine ⟨s1, s2, rebase, hr1, hs1, hl1, hr, ?_⟩
      split at h
      · rename_i hc
        simp only [Except.ok.injEq, Prod.mk.injEq] at h
        obtain ⟨rfl, rfl⟩ := h
        exact ⟨rfl, Or.inl ⟨hc, rfl, rfl, rfl⟩⟩
      · rename_i hc
        cases hu : syncBranchUpdateNewTrunk env s2 B P.Parent.Name with
        | error e => rw [hu] at h; simp at h
        | ok w =>
          obtain ⟨b', s3⟩ := w
          rw [hu] at h
          simp only [Except.ok.injEq, Prod.mk.injEq] at h
          obtain ⟨rfl, rfl⟩ := h
          exact ⟨rfl, Or.inr ⟨hc, rfl, rfl⟩⟩

/-- Scenarios 2 and 3, when they return a result. -/
theorem syncBranchRebaseParent_ok {env : Env} {s t : State} {B P : Branch}
    {branchHead : String} {res : SyncBranchResult}
    (h : syncBranchRebaseParent env s B P branchHead = .ok (res, t)) :
    res.Branch = B ∧
    ∃ parentHead mergeBase, s.repo.RevParse P.Name = .ok parentHead ∧
      s.repo.MergeBase parentHead B.Name = .ok mergeBase ∧
      ((mergeBase = parentHead ∧ t = s ∧ res.Status = RebaseAlreadyUpToDate ∧
          res.Continuation = none) ∨
        (mergeBase ≠ parentHead ∧
          ∃ rebase, RebaseParse env s
              { Branch := B.Name, Onto := parentHead, Upstream := B.Parent.Head }
              = .ok (rebase, t) ∧
            res.Status = rebase.Status ∧
            res.Continuation =
              (if rebase.Status = RebaseConflict then
                some { OldHead := branchHead, ParentCommit := parentHead }
              else none))) := by
  unfold syncBranchRebaseParent at h
  cases hp : s.repo.RevParse P.Name with
  | error e => rw [hp] at h; simp at h
  | ok parentHead =>
    rw [hp] at h
    simp only at h
    cases hm : s.repo.MergeBase parentHead B.Name with
    | error e => rw [hm] at h; simp at h
    | ok mergeBase =>
      rw [hm] at h
      simp only at h
      split at h
      · rename_i heq
        simp only [Except.ok.injEq, Prod.mk.injEq] at h
        obtain ⟨rfl, rfl⟩ := h
        exact ⟨rfl, parentHead, mergeBase, rfl, hm, Or.inl ⟨heq, rfl, rfl, rfl⟩⟩
      · rename_i hne
        cases hr : RebaseParse env s
            { Branch := B.Name, Onto := parentHead, Upstream := B.Parent.Head } with
        | error e => rw [hr] at h; simp at h
        | ok v =>
          obtain ⟨rebase, s1⟩ := v
          rw [hr] at h
          simp only at h
          split at h <;>
          · rename_i hst
            simp only [Except.ok.injEq, Prod.mk.injEq] at h
            obtain ⟨rfl, rfl⟩ := h
            refine ⟨rfl, parentHead, mergeBase, rfl, hm, Or.inr ⟨hne, rebase, hr, rfl, ?_⟩⟩
            simp_all

/-- The stack-root scenario, when it returns a result. -/
theorem syncBranchRebaseStackRoot_ok {env : Env} {s t : State} {opts : SyncBranchOpts}
    {B : Branch} {branchHead remote : String} {res : SyncBranchResult}
    (h : syncBranchRebaseStackRoot env s opts B branchHead remote = .ok (res, t)) :
    res.Branch = B ∧
    ((opts.ToTrunk = false ∧ t = s ∧ res.Status = RebaseAlreadyUpToDate ∧
        res.Continuation = none) ∨
      (opts.ToTrunk = true ∧
        ∃ trunkHead rebase, s.repo.RevParse B.Parent.Name = .ok trunkHead ∧
          RebaseParse env { s with log := s.log ++ [Event.fetch remote B.Parent.Name] }
            { Branch := opts.Branch, Upstream := trunkHead } = .ok (rebase, t) ∧
          res.Status = rebase.Status ∧
          res.Continuation =
            (if rebase.Status = RebaseConflict then some { OldHead := branchHead }
            else none))) := by
  unfold syncBranchRebaseStackRoot at h
  simp only at h
  cases ht : opts.ToTrunk with
  | false =>
    rw [ht] at h
    simp only [Bool.not_false, if_true, Except.ok.injEq, Prod.mk.injEq] at h
    obtain ⟨rfl, rfl⟩ := h
    exact ⟨rfl, Or.inl ⟨rfl, rfl, rfl, rfl⟩⟩
  | true =>
    rw [ht] at h
    simp only [Bool.not_true, Bool.false_eq_true, if_false] at h
    cases hf : Fetch env s remote B.Parent.Name with
    | error e => rw [hf] at h; simp at h
    | ok v =>
      obtain ⟨_, s1⟩ := v
      rw [hf] at h
      simp only at h
      have hs1 := Fetch_ok hf
      subst hs1
      cases hp : s.repo.RevParse B.Parent.Name with
      | error e => rw [hp] at h; simp at h
      | ok trunkHead =>
        rw [hp] at h
        simp only at h
        cases hr : RebaseParse env { s with log := s.log ++ [Event.fetch remote B.Parent.Name] }
            { Branch := opts.Branch, Upstream := trunkHead } with
        | error e => rw [hr] at h; simp at h
        | ok w =>
          obtain ⟨rebase, s2⟩ := w
          rw [hr] at h
          simp only at h
          split at h <;>
          · rename_i hst
            simp only [Except.ok.injEq, Prod.mk.injEq] at h
            obtain ⟨rfl, rfl⟩ := h
            refine ⟨rfl, Or.inr ⟨rfl, trunkHead, rebase, rfl, hr, rfl, ?_⟩⟩
            simp_all

/-! ## C2: the sync after the parent was merged -/

/-- After a rebase that did not stop on a conflict, the commit given as `onto` is an ancestor
of the tip of the branch. -/
theorem Repo.Rebase_isAncestor {r r' : Repo} {conflicts : Bool} {opts : RebaseOpts}
    {res : RebaseResult} (h : r.Rebase conflicts opts = .ok (res, r'))
    (hs : res.Status ≠ RebaseConflict) (hO : opts.Onto ≠ "") :
    r'.IsAncestor opts.Onto opts.Branch = true := by
  obtain ⟨tip, onto, ho, ht, hmem, hstable, _⟩ := Repo.Rebase_spec h hs
  rw [if_neg hO] at ho
  by_cases hb : opts.Onto = opts.Branch
  · rw [hb]
    exact Repo.IsAncestor_of_mem ht ht (Repo.mem_ancestry_self r' tip)
  · exact Repo.IsAncestor_of_mem (hstable _ _ hb ho) ht hmem

/-- After a rebase that did not stop on a conflict, a revision other than the branch that
resolved to the commit rebased onto still resolves to it, and it is the merge base of that
revision and the branch. -/
theorem Repo.Rebase_mergeBase {r r' : Repo} {conflicts : Bool} {opts : RebaseOpts}
    {res : RebaseResult} (h : r.Rebase conflicts opts = .ok (res, r'))
    (hs : res.Status ≠ RebaseConflict) {rev onto : String} (hne : rev ≠ opts.Branch)
    (hrev : r.RevParse rev = .ok onto)
    (honto : r.RevParse (if opts.Onto = "" then opts.Upstream else opts.Onto) = .ok onto) :
    r'.RevParse rev = .ok onto ∧ r'.MergeBase rev opts.Branch = .ok onto := by
  obtain ⟨tip, onto', ho, ht, hmem, hstable, _⟩ := Repo.Rebase_spec h hs
  rw [honto] at ho
  simp only [Except.ok.injEq] at ho
  subst ho
  have hr := hstable _ _ hne hrev
  exact ⟨hr, Repo.MergeBase_of_mem hr ht hmem⟩

/-- C2 (amended): after a fresh sync of a branch `B` that is neither merged nor a stack root
and whose parent record `P` has the non-empty merge commit `M`, if the sync returns a
non-conflict status then `M` is an ancestor of the tip of `B`, the record in the result has
`Parent.Name = P.Parent.Name`, and so has the stored record when `B` is not its own parent. -/
theorem SyncBranch_parent_merged (env : Env) (s s1 t : State) (opts : SyncBranchOpts)
    (B : Branch) (pull : Option GhPullRequest) (res : SyncBranchResult)
    (hfresh : opts.Continuation = none)
    (href : syncBranchRefresh env s opts (ReadBranch s opts.Branch).1 = .ok ((B, pull), s1))
    (hroot : B.IsStackRoot = false) (hmerged : B.MergeCommit = "")
    (hP : (ReadBranch s1 B.Parent.Name).1.MergeCommit ≠ "")
    (h : SyncBranch env s opts = .ok (res, t)) (hs : res.Status ≠ RebaseConflict) :
    t.repo.IsAncestor (ReadBranch s1 B.Parent.Name).1.MergeCommit B.Name = true ∧
    res.Branch.Parent.Name = (ReadBranch s1 B.Parent.Name).1.Parent.Name ∧
    (B.Parent.Name ≠ B.Name →
      (ReadBranch t B.Name).1.Parent.Name = (ReadBranch s1 B.Parent.Name).1.Parent.Name) := by
  obtain ⟨s2, hreb, hcore⟩ := SyncBranch_fresh_ok hfresh href hmerged h
  obtain ⟨branchHead, remote, hhead, _, hsc⟩ := syncBranchRebase_ok hreb
  rw [if_neg (by simp [hroot]), if_pos hP] at hsc
  obtain ⟨s1', s2', rebase, hr1, hst1, _, hrp, hstatus, hcase⟩ :=
    syncBranchRebaseParentMerged_ok hsc
  rw [hstatus] at hs
  rcases hcase with ⟨hc, _⟩ | ⟨_, _, hup⟩
  · exact absurd hc hs
  · obtain ⟨hst2, _, hrebase⟩ := RebaseParse_ok hrp
    simp only [Bool.false_eq_true, if_false] at hrebase
    obtain ⟨head, _, hb', hr3, hst3⟩ := syncBranchUpdateNewTrunk_ok hup
    have hanc := Repo.Rebase_isAncestor hrebase hs hP
    refine ⟨?_, ?_, ?_⟩
    · rw [hcore.1, hr3]; exact hanc
    · rw [hb']
    · intro hself
      have hBne : B.Name ≠ "" := Repo.RevParse_ne_empty hhead
      have hread : (ReadBranch s2' B.Parent.Name).1 = (ReadBranch s1 B.Parent.Name).1 := by
        simp only [ReadBranch, hst2, hst1]
      have hpn : B.Name ≠ (ReadBranch s2' B.Parent.Name).1.Name := by
        rw [hread]
        rcases Store.ReadBranch_name s1.store B.Parent.Name with hn | hn
        · simp only [ReadBranch]; rw [hn]; exact hself.symm
        · simp only [ReadBranch, hn]; exact hBne
      have hname : res.Branch.Name = B.Name := by rw [hb']
      have hwrite : ((s2'.store.WriteBranch res.Branch).ReadBranch B.Name).1.Parent.Name
          = (ReadBranch s1 B.Parent.Name).1.Parent.Name := by
        rw [← hname, Store.ReadBranch_write, hb']
      show (t.store.ReadBranch B.Name).1.Parent.Name = _
      rw [hcore.2.1, hst3]
      split
      · have key := Store.ReadBranch_write_ne (s2'.store.WriteBranch res.Branch)
          { (ReadBranch s2' B.Parent.Name).1 with
            Children := DeleteElement (ReadBranch s2' B.Parent.Name).1.Children B.Name }
          B.Name hpn
        rw [key]
        exact hwrite
      · exact hwrite

/-- The parent-moved sync of `stack-2` in `Example.moved` invokes the one rebase of `stack-2`
with the snapshot `A` as upstream, onto the tip `B` of `stack-1`. -/
theorem SyncBranch_rebase_arguments_witness :
    rebaseCalls (SyncBranch Example.env Example.moved
        { Branch := "stack-2", NoFetch := true, NoPush := true }).state.log
      = [{ Branch := "stack-2", Upstream := "A", Onto := "B" }] ∧
    Example.moved.repo.RevParse "stack-1" = .ok "B" ∧
    (
    rebaseCalls (SyncBranch Example.env Example.moved
        { Branch := "stack-2", NoFetch := true, NoPush := true }).state.log
      = rebaseCalls Example.moved.log ∨
    ((ReadBranch Example.moved "stack-1").1.MergeCommit ≠ "" ∧
      rebaseCalls (SyncBranch Example.env Example.moved
          { Branch := "stack-2", NoFetch := true, NoPush := true }).state.log
        = rebaseCalls Example.moved.log ++
          [{ Branch := "stack-2", Upstream := "stack-1",
             Onto := (ReadBranch Example.moved "stack-1").1.MergeCommit }]) ∨
    ((ReadBranch Example.moved "stack-1").1.MergeCommit = "" ∧
      ∃ parentHead, Example.moved.repo.RevParse "stack-1" = .ok parentHead ∧
        rebaseCalls (SyncBranch Example.env Example.moved
            { Branch := "stack-2", NoFetch := true, NoPush := true }).state.log
          = rebaseCalls Example.moved.log ++
            [{ Branch := "stack-2", Upstream := "A", Onto := parentHead }])) :=
  ⟨rfl, rfl, SyncBranch_rebase_arguments Example.env Example.moved Example.moved
    { Branch := "stack-2", NoFetch := true, NoPush := true }
    (ReadBranch Example.moved "stack-2").1 none rfl rfl rfl rfl⟩

/-- The squash-merge scenario of `TestStackSyncMergeCommit`: the sync of `stack-2` returns
`Updated`, the squash commit `S` is an ancestor of `stack-2` afterwards (it was not before),
and `stack-2` is reparented onto `main` in the result and in the store. -/
theorem SyncBranch_parent_merged_witness :
    Example.squashed.repo.IsAncestor "S" "stack-2" = false ∧
    ∃ res t, SyncBranch Example.env Example.squashed
        { Branch := "stack-2", NoFetch := true, NoPush := true } = .ok (res, t) ∧
      res.Status = RebaseUpdated ∧
      t.repo.IsAncestor "S" "stack-2" = true ∧ res.Branch.Parent.Name = "main" ∧
      (ReadBranch t "stack-2").1.Parent.Name = "main" :=
  ⟨by decide, _, _, rfl, rfl,
    (fun h => ⟨h.1, h.2.1, h.2.2 (by decide)⟩)
      (SyncBranch_parent_merged Example.env Example.squashed Example.squashed _
        { Branch := "stack-2", NoFetch := true, NoPush := true }
        (ReadBranch Example.squashed "stack-2").1 none _ rfl rfl rfl rfl (by decide) rfl
        (by decide))⟩

/-- C2 as stated fails when `B` is merged itself: the parent `stack-1` of `stack-2` has the
merge commit `S`, the fresh sync of `stack-2` returns `AlreadyUpToDate`, and afterwards `S`
is not an ancestor of `stack-2` and the parent of `stack-2` is still `stack-1`, not `main`.
It also fails for a record whose parent link is flagged as trunk: such a branch is synced
as a stack root, whatever the record of its parent says. -/
theorem SyncBranch_parent_merged_counterexample :
    ((ReadBranch Example.bothMerged "stack-2").1.Parent.Name = "stack-1" ∧
      (ReadBranch Example.bothMerged "stack-1").1.MergeCommit = "S" ∧
      (ReadBranch Example.bothMerged "stack-1").1.Parent.Name = "main" ∧
      ∃ res t, SyncBranch Example.env Example.bothMerged
          { Branch := "stack-2", NoFetch := true, NoPush := true } = .ok (res, t) ∧
        res.Status = RebaseAlreadyUpToDate ∧
        t.repo.IsAncestor "S" "stack-2" = false ∧
        (ReadBranch t "stack-2").1.Parent.Name = "stack-1") ∧
    ((ReadBranch Example.flaggedTrunk "stack-2").1.Parent.Name = "stack-1" ∧
      (ReadBranch Example.flaggedTrunk "stack-2").1.MergeCommit = "" ∧
      (ReadBranch Example.flaggedTrunk "stack-1").1.MergeCommit = "S" ∧
      (ReadBranch Example.flaggedTrunk "stack-1").1.Parent.Name = "main" ∧
      ∃ res t, SyncBranch Example.env Example.flaggedTrunk
          { Branch := "stack-2", NoFetch := true, NoPush := true } = .ok (res, t) ∧
        res.Status = RebaseAlreadyUpToDate ∧
        t.repo.IsAncestor "S" "stack-2" = false ∧
        (ReadBranch t "stack-2").1.Parent.Name = "stack-1") :=
  ⟨⟨rfl, rfl, rfl, _, _, rfl, rfl, by decide, rfl⟩,
   ⟨rfl, rfl, rfl, rfl, _, _, rfl, rfl, by decide, rfl⟩⟩

/-! ## C3: the sync of a merged branch -/

/-- C3 (amended): in a fresh call of `SyncBranch` whose refresh is skipped (`NoFetch`) or
succeeds, if the record at hand afterwards has a non-empty merge commit, the call returns
`AlreadyUpToDate` with no continuation in the state the refresh left: beyond the refresh the
call issues no rebase, fetch, push, pull-request update or metadata write, whatever `ToTrunk`
and `NoPush`; with `NoFetch` the state is the initial one. -/
theorem SyncBranch_merged (env : Env) (s s1 : State) (opts : SyncBranchOpts) (B : Branch)
    (pull : Option GhPullRequest) (hfresh : opts.Continuation = none)
    (href : syncBranchRefresh env s opts (ReadBranch s opts.Branch).1 = .ok ((B, pull), s1))
    (hB : B.MergeCommit ≠ "") :
    SyncBranch env s opts
      = .ok ({ Status := RebaseAlreadyUpToDate, Continuation := none, Branch := {} }, s1) ∧
    (opts.NoFetch = true → s1 = s) ∧
    s1.repo = s.repo ∧ rebaseCalls s1.log = rebaseCalls s.log ∧
    fetchCalls s1.log = fetchCalls s.log ∧ remoteWrites s1.log = remoteWrites s.log := by
  have hst := syncBranchRefresh_state env s opts (ReadBranch s opts.Branch).1
  rw [href] at hst
  refine ⟨?_, ?_, hst.1, hst.2.1, hst.2.2.1, hst.2.2.2⟩
  · exact SyncBranch_fresh_merged hfresh href hB
  · intro hn
    exact (syncBranchRefresh_noFetch hn href).2.2

/-- In `Example.bothMerged` the record of `stack-2` has the merge commit `S2`: its sync with
`NoFetch` and `ToTrunk` returns `AlreadyUpToDate` and leaves the state as it was. -/
theorem SyncBranch_merged_witness :
    SyncBranch Example.env Example.bothMerged
        { Branch := "stack-2", NoFetch := true, ToTrunk := true }
      = .ok ({ Status := RebaseAlreadyUpToDate, Continuation := none, Branch := {} },
          Example.bothMerged) ∧
    ((true = true) → Example.bothMerged = Example.bothMerged) ∧
    Example.bothMerged.repo = Example.bothMerged.repo ∧
    rebaseCalls Example.bothMerged.log = rebaseCalls Example.bothMerged.log ∧
    fetchCalls Example.bothMerged.log = fetchCalls Example.bothMerged.log ∧
    remoteWrites Example.bothMerged.log = remoteWrites Example.bothMerged.log :=
  SyncBranch_merged Example.env Example.bothMerged Example.bothMerged
    { Branch := "stack-2", NoFetch := true, ToTrunk := true }
    (ReadBranch Example.bothMerged "stack-2").1 none rfl rfl (by decide)

/-- C3 as stated fails when the refresh runs: with a pull request the store does not know
yet (the refresh reports a change and hands over the pull request) the merged branch is
still skipped, but its record has been rewritten; and when the hosting service cannot be
reached the call returns an error instead of a result. -/
theorem SyncBranch_merged_counterexample :
    (ReadBranch Example.bothMerged "stack-2").1.MergeCommit = "S2" ∧
    (∃ u s1, UpdatePullRequestState Example.envNewPull Example.bothMerged "stack-2"
        = .ok (u, s1) ∧ u.Changed = true ∧ u.Pull.isSome = true) ∧
    (∃ res t, SyncBranch Example.envNewPull Example.bothMerged { Branch := "stack-2" }
        = .ok (res, t) ∧
      res.Status = RebaseAlreadyUpToDate ∧
      writeCalls t.log = [{ Name := "stack-2", Parent := { Name := "stack-1", Head := "1b" }
                            PullRequest := some { ID := "PR_1", Number := 1 }
                            MergeCommit := "S2" }] ∧
      (ReadBranch t "stack-2").1.PullRequest ≠ (ReadBranch Example.bothMerged "stack-2").1.PullRequest) ∧
    ∃ e, SyncBranch Example.envOffline Example.bothMerged { Branch := "stack-2" } = .error e :=
  ⟨rfl, ⟨_, _, rfl, rfl, rfl⟩, ⟨_, _, rfl, rfl, by decide, by decide⟩, _, rfl⟩

/-! ## C4: the branch is up to date with its parent -/

theorem Repo.MergeBase_ok {r : Repo} {a b m : String} (h : r.MergeBase a b = .ok m) :
    ∃ ca cb, r.RevParse a = .ok ca ∧ r.RevParse b = .ok cb := by
  unfold Repo.MergeBase at h
  cases ha : r.RevParse a with
  | error e => rw [ha] at h; simp at h
  | ok ca =>
    cases hb : r.RevParse b with
    | error e => rw [ha, hb] at h; simp at h
    | ok cb => exact ⟨ca, cb, rfl, rfl⟩

/-- The rebase phase of a branch that is not a stack root and whose parent is not merged, in
a repository with a default remote: scenarios 2 and 3. -/
theorem syncBranchRebase_parent {env : Env} {s : State} {opts : SyncBranchOpts} {B : Branch}
    {branchHead remote : String} (hroot : B.IsStackRoot = false)
    (hP : (ReadBranch s B.Parent.Name).1.MergeCommit = "")
    (hhead : s.repo.RevParse B.Name = .ok branchHead)
    (hremote : s.repo.DefaultRemote = .ok remote) :
    syncBranchRebase env s opts B
      = syncBranchRebaseParent env s B (ReadBranch s B.Parent.Name).1 branchHead := by
  unfold syncBranchRebase
  simp only [hhead, hremote, hroot, hP, Bool.false_eq_true, if_false, ne_eq, not_true_eq_false]

/-- C4 (amended): in a fresh sync of a branch `B` (the record at hand after the refresh) that
is not merged, not a stack root and whose parent `P` is tracked and not merged, in a
repository with a default remote, with `parentHead` the tip of `P` and `mergeBase` the merge
base of `parentHead` and `B`: if `mergeBase = parentHead` the sync is the closing push and pull-request
update (skipped with `NoPush`) of the result `AlreadyUpToDate` with no continuation and the
record `B`, so that is the result whenever one is returned, and one is returned with
`NoPush`; the repository and the store stay as they were after the refresh, and no rebase,
fetch or metadata write is invoked; and a rebase is invoked exactly when
`mergeBase ≠ parentHead`. -/
theorem SyncBranch_up_to_date (env : Env) (s s1 : State) (opts : SyncBranchOpts) (B : Branch)
    (pull : Option GhPullRequest) (remote parentHead mergeBase : String)
    (hfresh : opts.Continuation = none)
    (href : syncBranchRefresh env s opts (ReadBranch s opts.Branch).1 = .ok ((B, pull), s1))
    (hroot : B.IsStackRoot = false) (hmerged : B.MergeCommit = "")
    (htracked : (ReadBranch s1 B.Parent.Name).2 = true)
    (hP : (ReadBranch s1 B.Parent.Name).1.MergeCommit = "")
    (hremote : s1.repo.DefaultRemote = .ok remote)
    (hp : s1.repo.RevParse B.Parent.Name = .ok parentHead)
    (hm : s1.repo.MergeBase parentHead B.Name = .ok mergeBase) :
    (mergeBase = parentHead →
      SyncBranch env s opts = syncBranchFinish env opts pull
        { Status := RebaseAlreadyUpToDate, Continuation := none, Branch := B } s1 ∧
      SameCore (SyncBranch env s opts).state s1 ∧
      (∀ res t, SyncBranch env s opts = .ok (res, t) →
        res.Status = RebaseAlreadyUpToDate ∧ res.Continuation = none ∧ res.Branch = B) ∧
      (opts.NoPush = true → SyncBranch env s opts
        = .ok ({ Status := RebaseAlreadyUpToDate, Continuation := none, Branch := B }, s1))) ∧
    (rebaseCalls (SyncBranch env s opts).state.log ≠ rebaseCalls s1.log ↔
      mergeBase ≠ parentHead) := by
  have hpn : (ReadBranch s1 B.Parent.Name).1.Name = B.Parent.Name := by
    rcases Store.ReadBranch_name s1.store B.Parent.Name with hn | hn
    · exact hn
    · simp only [ReadBranch] at htracked
      rw [hn] at htracked
      exact absurd htracked (by decide)
  rw [← hpn] at hp
  obtain ⟨_, branchHead, _, hhead⟩ := Repo.MergeBase_ok hm
  have hreb := @syncBranchRebase_parent env s1 opts B branchHead remote hroot hP hhead hremote
  have hcore := SyncBranch_fresh_state hfresh href hmerged
  have hfr := SyncBranch_fresh hfresh href
  rw [if_neg (by simp [hmerged])] at hfr
  rw [hreb] at hcore hfr
  unfold syncBranchRebaseParent at hcore hfr
  simp only [hp, hm] at hcore hfr
  by_cases heq : mergeBase = parentHead
  · simp only [heq, if_true] at hcore hfr
    refine ⟨fun _ => ⟨hfr, hcore, ?_, ?_⟩, ?_⟩
    · intro res t h
      rw [hfr] at h
      have := syncBranchFinish_ok _ _ _ _ _ _ _ h
      subst this
      exact ⟨rfl, rfl, rfl⟩
    · intro hn
      rw [hfr]
      exact syncBranchFinish_quiet _ _ _ _ _ (Or.inr hn)
    · rw [hcore.2.2.1]
      simp [heq]
  · simp only [heq, if_false] at hcore
    refine ⟨fun h => absurd h heq, ?_⟩
    rw [hcore.2.2.1]
    have hr := RebaseParse_state env s1
      { Branch := B.Name, Onto := parentHead, Upstream := B.Parent.Head }
    generalize RebaseParse env s1
      { Branch := B.Name, Onto := parentHead, Upstream := B.Parent.Head } = y at hr ⊢
    have hlog : ∀ t : State, t.log = s1.log ++ [Event.rebase
        { Branch := B.Name, Onto := parentHead, Upstream := B.Parent.Head }] →
        rebaseCalls t.log ≠ rebaseCalls s1.log := by
      intro t ht
      rw [ht]
      simp
    rcases y with e | ⟨rebase, s2⟩
    · simp only [Outcome.state_error] at hr ⊢
      simpa [heq] using hlog _ hr.1
    · simp only [Outcome.state_ok] at hr
      simp only
      have := hlog _ hr.1
      split <;> simpa [heq] using this

/-- In `Example.stacked` the branch `stack-2` sits on the tip `1b` of `stack-1`: its sync
returns `AlreadyUpToDate` with the record and the state untouched. In `Example.moved` the
merge base `A` is not the tip `B` of `stack-1`: the sync of `stack-2` invokes a rebase. -/
theorem SyncBranch_up_to_date_witness :
    SyncBranch Example.env Example.stacked
        { Branch := "stack-2", NoFetch := true, NoPush := true }
      = .ok ({ Status := RebaseAlreadyUpToDate, Continuation := none,
               Branch := (ReadBranch Example.stacked "stack-2").1 }, Example.stacked) ∧
    rebaseCalls (SyncBranch Example.env Example.moved
        { Branch := "stack-2", NoFetch := true, NoPush := true }).state.log
      ≠ rebaseCalls Example.moved.log :=
  ⟨((SyncBranch_up_to_date Example.env Example.stacked Example.stacked
      { Branch := "stack-2", NoFetch := true, NoPush := true }
      (ReadBranch Example.stacked "stack-2").1 none "origin" "1b" "1b" rfl rfl rfl rfl rfl rfl
      rfl rfl rfl).1 rfl).2.2.2 rfl,
   (SyncBranch_up_to_date Example.env Example.moved Example.moved
      { Branch := "stack-2", NoFetch := true, NoPush := true }
      (ReadBranch Example.moved "stack-2").1 none "origin" "B" "A" rfl rfl rfl rfl rfl rfl
      rfl rfl rfl).2.2 (by decide)⟩

/-- C4 as stated fails for a merged branch: `stack-2` is not a stack root, its parent
`stack-1` is not merged and has moved (the merge base `A` is not its tip `B`), yet no rebase
is invoked, because `stack-2` itself is merged and the sync skips it. It also fails in a
repository without a remote: `stack-2` sits on the tip `1b` of its parent, yet the sync
returns an error instead of `AlreadyUpToDate`, because the rebase phase looks up the
default remote before it compares anything. And it fails when the parent is not tracked:
the tip resolved is that of the name in the parent's record, which is empty then, so the
sync returns an error although `stack-2` sits on the tip `1b` of `stack-1`. -/
theorem SyncBranch_up_to_date_counterexample :
    ((ReadBranch Example.movedMerged "stack-2").1.IsStackRoot = false ∧
      (ReadBranch Example.movedMerged "stack-1").1.MergeCommit = "" ∧
      Example.movedMerged.repo.RevParse "stack-1" = .ok "B" ∧
      Example.movedMerged.repo.MergeBase "B" "stack-2" = .ok "A" ∧
      SyncBranch Example.env Example.movedMerged
          { Branch := "stack-2", NoFetch := true, NoPush := true }
        = .ok ({ Status := RebaseAlreadyUpToDate }, Example.movedMerged) ∧
      rebaseCalls (SyncBranch Example.env Example.movedMerged
          { Branch := "stack-2", NoFetch := true, NoPush := true }).state.log = []) ∧
    ((ReadBranch Example.withoutRemote "stack-2").1.IsStackRoot = false ∧
      (ReadBranch Example.withoutRemote "stack-1").1.MergeCommit = "" ∧
      Example.withoutRemote.repo.RevParse "stack-1" = .ok "1b" ∧
      Example.withoutRemote.repo.MergeBase "1b" "stack-2" = .ok "1b" ∧
      ∃ e, SyncBranch Example.env Example.withoutRemote
          { Branch := "stack-2", NoFetch := true, NoPush := true } = .error e) ∧
    ((ReadBranch Example.untrackedParent "stack-2").1.IsStackRoot = false ∧
      (ReadBranch Example.untrackedParent "stack-2").1.MergeCommit = "" ∧
      (ReadBranch Example.untrackedParent "stack-2").1.Parent.Name = "stack-1" ∧
      ReadBranch Example.untrackedParent "stack-1" = ({}, false) ∧
      Example.untrackedParent.repo.DefaultRemote = .ok "origin" ∧
      Example.untrackedParent.repo.RevParse "stack-1" = .ok "1b" ∧
      Example.untrackedParent.repo.MergeBase "1b" "stack-2" = .ok "1b" ∧
      SyncBranch Example.env Example.untrackedParent
          { Branch := "stack-2", NoFetch := true, NoPush := true }
        = .error ("failed to resolve HEAD of parent branch: empty revision",
            Example.untrackedParent)) :=
  ⟨⟨rfl, rfl, rfl, rfl, rfl, rfl⟩, ⟨rfl, rfl, rfl, rfl, _, rfl⟩,
   ⟨rfl, rfl, rfl, rfl, rfl, rfl, rfl, rfl⟩⟩

/-! ## C5: the snapshot of the parent's tip -/

/-- C5 fails on the code: after the parent-moved sync of `stack-2` (rebased from its snapshot
`A` onto the parent's tip `B`, status `Updated`) the record in the result and the stored
record still carry `Parent.Head = A` and nothing was written; after the stack-root sync of
`stack-1` onto the trunk tip `M` with `ToTrunk`, they still carry `Parent.Head = X`. -/
theorem SyncBranch_parent_head_not_updated :
    (∃ res t, SyncBranch Example.env Example.moved
        { Branch := "stack-2", NoFetch := true, NoPush := true } = .ok (res, t) ∧
      res.Status = RebaseUpdated ∧
      rebaseCalls t.log = [{ Branch := "stack-2", Upstream := "A", Onto := "B" }] ∧
      t.repo.RevParse "stack-1" = .ok "B" ∧ t.repo.MergeBase "stack-1" "stack-2" = .ok "B" ∧
      res.Branch.Parent.Head = "A" ∧ (ReadBranch t "stack-2").1.Parent.Head = "A" ∧
      writeCalls t.log = []) ∧
    (∃ res t, SyncBranch Example.env Example.trunkAdvanced
        { Branch := "stack-1", ToTrunk := true, NoFetch := true, NoPush := true }
        = .ok (res, t) ∧
      res.Status = RebaseUpdated ∧
      rebaseCalls t.log = [{ Branch := "stack-1", Upstream := "M" }] ∧
      t.repo.RevParse "main" = .ok "M" ∧ t.repo.MergeBase "main" "stack-1" = .ok "M" ∧
      res.Branch.Parent.Head = "X" ∧ (ReadBranch t "stack-1").1.Parent.Head = "X" ∧
      writeCalls t.log = []) :=
  ⟨⟨_, _, rfl, rfl, rfl, rfl, rfl, rfl, rfl, rfl⟩, ⟨_, _, rfl, rfl, rfl, rfl, rfl, rfl, rfl, rfl⟩⟩

/-! ## C6: the base of a branch after a sync -/

/-- After a rebase that did not stop on a conflict, a revision that resolved to the commit
rebased onto resolves to the merge base of itself and the branch. -/
theorem Repo.Rebase_base {r r' : Repo} {conflicts : Bool} {opts : RebaseOpts}
    {res : RebaseResult} (h : r.Rebase conflicts opts = .ok (res, r'))
    (hs : res.Status ≠ RebaseConflict) {rev onto : String}
    (hrev : r.RevParse rev = .ok onto)
    (honto : r.RevParse (if opts.Onto = "" then opts.Upstream else opts.Onto) = .ok onto) :
    ∃ tip, r'.RevParse rev = .ok tip ∧ r'.MergeBase rev opts.Branch = .ok tip := by
  by_cases hne : rev = opts.Branch
  · obtain ⟨tip, _, _, ht, _, _, _⟩ := Repo.Rebase_spec h hs
    rw [hne]
    exact ⟨tip, ht, Repo.MergeBase_of_mem ht ht (Repo.mem_ancestry_self r' tip)⟩
  · exact ⟨onto, Repo.Rebase_mergeBase h hs hne hrev honto⟩

/-- The rebase phase of a stack root synced with `ToTrunk`, or of a branch whose parent is not
merged: when it does not stop on a conflict, the merge base of `B.Parent.Name` and `B` is
the tip of `B.Parent.Name` afterwards. -/
theorem syncBranchRebase_base {env : Env} {s t : State} {opts : SyncBranchOpts} {B : Branch}
    {res : SyncBranchResult} (h : syncBranchRebase env s opts B = .ok (res, t))
    (hname : B.Name = opts.Branch)
    (hscen : (B.IsStackRoot = true ∧ opts.ToTrunk = true) ∨
      (B.IsStackRoot = false ∧ (ReadBranch s B.Parent.Name).1.MergeCommit = ""))
    (hnc : res.Status ≠ RebaseConflict) :
    ∃ tip, t.repo.RevParse B.Parent.Name = .ok tip ∧
      t.repo.MergeBase B.Parent.Name B.Name = .ok tip := by
  obtain ⟨branchHead, remote, hhead, _, hsc⟩ := syncBranchRebase_ok h
  rcases hscen with ⟨hroot, htrunk⟩ | ⟨hroot, hP⟩
  · rw [if_pos hroot] at hsc
    obtain ⟨_, hcase⟩ := syncBranchRebaseStackRoot_ok hsc
    rcases hcase with ⟨hf, _⟩ | ⟨_, trunkHead, rebase, htip, hrp, hstatus, _⟩
    · rw [htrunk] at hf; exact absurd hf (by decide)
    · obtain ⟨_, _, hrebase⟩ := RebaseParse_ok hrp
      simp only [Bool.false_eq_true, if_false] at hrebase
      rw [hstatus] at hnc
      have := Repo.Rebase_base hrebase hnc htip
        (by simpa using Repo.RevParse_idem htip)
      simpa [hname] using this
  · rw [if_neg (by simp [hroot]), if_neg (by simp [hP])] at hsc
    obtain ⟨_, parentHead, mergeBase, hp, hm, hcase⟩ := syncBranchRebaseParent_ok hsc
    have hpn : (ReadBranch s B.Parent.Name).1.Name = B.Parent.Name := by
      rcases Store.ReadBranch_name s.store B.Parent.Name with hn | hn
      · exact hn
      · exfalso
        apply Repo.RevParse_ne_empty hp
        simp [ReadBranch, hn]
    rw [hpn] at hp
    rcases hcase with ⟨heq, hts, _, _⟩ | ⟨_, rebase, hrp, hstatus, _⟩
    · subst hts
      subst heq
      refine ⟨mergeBase, hp, ?_⟩
      rw [Repo.MergeBase_congr hp (Repo.RevParse_idem hp)]
      exact hm
    · obtain ⟨_, _, hrebase⟩ := RebaseParse_ok hrp
      simp only [Bool.false_eq_true, if_false] at hrebase
      rw [hstatus] at hnc
      have hne : parentHead ≠ "" := Repo.RevParse_ne_empty (Repo.RevParse_idem hp)
      exact Repo.Rebase_base hrebase hnc hp (by simpa [hne] using Repo.RevParse_idem hp)

/-! ## C7: the continuation of a conflicting sync -/

/-- C7: when a fresh sync of `B` (the record at hand after the refresh) returns `Conflict`,
the result carries the record `B` unmodified and a continuation whose `OldHead` is the tip
of `B` resolved before the rebase, whose `ParentCommit` is the `onto` argument of the one
rebase that was invoked (empty for a stack root, the merge commit `M` of the parent when it
is merged, the resolved tip of the parent otherwise) and whose `NewTrunk` is
`P.Parent.Name` when the parent is merged and empty in the other two scenarios. -/
theorem SyncBranch_conflict_continuation (env : Env) (s s1 t : State) (opts : SyncBranchOpts)
    (B : Branch) (pull : Option GhPullRequest) (res : SyncBranchResult)
    (hfresh : opts.Continuation = none)
    (href : syncBranchRefresh env s opts (ReadBranch s opts.Branch).1 = .ok ((B, pull), s1))
    (h : SyncBranch env s opts = .ok (res, t)) (hs : res.Status = RebaseConflict) :
    res.Branch = B ∧
    ∃ c o, res.Continuation = some c ∧ s1.repo.RevParse B.Name = .ok c.OldHead ∧
      rebaseCalls t.log = rebaseCalls s1.log ++ [o] ∧ o.Onto = c.ParentCommit ∧
      (B.IsStackRoot = true → c.ParentCommit = "" ∧ c.NewTrunk = "") ∧
      (B.IsStackRoot = false → (ReadBranch s1 B.Parent.Name).1.MergeCommit ≠ "" →
        c.ParentCommit = (ReadBranch s1 B.Parent.Name).1.MergeCommit ∧
        c.NewTrunk = (ReadBranch s1 B.Parent.Name).1.Parent.Name) ∧
      (B.IsStackRoot = false → (ReadBranch s1 B.Parent.Name).1.MergeCommit = "" →
        s1.repo.RevParse (ReadBranch s1 B.Parent.Name).1.Name = .ok c.ParentCommit ∧
        c.NewTrunk = "") := by
  have hmerged : B.MergeCommit = "" := by
    by_contra hne
    rw [SyncBranch_fresh_merged hfresh href hne] at h
    simp only [Except.ok.injEq, Prod.mk.injEq] at h
    rw [← h.1] at hs
    exact absurd hs (by decide)
  obtain ⟨s2, hreb, hcore⟩ := SyncBranch_fresh_ok hfresh href hmerged h
  obtain ⟨branchHead, remote, hhead, _, hsc⟩ := syncBranchRebase_ok hreb
  rw [hcore.2.2.1]
  cases hroot : B.IsStackRoot with
  | true =>
    rw [if_pos hroot] at hsc
    obtain ⟨hb, hcase⟩ := syncBranchRebaseStackRoot_ok hsc
    refine ⟨hb, ?_⟩
    rcases hcase with ⟨_, _, hst, _⟩ | ⟨_, trunkHead, rebase, _, hrp, hstatus, hcont⟩
    · rw [hst] at hs; exact absurd hs (by decide)
    · obtain ⟨_, hlog, _⟩ := RebaseParse_ok hrp
      rw [hstatus] at hs
      rw [if_pos hs] at hcont
      refine ⟨_, { Branch := opts.Branch, Upstream := trunkHead }, hcont, hhead, ?_, rfl,
        fun _ => ⟨rfl, rfl⟩, ?_, ?_⟩
      · rw [hlog]; simp
      · intro hf; exact absurd hf (by decide)
      · intro hf; exact absurd hf (by decide)
  | false =>
    rw [if_neg (by simp [hroot])] at hsc
    by_cases hP : (ReadBranch s1 B.Parent.Name).1.MergeCommit = ""
    · rw [if_neg (by simp [hP])] at hsc
      obtain ⟨hb, parentHead, mergeBase, hp, _, hcase⟩ := syncBranchRebaseParent_ok hsc
      refine ⟨hb, ?_⟩
      rcases hcase with ⟨_, _, hst, _⟩ | ⟨_, rebase, hrp, hstatus, hcont⟩
      · rw [hst] at hs; exact absurd hs (by decide)
      · obtain ⟨_, hlog, _⟩ := RebaseParse_ok hrp
        rw [hstatus] at hs
        rw [if_pos hs] at hcont
        refine ⟨_, { Branch := B.Name, Onto := parentHead, Upstream := B.Parent.Head }, hcont,
          hhead, ?_, rfl, ?_, ?_, fun _ _ => ⟨hp, rfl⟩⟩
        · rw [hlog]; simp
        · intro hf; exact absurd hf (by decide)
        · intro _ hne; exact absurd hP hne
    · rw [if_pos hP] at hsc
      obtain ⟨s1', s2', rebase, _, _, hl1, hrp, hstatus, hcase⟩ :=
        syncBranchRebaseParentMerged_ok hsc
      rw [hstatus] at hs
      rcases hcase with ⟨_, hts, hb, hcont⟩ | ⟨hnc, _⟩
      · obtain ⟨_, hlog, _⟩ := RebaseParse_ok hrp
        subst hts
        refine ⟨hb, _, ⟨B.Parent.Name, (ReadBranch s1 B.Parent.Name).1.MergeCommit, B.Name, false⟩,
          hcont, hhead, ?_, rfl, ?_, fun _ _ => ⟨rfl, rfl⟩, ?_⟩
        · rw [hlog]; simp [hl1]
        · intro hf; exact absurd hf (by decide)
        · intro _ he; exact absurd he hP
      · exact absurd hs hnc

/-- The squash-merge scenario with a conflict: the sync of `stack-2` returns `Conflict`, the
stored record, and the continuation with the old tip `2b`, the merge commit `S` and the new
trunk `main`. -/
theorem SyncBranch_conflict_continuation_witness :
    ∃ res t, SyncBranch Example.envConflict Example.squashed
        { Branch := "stack-2", NoFetch := true, NoPush := true } = .ok (res, t) ∧
      res.Status = RebaseConflict ∧
      res.Continuation = some { OldHead := "2b", ParentCommit := "S", NewTrunk := "main" } ∧
      (res.Branch = (ReadBranch Example.squashed "stack-2").1 ∧
      ∃ c o, res.Continuation = some c ∧ Example.squashed.repo.RevParse "stack-2" = .ok c.OldHead ∧
        rebaseCalls t.log = rebaseCalls Example.squashed.log ++ [o] ∧ o.Onto = c.ParentCommit ∧
        (false = true → c.ParentCommit = "" ∧ c.NewTrunk = "") ∧
        (false = false → "S" ≠ "" → c.ParentCommit = "S" ∧ c.NewTrunk = "main") ∧
        (false = false → "S" = "" →
          Example.squashed.repo.RevParse "stack-1" = .ok c.ParentCommit ∧ c.NewTrunk = "")) :=
  ⟨_, _, rfl, rfl, rfl,
    SyncBranch_conflict_continuation Example.envConflict Example.squashed Example.squashed _
      { Branch := "stack-2", NoFetch := true, NoPush := true }
      (ReadBranch Example.squashed "stack-2").1 none _ rfl rfl rfl rfl⟩

/-! ## C8: the continued sync -/

/-- The command `git rebase --continue` always reports a status. -/
theorem RebaseParse_continue (env : Env) (s : State) :
    ∃ rebase s1, RebaseParse env s { Continue := true } = .ok (rebase, s1) ∧
      s1.store = s.store ∧ s1.log = s.log ++ [Event.rebase { Continue := true }] := by
  unfold RebaseParse Repo.RebaseContinue
  simp only [if_true]
  cases s.repo.rebasing with
  | none => exact ⟨_, _, rfl, rfl, rfl⟩
  | some plan =>
    simp only
    cases env.continueConflicts with
    | true => exact ⟨_, _, rfl, rfl, rfl⟩
    | false => exact ⟨_, _, rfl, rfl, rfl⟩

/-- The continue path in terms of the status `rebase --continue` reported. -/
theorem syncBranchContinue_eq {env : Env} {s s1 : State} {opts : SyncBranchOpts}
    {B : Branch} {C : SyncBranchContinuation} {rebase : RebaseResult}
    (hC : opts.Continuation = some C)
    (hr : RebaseParse env s { Continue := true } = .ok (rebase, s1)) :
    syncBranchContinue env s opts B =
      if rebase.Status = RebaseConflict then
        .ok ({ Status := RebaseConflict, Continuation := some C, Branch := B }, s1)
      else if C.NewTrunk ≠ "" then
        match syncBranchUpdateNewTrunk env s1 B C.NewTrunk with
        | .error e => .error e
        | .ok (branch, s2) =>
          .ok ({ Status := rebase.Status, Continuation := none, Branch := branch }, s2)
      else .ok ({ Status := rebase.Status, Continuation := none, Branch := B }, s1) := by
  unfold syncBranchContinue
  simp only [hr, hC]
  cases hst : rebase.Status <;> simp

/-- C8: a sync invoked with a continuation `C` is decided by the status of
`rebase --continue` (which always reports one).  On `Conflict` the call returns the record,
the status and exactly `C`, in the state the rebase left: no reparent, metadata write or
push.  On any other status every result carries that status and no continuation; when
`C.NewTrunk` is empty the record is returned as it is and nothing is written, and when it is
not the record is the one the reparent onto `C.NewTrunk` returns. -/
theorem SyncBranch_continue (env : Env) (s : State) (opts : SyncBranchOpts)
    (C : SyncBranchContinuation) (hC : opts.Continuation = some C) :
    ∃ rebase s1, RebaseParse env s { Continue := true } = .ok (rebase, s1) ∧
      s1.store = s.store ∧ s1.log = s.log ++ [Event.rebase { Continue := true }] ∧
      (rebase.Status = RebaseConflict →
        SyncBranch env s opts = .ok ({ Status := RebaseConflict, Continuation := some C,
                                       Branch := (ReadBranch s opts.Branch).1 }, s1)) ∧
      (rebase.Status ≠ RebaseConflict → C.NewTrunk = "" →
        SameCore (SyncBranch env s opts).state s1 ∧
        ∀ res t, SyncBranch env s opts = .ok (res, t) →
          res.Status = rebase.Status ∧ res.Continuation = none ∧
            res.Branch = (ReadBranch s opts.Branch).1) ∧
      (rebase.Status ≠ RebaseConflict → C.NewTrunk ≠ "" →
        SameCore (SyncBranch env s opts).state
          (syncBranchUpdateNewTrunk env s1 (ReadBranch s opts.Branch).1 C.NewTrunk).state ∧
        ∀ res t, SyncBranch env s opts = .ok (res, t) →
          res.Status = rebase.Status ∧ res.Continuation = none ∧
            ∃ s2, syncBranchUpdateNewTrunk env s1 (ReadBranch s opts.Branch).1 C.NewTrunk
                = .ok (res.Branch, s2) ∧ SameCore t s2) := by
  obtain ⟨rebase, s1, hr, hst, hlog⟩ := RebaseParse_continue env s
  have hsync : SyncBranch env s opts =
      match syncBranchContinue env s opts (ReadBranch s opts.Branch).1 with
      | .error e => .error e
      | .ok (res, s1) => syncBranchFinish env opts none res s1 := by
    unfold SyncBranch
    simp only [hC]
  rw [syncBranchContinue_eq hC hr] at hsync
  refine ⟨rebase, s1, hr, hst, hlog, ?_, ?_, ?_⟩
  · intro hcf
    rw [hsync, if_pos hcf]
    exact syncBranchFinish_quiet _ _ _ _ _ (Or.inl rfl)
  · intro hnc hempty
    rw [if_neg hnc, if_neg (by simp [hempty])] at hsync
    rw [hsync]
    refine ⟨syncBranchFinish_state _ _ _ _ _, ?_⟩
    intro res t h
    have := syncBranchFinish_ok _ _ _ _ _ _ _ h
    subst this
    exact ⟨rfl, rfl, rfl⟩
  · intro hnc hne
    rw [if_neg hnc, if_pos hne] at hsync
    rw [hsync]
    cases hu : syncBranchUpdateNewTrunk env s1 (ReadBranch s opts.Branch).1 C.NewTrunk with
    | error e =>
      refine ⟨SameCore.refl _, ?_⟩
      intro res t h
      simp at h
    | ok v =>
      obtain ⟨branch, s2⟩ := v
      simp only [Outcome.state_ok]
      refine ⟨syncBranchFinish_state _ _ _ _ _, ?_⟩
      intro res t h
      have hres := syncBranchFinish_ok _ _ _ _ _ _ _ h
      subst hres
      refine ⟨rfl, rfl, s2, rfl, ?_⟩
      have := syncBranchFinish_state env opts none
        { Status := rebase.Status, Continuation := none, Branch := branch } s2
      rw [h] at this
      exact this

/-- The three outcomes of a continued sync. In `Example.suspended` (a reparent is pending)
a `rebase --continue` that stops again gives back the continuation and the stored record in
the state the rebase left; one that goes through gives `Updated`, no continuation and the
record reparented onto `main`. In `Example.suspendedMoved` (no reparent pending) it gives
`Updated`, no continuation and the stored record as it is. -/
theorem SyncBranch_continue_witness :
    (∃ rebase s1, RebaseParse Example.envStuck Example.suspended { Continue := true }
          = .ok (rebase, s1) ∧ rebase.Status = RebaseConflict ∧
        SyncBranch Example.envStuck Example.suspended
            { Branch := "stack-2", NoPush := true, Continuation := some Example.continuation }
          = .ok ({ Status := RebaseConflict, Continuation := some Example.continuation,
                   Branch := (ReadBranch Example.suspended "stack-2").1 }, s1)) ∧
    (∃ res t, SyncBranch Example.envConflict Example.suspended
          { Branch := "stack-2", NoPush := true, Continuation := some Example.continuation }
          = .ok (res, t) ∧
        res.Status = RebaseUpdated ∧ res.Continuation = none ∧
        res.Branch.Parent.Name = "main" ∧
        ∃ s1 s2, syncBranchUpdateNewTrunk Example.envConflict s1
            (ReadBranch Example.suspended "stack-2").1 "main" = .ok (res.Branch, s2)) ∧
    (∃ res t, SyncBranch Example.envConflict Example.suspendedMoved
          { Branch := "stack-2", NoPush := true,
            Continuation := some { OldHead := "Y", ParentCommit := "B" } } = .ok (res, t) ∧
        res.Status = RebaseUpdated ∧ res.Continuation = none ∧
        res.Branch = (ReadBranch Example.suspendedMoved "stack-2").1 ∧
        writeCalls t.log = []) := by
  refine ⟨?_, ?_, ?_⟩
  · obtain ⟨rebase, s1, hr, _, _, hconflict, _, _⟩ :=
      SyncBranch_continue Example.envStuck Example.suspended
        { Branch := "stack-2", NoPush := true, Continuation := some Example.continuation }
        Example.continuation rfl
    have hstatus : (match RebaseParse Example.envStuck Example.suspended { Continue := true } with
        | .ok v => v.1.Status
        | .error _ => RebaseUpdated) = RebaseConflict := rfl
    rw [hr] at hstatus
    replace hstatus : rebase.Status = RebaseConflict := hstatus
    exact ⟨rebase, s1, hr, hstatus, hconflict hstatus⟩
  · obtain ⟨rebase, s1, hr, _, _, _, _, hreparent⟩ :=
      SyncBranch_continue Example.envConflict Example.suspended
        { Branch := "stack-2", NoPush := true, Continuation := some Example.continuation }
        Example.continuation rfl
    have hstatus : (match RebaseParse Example.envConflict Example.suspended
          { Continue := true } with
        | .ok v => v.1.Status
        | .error _ => RebaseConflict) = RebaseUpdated := rfl
    rw [hr] at hstatus
    replace hstatus : rebase.Status = RebaseUpdated := hstatus
    have hnc : rebase.Status ≠ RebaseConflict := by rw [hstatus]; decide
    obtain ⟨res, t, hrun⟩ : ∃ res t, SyncBranch Example.envConflict Example.suspended
        { Branch := "stack-2", NoPush := true, Continuation := some Example.continuation }
        = .ok (res, t) := ⟨_, _, rfl⟩
    obtain ⟨hs, hc, s2, hup, _⟩ := (hreparent hnc (by decide)).2 res t hrun
    obtain ⟨_, _, hparent, _⟩ := syncBranchUpdateNewTrunk_ok hup
    refine ⟨res, t, hrun, hs.trans hstatus, hc, ?_, s1, s2, hup⟩
    rw [hparent]
    rfl
  · obtain ⟨rebase, s1, hr, _, hlog, _, hplain, _⟩ :=
      SyncBranch_continue Example.envConflict Example.suspendedMoved
        { Branch := "stack-2", NoPush := true,
          Continuation := some { OldHead := "Y", ParentCommit := "B" } }
        { OldHead := "Y", ParentCommit := "B" } rfl
    have hstatus : (match RebaseParse Example.envConflict Example.suspendedMoved
          { Continue := true } with
        | .ok v => v.1.Status
        | .error _ => RebaseConflict) = RebaseUpdated := rfl
    rw [hr] at hstatus
    replace hstatus : rebase.Status = RebaseUpdated := hstatus
    have hnc : rebase.Status ≠ RebaseConflict := by rw [hstatus]; decide
    obtain ⟨res, t, hrun⟩ : ∃ res t, SyncBranch Example.envConflict Example.suspendedMoved
        { Branch := "stack-2", NoPush := true,
          Continuation := some { OldHead := "Y", ParentCommit := "B" } }
        = .ok (res, t) := ⟨_, _, rfl⟩
    obtain ⟨hcore, hall⟩ := hplain hnc rfl
    obtain ⟨hs, hc, hb⟩ := hall res t hrun
    refine ⟨res, t, hrun, hs.trans hstatus, hc, hb, ?_⟩
    rw [hrun] at hcore
    simp only [Outcome.state_ok] at hcore
    rw [hcore.2.2.2.2, hlog]
    rfl

/-! ## C10: continuation and conflict -/

/-- A fresh `SyncBranch` that returns a result got past its refresh. -/
theorem SyncBranch_fresh_refresh {env : Env} {s t : State} {opts : SyncBranchOpts}
    {res : SyncBranchResult} (hfresh : opts.Continuation = none)
    (h : SyncBranch env s opts = .ok (res, t)) :
    ∃ B pull s1,
      syncBranchRefresh env s opts (ReadBranch s opts.Branch).1 = .ok ((B, pull), s1) := by
  unfold SyncBranch at h
  simp only [hfresh] at h
  cases hr : syncBranchRefresh env s opts (ReadBranch s opts.Branch).1 with
  | error e => rw [hr] at h; simp at h
  | ok v =>
    obtain ⟨⟨B, pull⟩, s1⟩ := v
    exact ⟨B, pull, s1, rfl⟩

/-- The rebase phase sets the continuation exactly when it reports a conflict. -/
theorem syncBranchRebase_continuation {env : Env} {s t : State} {opts : SyncBranchOpts}
    {B : Branch} {res : SyncBranchResult} (h : syncBranchRebase env s opts B = .ok (res, t)) :
    res.Continuation.isSome = true ↔ res.Status = RebaseConflict := by
  obtain ⟨branchHead, remote, _, _, hsc⟩ := syncBranchRebase_ok h
  split at hsc
  · obtain ⟨_, hcase⟩ := syncBranchRebaseStackRoot_ok hsc
    rcases hcase with ⟨_, _, hst, hc⟩ | ⟨_, _, rebase, _, _, hst, hc⟩
    · rw [hst, hc]; simp
    · rw [hst, hc]; split <;> simp_all
  · split at hsc
    · obtain ⟨_, _, rebase, _, _, _, _, hst, hcase⟩ := syncBranchRebaseParentMerged_ok hsc
      rcases hcase with ⟨hcf, _, _, hc⟩ | ⟨hnc, hc, _⟩
      · rw [hst, hc]; simp [hcf]
      · rw [hst, hc]; simp [hnc]
    · obtain ⟨_, _, _, _, _, hcase⟩ := syncBranchRebaseParent_ok hsc
      rcases hcase with ⟨_, _, hst, hc⟩ | ⟨_, rebase, _, hst, hc⟩
      · rw [hst, hc]; simp
      · rw [hst, hc]; split <;> simp_all

/-- A continued `SyncBranch` returns what its continue path returns. -/
theorem SyncBranch_continued_ok {env : Env} {s t : State} {opts : SyncBranchOpts}
    {C : SyncBranchContinuation} {res : SyncBranchResult} (hC : opts.Continuation = some C)
    (h : SyncBranch env s opts = .ok (res, t)) :
    ∃ s2, syncBranchContinue env s opts (ReadBranch s opts.Branch).1 = .ok (res, s2) ∧
      SameCore t s2 := by
  unfold SyncBranch at h
  simp only [hC] at h
  cases hr : syncBranchContinue env s opts (ReadBranch s opts.Branch).1 with
  | error e => rw [hr] at h; simp at h
  | ok v =>
    obtain ⟨res', s2⟩ := v
    rw [hr] at h
    simp only at h
    have hres := syncBranchFinish_ok env opts none res' res s2 t h
    subst hres
    refine ⟨s2, rfl, ?_⟩
    have := syncBranchFinish_state env opts none res s2
    rw [h] at this
    exact this

/-- The continue path sets the continuation exactly when it reports a conflict. -/
theorem syncBranchContinue_continuation {env : Env} {s t : State} {opts : SyncBranchOpts}
    {B : Branch} {C : SyncBranchContinuation} {res : SyncBranchResult}
    (hC : opts.Continuation = some C) (h : syncBranchContinue env s opts B = .ok (res, t)) :
    res.Continuation.isSome = true ↔ res.Status = RebaseConflict := by
  obtain ⟨rebase, s1, hr, _, _⟩ := RebaseParse_continue env s
  rw [syncBranchContinue_eq hC hr] at h
  split at h
  · simp only [Except.ok.injEq, Prod.mk.injEq] at h
    rw [← h.1]; simp
  · rename_i hnc
    split at h
    · cases hu : syncBranchUpdateNewTrunk env s1 B C.NewTrunk with
      | error e => rw [hu] at h; simp at h
      | ok v =>
        rw [hu] at h
        simp only [Except.ok.injEq, Prod.mk.injEq] at h
        rw [← h.1]; simp [hnc]
    · simp only [Except.ok.injEq, Prod.mk.injEq] at h
      rw [← h.1]; simp [hnc]

/-- C10: whenever `SyncBranch` returns a result, fresh or continued, the continuation of the
result is set if and only if its status is `RebaseConflict`. -/
theorem SyncBranch_continuation_iff_conflict (env : Env) (s t : State) (opts : SyncBranchOpts)
    (res : SyncBranchResult) (h : SyncBranch env s opts = .ok (res, t)) :
    res.Continuation.isSome = true ↔ res.Status = RebaseConflict := by
  cases hC : opts.Continuation with
  | some C =>
    obtain ⟨s2, hcont, _⟩ := SyncBranch_continued_ok hC h
    exact syncBranchContinue_continuation hC hcont
  | none =>
    obtain ⟨B, pull, s1, href⟩ := SyncBranch_fresh_refresh hC h
    by_cases hm : B.MergeCommit = ""
    · obtain ⟨s2, hreb, _⟩ := SyncBranch_fresh_ok hC href hm h
      exact syncBranchRebase_continuation hreb
    · rw [SyncBranch_fresh_merged hC href hm] at h
      simp only [Except.ok.injEq, Prod.mk.injEq] at h
      rw [← h.1]; simp

/-- A parent-moved sync that stops on a conflict: the status is `Conflict` and the
continuation is set. -/
theorem SyncBranch_continuation_iff_conflict_witness :
    ∃ res t, SyncBranch Example.envConflict Example.moved
        { Branch := "stack-2", NoFetch := true } = .ok (res, t) ∧
      res.Status = RebaseConflict ∧
      (res.Continuation.isSome = true ↔ res.Status = RebaseConflict) :=
  ⟨_, _, rfl, rfl,
    SyncBranch_continuation_iff_conflict Example.envConflict Example.moved _
      { Branch := "stack-2", NoFetch := true } _ rfl⟩

/-! ## C9: the continuation round trip -/

/-- A fresh rebase that stops on a conflict suspends the rewrite that the same rebase
completes when nothing conflicts. -/
theorem Repo.Rebase_conflict {r r' : Repo} {conflicts : Bool} {opts : RebaseOpts}
    {res : RebaseResult} (h : r.Rebase conflicts opts = .ok (res, r'))
    (hs : res.Status = RebaseConflict) :
    ∃ plan, r' = { r with rebasing := some plan } ∧
      r.Rebase false opts = .ok ({ Status := RebaseUpdated }, r.finishRebase plan) := by
  unfold Repo.Rebase at h ⊢
  split at h
  · simp at h
  · rename_i hg1
    rw [if_neg hg1]
    split at h
    · simp at h
    · rename_i hg2
      rw [if_neg hg2]
      cases ht : r.RevParse opts.Branch with
      | error e => rw [ht] at h; simp at h
      | ok tip =>
      rw [ht] at h
      simp only at h ⊢
      cases hu : r.RevParse opts.Upstream with
      | error e => rw [hu] at h; simp at h
      | ok upstream =>
      rw [hu] at h
      simp only at h ⊢
      generalize (if opts.Onto = "" then (.ok upstream : Except String String)
          else r.RevParse opts.Onto) = ox at h ⊢
      cases ox with
      | error e => simp at h
      | ok onto =>
      simp only at h ⊢
      split at h
      · simp only [Except.ok.injEq, Prod.mk.injEq] at h
        rw [← h.1] at hs
        exact absurd hs (by decide)
      · rename_i hup
        rw [if_neg hup]
        split at h
        · simp at h
        · rename_i hany
          rw [if_neg hany]
          split at h
          · simp only [Except.ok.injEq, Prod.mk.injEq] at h
            exact ⟨_, h.2.symm, by simp⟩
          · simp only [Except.ok.injEq, Prod.mk.injEq] at h
            rw [← h.1] at hs
            exact absurd hs (by decide)

theorem RebaseParse_of_rebase (env : Env) (s : State) {o : RebaseOpts} {res : RebaseResult}
    {r : Repo} (hc : o.Continue = false)
    (h : s.repo.Rebase (env.rebaseConflicts o) o = .ok (res, r)) :
    RebaseParse env s o = .ok (res, { s with log := s.log ++ [Event.rebase o], repo := r }) := by
  unfold RebaseParse
  simp only [hc, Bool.false_eq_true, if_false, h]

/-- After a conflict, a `rebase --continue` that goes through completes the suspended
rewrite; the continue path then reparents when the continuation names a new trunk. -/
theorem syncBranchContinue_after_conflict {env : Env} {t1 t2 : State} {opts : SyncBranchOpts}
    {B : Branch} {C : SyncBranchContinuation} {res : SyncBranchResult} {r : Repo}
    {plan : PendingRebase} (hrepo : t1.repo = { r with rebasing := some plan })
    (hC : opts.Continuation = some C) (h : syncBranchContinue env t1 opts B = .ok (res, t2))
    (hs : res.Status ≠ RebaseConflict) :
    ∃ sU, sU.repo = r.finishRebase plan ∧ sU.store = t1.store ∧
      ((C.NewTrunk ≠ "" ∧ syncBranchUpdateNewTrunk env sU B C.NewTrunk = .ok (res.Branch, t2)) ∨
        (C.NewTrunk = "" ∧ res.Branch = B ∧ t2 = sU)) := by
  obtain ⟨rebase, s1, hr, hst, _⟩ := RebaseParse_continue env t1
  rw [syncBranchContinue_eq hC hr] at h
  obtain ⟨_, _, hcont⟩ := RebaseParse_ok hr
  simp only [if_true] at hcont
  unfold Repo.RebaseContinue at hcont
  rw [hrepo] at hcont
  simp only at hcont
  have hrepo1 : rebase.Status ≠ RebaseConflict → s1.repo = r.finishRebase plan := by
    intro hnc
    split at hcont
    · simp only [Except.ok.injEq, Prod.mk.injEq] at hcont
      rw [← hcont.1] at hnc
      exact absurd rfl hnc
    · simp only [Except.ok.injEq, Prod.mk.injEq] at hcont
      rw [← hcont.2]
      rfl
  split at h
  · simp only [Except.ok.injEq, Prod.mk.injEq] at h
    rw [← h.1] at hs
    exact absurd rfl hs
  · rename_i hnc
    refine ⟨s1, hrepo1 hnc, hst, ?_⟩
    split at h
    · rename_i hne
      cases hu : syncBranchUpdateNewTrunk env s1 B C.NewTrunk with
      | error e => rw [hu] at h; simp at h
      | ok v =>
        obtain ⟨b, s2⟩ := v
        rw [hu] at h
        simp only [Except.ok.injEq, Prod.mk.injEq] at h
        obtain ⟨rfl, rfl⟩ := h
        exact Or.inl ⟨hne, rfl⟩
    · rename_i he
      simp only [Except.ok.injEq, Prod.mk.injEq] at h
      obtain ⟨rfl, rfl⟩ := h
      exact Or.inr ⟨by simpa using he, rfl, rfl⟩

/-- The reparent depends on the state only through the repository graph and the store, and on
the environment only through the failures of metadata writes. -/
theorem syncBranchUpdateNewTrunk_congr {env env' : Env} {s s' t : State} {b b' : Branch}
    {newTrunk : String} (hw : env'.writeError = env.writeError)
    (hr : s'.repo.RevParse newTrunk = s.repo.RevParse newTrunk)
    (hs : s'.store = s.store) (h : syncBranchUpdateNewTrunk env s b newTrunk = .ok (b', t)) :
    ∃ t', syncBranchUpdateNewTrunk env' s' b newTrunk = .ok (b', t') ∧ t'.store = t.store := by
  have hrs : ReadBranchState s'.repo newTrunk true = ReadBranchState s.repo newTrunk true := by
    unfold ReadBranchState
    rw [hr]
  unfold syncBranchUpdateNewTrunk WriteBranch at h ⊢
  simp only [ReadBranch, hw, hrs, hs] at h ⊢
  cases hp : ReadBranchState s.repo newTrunk true with
  | error e => rw [hp] at h; simp at h
  | ok parent =>
    rw [hp] at h
    simp only at h ⊢
    cases hw1 : env.writeError { b with Parent := parent } with
    | some e => rw [hw1] at h; simp at h
    | none =>
      rw [hw1] at h
      simp only at h ⊢
      split at h
      · rename_i hlen
        rw [if_pos hlen]
        split at h
        · simp at h
        · rename_i hw2
          split at hw2
          · simp at hw2
          · rename_i hw3
            simp only [hw3]
            simp only [Except.ok.injEq, Prod.mk.injEq] at hw2 h
            obtain ⟨rfl, rfl⟩ := h
            rw [← hw2.2]
            exact ⟨_, rfl, rfl⟩
      · rename_i hlen
        rw [if_neg hlen]
        simp only [Except.ok.injEq, Prod.mk.injEq] at h
        obtain ⟨rfl, rfl⟩ := h
        exact ⟨_, rfl, rfl⟩


@[simp] theorem Env.withoutConflicts_fetchError (env : Env) :
    env.withoutConflicts.fetchError = env.fetchError := rfl

@[simp] theorem Env.withoutConflicts_writeError (env : Env) :
    env.withoutConflicts.writeError = env.writeError := rfl

@[simp] theorem Env.withoutConflicts_PullRequestState (env : Env) :
    env.withoutConflicts.PullRequestState = env.PullRequestState := rfl

@[simp] theorem Env.withoutConflicts_rebaseConflicts (env : Env) (o : RebaseOpts) :
    env.withoutConflicts.rebaseConflicts o = false := rfl

theorem RebaseParse_withoutConflicts (env : Env) (s : State) {o : RebaseOpts} {r : Repo}
    (hc : o.Continue = false)
    (h : s.repo.Rebase false o = .ok ({ Status := RebaseUpdated }, r)) :
    RebaseParse env.withoutConflicts s o
      = .ok ({ Status := RebaseUpdated },
          { s with log := s.log ++ [Event.rebase o], repo := r }) :=
  RebaseParse_of_rebase env.withoutConflicts s hc h

/-- The stack-root scenario after a conflict: what the same sync returns when nothing
conflicts. -/
theorem syncBranchRebaseStackRoot_conflict {env : Env} {s t : State} {opts : SyncBranchOpts}
    {B : Branch} {branchHead remote : String} {res : SyncBranchResult}
    (h : syncBranchRebaseStackRoot env s opts B branchHead remote = .ok (res, t))
    (hs : res.Status = RebaseConflict) :
    t.store = s.store ∧ res.Continuation = some { OldHead := branchHead } ∧
    ∃ plan sU, t.repo = { s.repo with rebasing := some plan } ∧
      sU.repo = s.repo.finishRebase plan ∧ sU.store = s.store ∧
      syncBranchRebaseStackRoot env.withoutConflicts s opts B branchHead remote
        = .ok ({ Status := RebaseUpdated, Continuation := none, Branch := B }, sU) := by
  unfold syncBranchRebaseStackRoot Fetch at h ⊢
  simp only [Env.withoutConflicts_fetchError] at h ⊢
  cases ht : opts.ToTrunk with
  | false =>
    rw [ht] at h
    simp only [Bool.not_false, if_true, Except.ok.injEq, Prod.mk.injEq] at h
    rw [← h.1] at hs
    simp at hs
  | true =>
    rw [ht] at h
    simp only [Bool.not_true, Bool.false_eq_true, if_false] at h ⊢
    cases hfe : env.fetchError remote B.Parent.Name with
    | some e => rw [hfe] at h; simp at h
    | none =>
      rw [hfe] at h
      simp only at h ⊢
      cases hp : s.repo.RevParse B.Parent.Name with
      | error e => rw [hp] at h; simp at h
      | ok trunkHead =>
        rw [hp] at h
        simp only at h ⊢
        cases hr : RebaseParse env { s with log := s.log ++ [Event.fetch remote B.Parent.Name] }
            { Branch := opts.Branch, Upstream := trunkHead } with
        | error e => rw [hr] at h; simp at h
        | ok v =>
          obtain ⟨rebase, s2⟩ := v
          rw [hr] at h
          simp only at h
          obtain ⟨hst, _, hreb⟩ := RebaseParse_ok hr
          simp only [Bool.false_eq_true, if_false] at hreb
          have hcf : rebase.Status = RebaseConflict := by
            split at h <;>
            · simp only [Except.ok.injEq, Prod.mk.injEq] at h
              rw [← h.1] at hs
              simpa using hs
          rw [hcf] at h
          simp only [Except.ok.injEq, Prod.mk.injEq] at h
          obtain ⟨rfl, rfl⟩ := h
          obtain ⟨plan, hplan, hone⟩ := Repo.Rebase_conflict hreb hcf
          refine ⟨hst, rfl, plan,
            { repo := s.repo.finishRebase plan, store := s.store,
              log := (s.log ++ [Event.fetch remote B.Parent.Name]) ++
                [Event.rebase { Branch := opts.Branch, Upstream := trunkHead }] },
            hplan, rfl, rfl, ?_⟩
          rw [RebaseParse_withoutConflicts env
            { s with log := s.log ++ [Event.fetch remote B.Parent.Name] } rfl hone]


/-- Scenario 3 after a conflict: what the same sync returns when nothing conflicts. -/
theorem syncBranchRebaseParent_conflict {env : Env} {s t : State} {B P : Branch}
    {branchHead : String} {res : SyncBranchResult}
    (h : syncBranchRebaseParent env s B P branchHead = .ok (res, t))
    (hs : res.Status = RebaseConflict) :
    t.store = s.store ∧
    (∃ parentHead, res.Continuation
      = some { OldHead := branchHead, ParentCommit := parentHead }) ∧
    ∃ plan sU, t.repo = { s.repo with rebasing := some plan } ∧
      sU.repo = s.repo.finishRebase plan ∧ sU.store = s.store ∧
      syncBranchRebaseParent env.withoutConflicts s B P branchHead
        = .ok ({ Status := RebaseUpdated, Continuation := none, Branch := B }, sU) := by
  obtain ⟨_, parentHead, mergeBase, hp, hm, hcase⟩ := syncBranchRebaseParent_ok h
  rcases hcase with ⟨_, _, hst, _⟩ | ⟨hne, rebase, hrp, hstatus, hcont⟩
  · rw [hst] at hs; exact absurd hs (by decide)
  · rw [hstatus] at hs
    rw [if_pos hs] at hcont
    obtain ⟨hst, _, hreb⟩ := RebaseParse_ok hrp
    simp only [Bool.false_eq_true, if_false] at hreb
    obtain ⟨plan, hplan, hone⟩ := Repo.Rebase_conflict hreb hs
    refine ⟨hst, ⟨parentHead, hcont⟩, plan,
      { repo := s.repo.finishRebase plan, store := s.store,
        log := s.log ++ [Event.rebase
          { Branch := B.Name, Onto := parentHead, Upstream := B.Parent.Head }] },
      hplan, rfl, rfl, ?_⟩
    unfold syncBranchRebaseParent
    simp only [hp, hm, if_neg hne]
    rw [RebaseParse_withoutConflicts env s rfl hone]

/-- Scenario 1 after a conflict: when nothing conflicts the same sync goes on to the
reparent, on a state with the completed rewrite and the same store. -/
theorem syncBranchRebaseParentMerged_conflict {env : Env} {s t : State}
    {opts : SyncBranchOpts} {B P : Branch} {branchHead remote : String}
    {res : SyncBranchResult}
    (h : syncBranchRebaseParentMerged env s opts B P branchHead remote = .ok (res, t))
    (hs : res.Status = RebaseConflict) :
    t.store = s.store ∧
    res.Continuation = some { OldHead := branchHead, ParentCommit := P.MergeCommit,
                              NewTrunk := P.Parent.Name } ∧
    ∃ plan sU, t.repo = { s.repo with rebasing := some plan } ∧
      sU.repo = s.repo.finishRebase plan ∧ sU.store = s.store ∧
      syncBranchRebaseParentMerged env.withoutConflicts s opts B P branchHead remote
        = match syncBranchUpdateNewTrunk env.withoutConflicts sU B P.Parent.Name with
          | .error e => .error e
          | .ok (branch, s3) =>
            .ok ({ Status := RebaseUpdated, Continuation := none, Branch := branch }, s3) := by
  unfold syncBranchRebaseParentMerged Fetch at h ⊢
  simp only [Env.withoutConflicts_fetchError] at h ⊢
  have key : ∀ s1 : State, s1.repo = s.repo → s1.store = s.store →
      (match RebaseParse env s1
          { Branch := B.Name, Upstream := B.Parent.Name, Onto := P.MergeCommit } with
        | .error e => (.error e : Outcome SyncBranchResult)
        | .ok (rebase, s2) =>
          if rebase.Status = RebaseConflict then
            .ok ({ Status := rebase.Status
                   Continuation := some { OldHead := branchHead
                                          ParentCommit := P.MergeCommit
                                          NewTrunk := P.Parent.Name }
                   Branch := B }, s2)
          else
            match syncBranchUpdateNewTrunk env s2 B P.Parent.Name with
            | .error e => .error e
            | .ok (branch, s3) =>
              .ok ({ Status := rebase.Status, Continuation := none, Branch := branch }, s3))
        = .ok (res, t) →
      t.store = s.store ∧
      res.Continuation = some { OldHead := branchHead, ParentCommit := P.MergeCommit,
                                NewTrunk := P.Parent.Name } ∧
      ∃ plan sU, t.repo = { s.repo with rebasing := some plan } ∧
        sU.repo = s.repo.finishRebase plan ∧ sU.store = s.store ∧
        (match RebaseParse env.withoutConflicts s1
            { Branch := B.Name, Upstream := B.Parent.Name, Onto := P.MergeCommit } with
          | .error e => (.error e : Outcome SyncBranchResult)
          | .ok (rebase, s2) =>
            if rebase.Status = RebaseConflict then
              .ok ({ Status := rebase.Status
                     Continuation := some { OldHead := branchHead
                                            ParentCommit := P.MergeCommit
                                            NewTrunk := P.Parent.Name }
                     Branch := B }, s2)
            else
              match syncBranchUpdateNewTrunk env.withoutConflicts s2 B P.Parent.Name with
              | .error e => .error e
              | .ok (branch, s3) =>
                .ok ({ Status := rebase.Status, Continuation := none, Branch := branch }, s3))
          = match syncBranchUpdateNewTrunk env.withoutConflicts sU B P.Parent.Name with
            | .error e => .error e
            | .ok (branch, s3) =>
              .ok ({ Status := RebaseUpdated, Continuation := none, Branch := branch }, s3) := by
    intro s1 hr1 hst1 h1
    cases hr : RebaseParse env s1
        { Branch := B.Name, Upstream := B.Parent.Name, Onto := P.MergeCommit } with
    | error e => rw [hr] at h1; simp at h1
    | ok v =>
      obtain ⟨rebase, s2⟩ := v
      rw [hr] at h1
      simp only at h1
      obtain ⟨hst, _, hreb⟩ := RebaseParse_ok hr
      simp only [Bool.false_eq_true, if_false] at hreb
      split at h1
      · rename_i hcf
        simp only [Except.ok.injEq, Prod.mk.injEq] at h1
        obtain ⟨rfl, rfl⟩ := h1
        obtain ⟨plan, hplan, hone⟩ := Repo.Rebase_conflict hreb hcf
        rw [hr1] at hplan hone
        refine ⟨hst.trans hst1, rfl, plan,
          { repo := s.repo.finishRebase plan, store := s.store,
            log := s1.log ++ [Event.rebase
              { Branch := B.Name, Upstream := B.Parent.Name, Onto := P.MergeCommit }] },
          hplan, rfl, rfl, ?_⟩
        rw [← hr1] at hone
        rw [RebaseParse_withoutConflicts env s1 rfl hone]
        simp only [hst1, hr1]
        simp
      · rename_i hnc
        cases hu : syncBranchUpdateNewTrunk env s2 B P.Parent.Name with
        | error e => rw [hu] at h1; simp at h1
        | ok w =>
          rw [hu] at h1
          simp only [Except.ok.injEq, Prod.mk.injEq] at h1
          rw [← h1.1] at hs
          exact absurd hs hnc
  cases hn : opts.NoFetch with
  | true =>
    rw [hn] at h
    simp only [Bool.not_true, Bool.false_eq_true, if_false] at h ⊢
    exact key s rfl rfl h
  | false =>
    rw [hn] at h
    simp only [Bool.not_false, if_true] at h ⊢
    cases hfe : env.fetchError remote B.MergeCommit with
    | some e => rw [hfe] at h; simp at h
    | none =>
      rw [hfe] at h
      simp only at h ⊢
      exact key _ rfl rfl h


/-- The rebase phase after a conflict: the store is untouched, the rewrite is suspended, and
when nothing conflicts the same phase completes the rewrite and, in scenario 1 only, goes
on to the reparent onto the trunk the continuation names. -/
theorem syncBranchRebase_conflict {env : Env} {s t : State} {opts : SyncBranchOpts}
    {B : Branch} {res : SyncBranchResult} {C : SyncBranchContinuation}
    (h : syncBranchRebase env s opts B = .ok (res, t)) (hC : res.Continuation = some C) :
    t.store = s.store ∧
    ∃ plan sU, t.repo = { s.repo with rebasing := some plan } ∧
      sU.repo = s.repo.finishRebase plan ∧ sU.store = s.store ∧
      ((C.NewTrunk = "" ∧ syncBranchRebase env.withoutConflicts s opts B
          = .ok ({ Status := RebaseUpdated, Continuation := none, Branch := B }, sU)) ∨
        (B.IsStackRoot = false ∧ (ReadBranch s B.Parent.Name).1.MergeCommit ≠ "" ∧
          C.NewTrunk = (ReadBranch s B.Parent.Name).1.Parent.Name ∧
          syncBranchRebase env.withoutConflicts s opts B
            = match syncBranchUpdateNewTrunk env.withoutConflicts sU B
                (ReadBranch s B.Parent.Name).1.Parent.Name with
              | .error e => .error e
              | .ok (branch, s3) =>
                .ok ({ Status := RebaseUpdated, Continuation := none, Branch := branch }, s3))) := by
  have hs : res.Status = RebaseConflict :=
    (syncBranchRebase_continuation h).1 (by rw [hC]; rfl)
  obtain ⟨branchHead, remote, hhead, hremote, hsc⟩ := syncBranchRebase_ok h
  have hone : syncBranchRebase env.withoutConflicts s opts B =
      (if B.IsStackRoot then
        syncBranchRebaseStackRoot env.withoutConflicts s opts B branchHead remote
      else if (ReadBranch s B.Parent.Name).1.MergeCommit ≠ "" then
        syncBranchRebaseParentMerged env.withoutConflicts s opts B
          (ReadBranch s B.Parent.Name).1 branchHead remote
      else syncBranchRebaseParent env.withoutConflicts s B
        (ReadBranch s B.Parent.Name).1 branchHead) := by
    unfold syncBranchRebase
    simp only [hhead, hremote]
  rw [hone]
  cases hroot : B.IsStackRoot with
  | true =>
    rw [if_pos hroot] at hsc
    obtain ⟨hst, hc, plan, sU, hplan, hU1, hU2, heq⟩ := syncBranchRebaseStackRoot_conflict hsc hs
    rw [hC] at hc
    simp only [Option.some.injEq] at hc
    refine ⟨hst, plan, sU, hplan, hU1, hU2, Or.inl ⟨by rw [hc], ?_⟩⟩
    simpa using heq
  | false =>
    rw [if_neg (by simp [hroot])] at hsc
    by_cases hP : (ReadBranch s B.Parent.Name).1.MergeCommit = ""
    · rw [if_neg (by simp [hP])] at hsc
      obtain ⟨hst, ⟨parentHead, hc⟩, plan, sU, hplan, hU1, hU2, heq⟩ :=
        syncBranchRebaseParent_conflict hsc hs
      rw [hC] at hc
      simp only [Option.some.injEq] at hc
      refine ⟨hst, plan, sU, hplan, hU1, hU2, Or.inl ⟨by rw [hc], ?_⟩⟩
      simpa [hP] using heq
    · rw [if_pos hP] at hsc
      obtain ⟨hst, hc, plan, sU, hplan, hU1, hU2, heq⟩ :=
        syncBranchRebaseParentMerged_conflict hsc hs
      rw [hC] at hc
      simp only [Option.some.injEq] at hc
      refine ⟨hst, plan, sU, hplan, hU1, hU2, Or.inr ⟨rfl, hP, by rw [hc], ?_⟩⟩
      simpa [hP] using heq

theorem syncBranchRefresh_withoutConflicts (env : Env) (s : State) (opts : SyncBranchOpts)
    (b : Branch) :
    syncBranchRefresh env.withoutConflicts s opts b = syncBranchRefresh env s opts b := rfl

theorem syncBranchUpdateNewTrunk_empty (env : Env) (s : State) (b : Branch) :
    ∃ e, syncBranchUpdateNewTrunk env s b "" = .error e := by
  unfold syncBranchUpdateNewTrunk ReadBranchState Repo.RevParse
  simp


/-- Completing the rebase a repository has suspended. -/
theorem Repo.completed_suspended (r : Repo) (plan : PendingRebase) :
    ({ r with rebasing := some plan } : Repo).completed = r.finishRebase plan := rfl

/-- A `rebase --continue` that does not stop on a conflict leaves the repository with the
rebase in progress, if there was one, completed. -/
theorem Repo.RebaseContinue_completed {r r' : Repo} {conflicts : Bool} {res : RebaseResult}
    (h : r.RebaseContinue conflicts = .ok (res, r')) (hs : res.Status ≠ RebaseConflict) :
    r' = r.completed := by
  unfold Repo.completed
  unfold Repo.RebaseContinue at h ⊢
  cases hp : r.rebasing with
  | none =>
    rw [hp] at h
    simp only [Except.ok.injEq, Prod.mk.injEq] at h
    exact h.2.symm
  | some plan =>
    rw [hp] at h
    simp only at h ⊢
    cases conflicts with
    | true =>
      simp only [if_true, Except.ok.injEq, Prod.mk.injEq] at h
      rw [← h.1] at hs
      exact absurd rfl hs
    | false =>
      simp only [Bool.false_eq_true, if_false, Except.ok.injEq, Prod.mk.injEq] at h
      simp only [Bool.false_eq_true, if_false]
      exact h.2.symm

/-- With no rebase in progress, completing changes nothing. -/
theorem Repo.completed_of_none {r : Repo} (h : r.rebasing = none) : r.completed = r := by
  unfold Repo.completed Repo.RebaseContinue
  rw [h]

/-- The continue path, when it returns a non-conflict status (`Updated` after completing the
rebase in progress, `NotInProgress` when there is none): the rebase in progress, if any, has
been completed, the store is untouched by the rebase, and the path reparents when the
continuation names a new trunk. -/
theorem syncBranchContinue_completed {env : Env} {u t2 : State} {opts : SyncBranchOpts}
    {B : Branch} {C : SyncBranchContinuation} {res : SyncBranchResult}
    (hC : opts.Continuation = some C) (h : syncBranchContinue env u opts B = .ok (res, t2))
    (hs : res.Status ≠ RebaseConflict) :
    ∃ sV, sV.repo = u.repo.completed ∧ sV.store = u.store ∧
      ((C.NewTrunk ≠ "" ∧ syncBranchUpdateNewTrunk env sV B C.NewTrunk = .ok (res.Branch, t2)) ∨
        (C.NewTrunk = "" ∧ res.Branch = B ∧ t2 = sV)) := by
  obtain ⟨rebase, s1, hr, hst, _⟩ := RebaseParse_continue env u
  rw [syncBranchContinue_eq hC hr] at h
  obtain ⟨_, _, hcont⟩ := RebaseParse_ok hr
  simp only [if_true] at hcont
  split at h
  · simp only [Except.ok.injEq, Prod.mk.injEq] at h
    rw [← h.1] at hs
    exact absurd rfl hs
  · rename_i hnc
    refine ⟨s1, Repo.RebaseContinue_completed hcont hnc, hst, ?_⟩
    split at h
    · rename_i hne
      cases hu : syncBranchUpdateNewTrunk env s1 B C.NewTrunk with
      | error e => rw [hu] at h; simp at h
      | ok v =>
        obtain ⟨b, s2⟩ := v
        rw [hu] at h
        simp only [Except.ok.injEq, Prod.mk.injEq] at h
        obtain ⟨rfl, rfl⟩ := h
        exact Or.inl ⟨hne, rfl⟩
    · rename_i he
      simp only [Except.ok.injEq, Prod.mk.injEq] at h
      obtain ⟨rfl, rfl⟩ := h
      exact Or.inr ⟨by simpa using he, rfl, rfl⟩

/-- C9: if a fresh sync of `B` returns a continuation `C` and the following sync of the same
branch with `C` completes with a non-conflict status, then the record in its result and the
store it leaves are those of the single fresh sync whose rebase does not conflict
(`env.withoutConflicts`): every result of that sync, and of its rebase phase, carries the
same record and leaves the same store; the rebase phase does return a result unless the
parent is merged and its record names no parent, and then so does the sync itself when
`NoPush` is set.  The following sync runs on any state `u` with the store the first sync
left: in the repository that sync left, where `rebase --continue` completes the suspended
rebase (`Updated`), or in one where the rebase has been completed or abandoned outside the
tool (`NotInProgress`).  The one proviso is on the new trunk, if the continuation names
one: when the continue path reparents, it is where it is once the rebase the first sync
suspended is completed. -/
theorem SyncBranch_continue_round_trip (env : Env) (s s1 t1 u t2 : State)
    (opts opts2 : SyncBranchOpts) (B : Branch) (pull : Option GhPullRequest)
    (res1 res2 : SyncBranchResult) (C : SyncBranchContinuation)
    (hfresh : opts.Continuation = none)
    (href : syncBranchRefresh env s opts (ReadBranch s opts.Branch).1 = .ok ((B, pull), s1))
    (h1 : SyncBranch env s opts = .ok (res1, t1)) (hC : res1.Continuation = some C)
    (hbranch : opts2.Branch = opts.Branch) (hcont : opts2.Continuation = some C)
    (hstore : u.store = t1.store)
    (htip : C.NewTrunk ≠ "" →
      u.repo.completed.RevParse C.NewTrunk = t1.repo.completed.RevParse C.NewTrunk)
    (h2 : SyncBranch env u opts2 = .ok (res2, t2)) (hs2 : res2.Status ≠ RebaseConflict) :
    (∀ res3 t3, syncBranchRebase env.withoutConflicts s1 opts B = .ok (res3, t3) →
      res3.Status ≠ RebaseConflict ∧ res3.Branch = res2.Branch ∧ t3.store = t2.store) ∧
    ((B.IsStackRoot = false → (ReadBranch s1 B.Parent.Name).1.MergeCommit ≠ "" →
        (ReadBranch s1 B.Parent.Name).1.Parent.Name ≠ "") →
      ∃ res3 t3, syncBranchRebase env.withoutConflicts s1 opts B = .ok (res3, t3)) ∧
    (∀ res3 t3, SyncBranch env.withoutConflicts s opts = .ok (res3, t3) →
      res3.Branch = res2.Branch ∧ t3.store = t2.store) ∧
    (opts.NoPush = true →
      (B.IsStackRoot = false → (ReadBranch s1 B.Parent.Name).1.MergeCommit ≠ "" →
        (ReadBranch s1 B.Parent.Name).1.Parent.Name ≠ "") →
      ∃ res3 t3, SyncBranch env.withoutConflicts s opts = .ok (res3, t3)) := by
  have hmerged : B.MergeCommit = "" := by
    by_contra hne
    rw [SyncBranch_fresh_merged hfresh href hne] at h1
    simp only [Except.ok.injEq, Prod.mk.injEq] at h1
    rw [← h1.1] at hC
    simp at hC
  obtain ⟨s2, hreb, hcore1⟩ := SyncBranch_fresh_ok hfresh href hmerged h1
  obtain ⟨branchHead, _, hhead, _, _⟩ := syncBranchRebase_ok hreb
  have hBne : B.Name ≠ "" := Repo.RevParse_ne_empty hhead
  obtain ⟨hst2, plan, sU, hplan, hU1, hU2, hcase⟩ := syncBranchRebase_conflict hreb hC
  obtain ⟨s3, hcn, hcore2⟩ := SyncBranch_continued_ok hcont h2
  have hustore : u.store = s1.store := by rw [hstore, hcore1.2.1, hst2]
  have hB2 : (ReadBranch u opts2.Branch).1 = B := by
    have := (syncBranchRefresh_ok href hBne).2.2.2
    simp only [ReadBranch] at this ⊢
    rw [hbranch, hustore]
    exact this
  rw [hB2] at hcn
  have hrepo1 : t1.repo = { s1.repo with rebasing := some plan } := by
    rw [hcore1.1]; exact hplan
  -- the state the continue path reparents in: same store, and the new trunk where the
  -- single sync finds it
  obtain ⟨sV, hVtip, hV2, hcont2⟩ : ∃ sV,
      (C.NewTrunk ≠ "" → sU.repo.RevParse C.NewTrunk = sV.repo.RevParse C.NewTrunk) ∧
      sV.store = s1.store ∧
      ((C.NewTrunk ≠ "" ∧
          syncBranchUpdateNewTrunk env sV B C.NewTrunk = .ok (res2.Branch, s3)) ∨
        (C.NewTrunk = "" ∧ res2.Branch = B ∧ s3 = sV)) := by
    obtain ⟨sV, hV1, hV2, hcont2⟩ := syncBranchContinue_completed hcont hcn hs2
    refine ⟨sV, fun hne => ?_, hV2.trans hustore, hcont2⟩
    rw [hV1, htip hne, hrepo1, Repo.completed_suspended, hU1]
  have hphase : (∀ res3 t3, syncBranchRebase env.withoutConflicts s1 opts B = .ok (res3, t3) →
        res3.Status ≠ RebaseConflict ∧ res3.Branch = res2.Branch ∧ t3.store = t2.store) ∧
      ((B.IsStackRoot = false → (ReadBranch s1 B.Parent.Name).1.MergeCommit ≠ "" →
          (ReadBranch s1 B.Parent.Name).1.Parent.Name ≠ "") →
        ∃ res3 t3, syncBranchRebase env.withoutConflicts s1 opts B = .ok (res3, t3)) := by
    rcases hcase with ⟨hempty, hone⟩ | ⟨hroot, hP, htrunk, hone⟩
    · rcases hcont2 with ⟨hne, _⟩ | ⟨_, hb, hts⟩
      · exact absurd hempty hne
      · refine ⟨?_, fun _ => ⟨_, _, hone⟩⟩
        intro res3 t3 h3
        rw [hone] at h3
        simp only [Except.ok.injEq, Prod.mk.injEq] at h3
        obtain ⟨rfl, rfl⟩ := h3
        refine ⟨by simp, hb.symm, ?_⟩
        rw [hcore2.2.1, hts, hU2, hV2]
    · rcases hcont2 with ⟨hne, hup⟩ | ⟨hempty, hb, hts⟩
      · have htip := hVtip hne
        rw [htrunk] at hup htip
        obtain ⟨t', hup', hst'⟩ := syncBranchUpdateNewTrunk_congr
          (Env.withoutConflicts_writeError env) htip (hU2.trans hV2.symm) hup
        rw [hup'] at hone
        refine ⟨?_, fun _ => ⟨_, _, hone⟩⟩
        intro res3 t3 h3
        rw [hone] at h3
        simp only [Except.ok.injEq, Prod.mk.injEq] at h3
        obtain ⟨rfl, rfl⟩ := h3
        exact ⟨by simp, rfl, by rw [hst', hcore2.2.1]⟩
      · rw [htrunk] at hempty
        obtain ⟨e, herr⟩ := syncBranchUpdateNewTrunk_empty env.withoutConflicts sU B
        rw [hempty, herr] at hone
        refine ⟨?_, fun hwell => absurd hempty (hwell hroot hP)⟩
        intro res3 t3 h3
        rw [hone] at h3
        simp at h3
  have href' : syncBranchRefresh env.withoutConflicts s opts
      (ReadBranch s opts.Branch).1 = .ok ((B, pull), s1) := by
    rw [syncBranchRefresh_withoutConflicts]; exact href
  refine ⟨hphase.1, hphase.2, ?_, ?_⟩
  · intro res3 t3 h3
    obtain ⟨s2', hreb', hcore3⟩ := SyncBranch_fresh_ok hfresh href' hmerged h3
    obtain ⟨_, hb, hst⟩ := hphase.1 res3 s2' hreb'
    exact ⟨hb, by rw [hcore3.2.1, hst]⟩
  · intro hn hwell
    obtain ⟨res3, t3, h3⟩ := hphase.2 hwell
    refine ⟨res3, t3, ?_⟩
    rw [SyncBranch_fresh hfresh href', if_neg (by simp [hmerged]), h3]
    exact syncBranchFinish_quiet _ _ _ _ _ (Or.inr hn)

/-- The squash-merge scenario with a conflict: the sync of `stack-2` returns the
continuation.  The continued sync returns `Updated` when it runs on the state that sync
left, and `NotInProgress` when the rebase has been completed outside the tool in the
meantime; either way `stack-2` is reparented onto `main`, and the single sync without
conflict returns the same record and leaves the same store. -/
theorem SyncBranch_continue_round_trip_witness :
    ∃ res1 t1 res2 t2 res2' t2' res3 t3,
      SyncBranch Example.envConflict Example.squashed
        { Branch := "stack-2", NoFetch := true, NoPush := true } = .ok (res1, t1) ∧
      res1.Continuation = some Example.continuation ∧
      SyncBranch Example.envConflict t1
        { Branch := "stack-2", NoPush := true, Continuation := some Example.continuation }
        = .ok (res2, t2) ∧
      res2.Status = RebaseUpdated ∧ res2.Branch.Parent.Name = "main" ∧
      SyncBranch Example.envConflict { t1 with repo := t1.repo.completed }
        { Branch := "stack-2", NoPush := true, Continuation := some Example.continuation }
        = .ok (res2', t2') ∧
      res2'.Status = RebaseNotInProgress ∧ res2'.Branch.Parent.Name = "main" ∧
      SyncBranch Example.envConflict.withoutConflicts Example.squashed
        { Branch := "stack-2", NoFetch := true, NoPush := true } = .ok (res3, t3) ∧
      (res3.Branch = res2.Branch ∧ t3.store = t2.store) ∧
      (res3.Branch = res2'.Branch ∧ t3.store = t2'.store) :=
  ⟨_, _, _, _, _, _, _, _, rfl, rfl, rfl, rfl, rfl, rfl, rfl, rfl, rfl,
    (SyncBranch_continue_round_trip Example.envConflict Example.squashed Example.squashed _ _ _
      { Branch := "stack-2", NoFetch := true, NoPush := true }
      { Branch := "stack-2", NoPush := true, Continuation := some Example.continuation }
      (ReadBranch Example.squashed "stack-2").1 none _ _ Example.continuation
      rfl rfl rfl rfl rfl rfl rfl (fun _ => rfl) rfl (by decide)).2.2.1 _ _ rfl,
    (SyncBranch_continue_round_trip Example.envConflict Example.squashed Example.squashed
      Example.suspended { Example.suspended with repo := Example.suspended.repo.completed } _
      { Branch := "stack-2", NoFetch := true, NoPush := true }
      { Branch := "stack-2", NoPush := true, Continuation := some Example.continuation }
      (ReadBranch Example.squashed "stack-2").1 none _ _ Example.continuation
      rfl rfl rfl rfl rfl rfl rfl (fun _ => rfl) rfl (by decide)).2.2.1 _ _ rfl⟩

/-! ## C6: the base of a branch after a fresh or a continued sync -/

/-- C6 (amended): let `B` be a branch that is not merged (the record at hand after the
refresh of a fresh sync) and that is a stack root synced with `ToTrunk` or a branch whose
parent is not merged. When the fresh sync of `B` returns `Updated` or `AlreadyUpToDate`,
then afterwards the merge base of `B.Parent.Name` and `B` is the tip of `B.Parent.Name`; and
so it is when the fresh sync returns a continuation `C` and the following sync of `B` with
`C` returns `Updated` or `AlreadyUpToDate`. -/
theorem SyncBranch_base_is_parent_tip (env : Env) (s s1 : State) (opts : SyncBranchOpts)
    (B : Branch) (pull : Option GhPullRequest)
    (hfresh : opts.Continuation = none)
    (href : syncBranchRefresh env s opts (ReadBranch s opts.Branch).1 = .ok ((B, pull), s1))
    (hmerged : B.MergeCommit = "")
    (hscen : (B.IsStackRoot = true ∧ opts.ToTrunk = true) ∨
      (B.IsStackRoot = false ∧ (ReadBranch s1 B.Parent.Name).1.MergeCommit = "")) :
    (∀ res t, SyncBranch env s opts = .ok (res, t) →
      res.Status = RebaseUpdated ∨ res.Status = RebaseAlreadyUpToDate →
      ∃ tip, t.repo.RevParse B.Parent.Name = .ok tip ∧
        t.repo.MergeBase B.Parent.Name B.Name = .ok tip) ∧
    (∀ res1 t1 C opts2 res2 t2, SyncBranch env s opts = .ok (res1, t1) →
      res1.Continuation = some C →
      opts2.Branch = opts.Branch → opts2.Continuation = some C →
      SyncBranch env t1 opts2 = .ok (res2, t2) →
      res2.Status = RebaseUpdated ∨ res2.Status = RebaseAlreadyUpToDate →
      ∃ tip, t2.repo.RevParse B.Parent.Name = .ok tip ∧
        t2.repo.MergeBase B.Parent.Name B.Name = .ok tip) := by
  have hstatus : ∀ st : RebaseStatus, st = RebaseUpdated ∨ st = RebaseAlreadyUpToDate →
      st ≠ RebaseConflict := by
    intro st hs
    rcases hs with hs | hs <;> rw [hs] <;> decide
  constructor
  · intro res t h hs
    obtain ⟨s2, hreb, hcore⟩ := SyncBranch_fresh_ok hfresh href hmerged h
    obtain ⟨_, _, hhead, _, _⟩ := syncBranchRebase_ok hreb
    have hname := (syncBranchRefresh_ok href (Repo.RevParse_ne_empty hhead)).1
    rw [hcore.1]
    exact syncBranchRebase_base hreb hname hscen (hstatus _ hs)
  · intro res1 t1 C opts2 res2 t2 h1 hC hbranch hcont h2 hs2
    obtain ⟨s2, hreb, hcore1⟩ := SyncBranch_fresh_ok hfresh href hmerged h1
    obtain ⟨_, _, hhead, _, _⟩ := syncBranchRebase_ok hreb
    have hBne : B.Name ≠ "" := Repo.RevParse_ne_empty hhead
    have hname := (syncBranchRefresh_ok href hBne).1
    obtain ⟨hst2, plan, sU, hplan, hU1, _, hcase⟩ := syncBranchRebase_conflict hreb hC
    obtain ⟨s3, hcn, hcore2⟩ := SyncBranch_continued_ok hcont h2
    have hrepo1 : t1.repo = { s1.repo with rebasing := some plan } := by
      rw [hcore1.1]; exact hplan
    obtain ⟨sV, hV1, _, hcont2⟩ :=
      syncBranchContinue_after_conflict hrepo1 hcont hcn (hstatus _ hs2)
    rcases hcase with ⟨hempty, hone⟩ | ⟨hroot, hP, _⟩
    · rcases hcont2 with ⟨hne, _⟩ | ⟨_, _, hts⟩
      · exact absurd hempty hne
      · have hbase := syncBranchRebase_base hone hname hscen (by simp)
        rw [hcore2.1, hts, hV1, ← hU1]
        exact hbase
    · rcases hscen with ⟨hr, _⟩ | ⟨_, hP'⟩
      · rw [hroot] at hr; exact absurd hr (by decide)
      · exact absurd hP' hP

/-- A parent-moved sync of `stack-2` in `Example.moved`: run in one go it returns `Updated`;
run in an environment where the replay conflicts it returns a continuation, and the sync
continued with it returns `Updated`. Either way `stack-2` ends up based on the tip of
`stack-1`. -/
theorem SyncBranch_base_is_parent_tip_witness :
    (∃ res t, SyncBranch Example.env Example.moved
        { Branch := "stack-2", NoFetch := true, NoPush := true } = .ok (res, t) ∧
      res.Status = RebaseUpdated ∧
      ∃ tip, t.repo.RevParse "stack-1" = .ok tip ∧
        t.repo.MergeBase "stack-1" "stack-2" = .ok tip) ∧
    (∃ res1 t1 C res2 t2, SyncBranch Example.envConflict Example.moved
        { Branch := "stack-2", NoFetch := true, NoPush := true } = .ok (res1, t1) ∧
      res1.Continuation = some C ∧
      SyncBranch Example.envConflict t1
        { Branch := "stack-2", NoPush := true, Continuation := some C } = .ok (res2, t2) ∧
      res2.Status = RebaseUpdated ∧
      ∃ tip, t2.repo.RevParse "stack-1" = .ok tip ∧
        t2.repo.MergeBase "stack-1" "stack-2" = .ok tip) :=
  ⟨⟨_, _, rfl, rfl,
    (SyncBranch_base_is_parent_tip Example.env Example.moved Example.moved
      { Branch := "stack-2", NoFetch := true, NoPush := true }
      (ReadBranch Example.moved "stack-2").1 none rfl rfl rfl (Or.inr ⟨rfl, rfl⟩)).1
      _ _ rfl (Or.inl rfl)⟩,
   ⟨_, _, _, _, _, rfl, rfl, rfl, rfl,
    (SyncBranch_base_is_parent_tip Example.envConflict Example.moved Example.moved
      { Branch := "stack-2", NoFetch := true, NoPush := true }
      (ReadBranch Example.moved "stack-2").1 none rfl rfl rfl (Or.inr ⟨rfl, rfl⟩)).2
      _ _ _ { Branch := "stack-2", NoPush := true,
              Continuation := some { OldHead := "Y", ParentCommit := "B" } }
      _ _ rfl rfl rfl rfl rfl (Or.inl rfl)⟩⟩

/-- C6 as stated fails in the two scenarios it names: a stack root synced without `ToTrunk`
is returned `AlreadyUpToDate` although the trunk has moved (merge base `X`, trunk tip `M`);
and a branch reparented onto the merge commit `S` of its parent is `Updated` with
`Parent.Name = main` and merge base `S`, while the tip of `main` is `S2`. -/
theorem SyncBranch_base_is_parent_tip_counterexample :
    (∃ res t, SyncBranch Example.env Example.trunkAdvanced
        { Branch := "stack-1", NoFetch := true, NoPush := true } = .ok (res, t) ∧
      res.Status = RebaseAlreadyUpToDate ∧ res.Branch.MergeCommit = "" ∧
      (ReadBranch t "stack-1").1.Parent.Name = "main" ∧
      t.repo.MergeBase "main" "stack-1" = .ok "X" ∧ t.repo.RevParse "main" = .ok "M") ∧
    (∃ res t, SyncBranch Example.env Example.squashedEarlier
        { Branch := "stack-2", NoFetch := true, NoPush := true } = .ok (res, t) ∧
      res.Status = RebaseUpdated ∧ res.Branch.MergeCommit = "" ∧
      (ReadBranch t "stack-2").1.Parent.Name = "main" ∧
      t.repo.MergeBase "main" "stack-2" = .ok "S" ∧ t.repo.RevParse "main" = .ok "S2") :=
  ⟨⟨_, _, rfl, rfl, rfl, rfl, rfl, rfl⟩, ⟨_, _, rfl, rfl, rfl, rfl, rfl, rfl⟩⟩

/-! ## C11, C12: the reparent and the children sets -/

/-- A record with at least one child is the record of a tracked branch. -/
theorem Store.ReadBranch_tracked_of_children {m : Store} {name : String}
    (h : (m.ReadBranch name).1.Children.length > 0) :
    (m.ReadBranch name).2 = true ∧ (m.ReadBranch name).1.Name = name := by
  unfold Store.ReadBranch at h ⊢
  cases hm : m name with
  | none => rw [hm] at h; simp at h
  | some b => simp

/-- A record just written reads back as it was written. -/
theorem Store.ReadBranch_write_eq (m : Store) (b : Branch) :
    (m.WriteBranch b).ReadBranch b.Name = (b, true) := by
  simp [Store.ReadBranch, Store.WriteBranch]

/-- Writing back the record a branch already reads as changes no read. -/
theorem Store.ReadBranch_write_self {m : Store} {b : Branch}
    (h : m.ReadBranch b.Name = (b, true)) (k : String) :
    (m.WriteBranch b).ReadBranch k = m.ReadBranch k := by
  by_cases hk : k = b.Name
  · subst hk
    rw [h]
    exact Store.ReadBranch_write_eq m b
  · exact Store.ReadBranch_write_ne m b k hk

/-- What the store reads after the reparent of a branch that is not its own parent: the
branch reads as the returned record, its old parent as before without the branch among its
children, every other name as before. -/
theorem syncBranchUpdateNewTrunk_read {env : Env} {s t : State} {B b' : Branch}
    {newTrunk : String} (h : syncBranchUpdateNewTrunk env s B newTrunk = .ok (b', t))
    (hself : B.Parent.Name ≠ B.Name) (k : String) :
    ReadBranch t k =
      if k = B.Name then (b', true)
      else if k = B.Parent.Name then
        ({ (ReadBranch s B.Parent.Name).1 with
            Children := DeleteElement (ReadBranch s B.Parent.Name).1.Children B.Name },
          (ReadBranch s B.Parent.Name).2)
      else ReadBranch s k := by
  obtain ⟨head, _, hb', _, hst⟩ := syncBranchUpdateNewTrunk_ok h
  have hname : b'.Name = B.Name := by rw [hb']
  have hread : (s.store.WriteBranch b').ReadBranch B.Name = (b', true) := by
    rw [← hname]
    exact Store.ReadBranch_write_eq _ _
  simp only [ReadBranch] at hst ⊢
  rw [hst]
  by_cases hlen : (s.store.ReadBranch B.Parent.Name).1.Children.length > 0
  · obtain ⟨htr, hpn⟩ := Store.ReadBranch_tracked_of_children hlen
    rw [if_pos hlen]
    by_cases hk : k = B.Name
    · subst hk
      rw [if_pos rfl, Store.ReadBranch_write_ne _ _ _ (by rw [hpn]; exact hself.symm)]
      exact hread
    · rw [if_neg hk]
      by_cases hp : k = B.Parent.Name
      · subst hp
        rw [if_pos rfl, htr]
        have := Store.ReadBranch_write_eq (s.store.WriteBranch b')
          { (s.store.ReadBranch B.Parent.Name).1 with
            Children := DeleteElement (s.store.ReadBranch B.Parent.Name).1.Children B.Name }
        rw [hpn] at this
        exact this
      · rw [if_neg hp, Store.ReadBranch_write_ne _ _ _ (by rw [hpn]; exact hp),
          Store.ReadBranch_write_ne _ _ _ (by rw [hname]; exact hk)]
  · rw [if_neg hlen]
    by_cases hk : k = B.Name
    · subst hk
      rw [if_pos rfl]
      exact hread
    · rw [if_neg hk, Store.ReadBranch_write_ne _ _ _ (by rw [hname]; exact hk)]
      by_cases hp : k = B.Parent.Name
      · subst hp
        rw [if_pos rfl]
        have hnil : (s.store.ReadBranch B.Parent.Name).1.Children = [] := by
          cases hc : (s.store.ReadBranch B.Parent.Name).1.Children with
          | nil => rfl
          | cons a l => rw [hc] at hlen; simp at hlen
        have hdel : DeleteElement (s.store.ReadBranch B.Parent.Name).1.Children B.Name
            = (s.store.ReadBranch B.Parent.Name).1.Children := by
          rw [hnil]; rfl
        rw [hdel]
      · rw [if_neg hp]

theorem mem_DeleteElement {xs : List String} {x c : String} :
    c ∈ DeleteElement xs x ↔ c ∈ xs ∧ c ≠ x := by
  simp [DeleteElement]

/-- C11 (amended): in a store with children-set agreement, the reparent of a tracked branch
`B` (its stored record) that is not its own parent onto a name `newTrunk` that is not
tracked, when it returns successfully, leaves a store with children-set agreement. -/
theorem syncBranchUpdateNewTrunk_children_agree (env : Env) (s t : State) (B b' : Branch)
    (newTrunk : String) (hagree : s.store.ChildrenAgree)
    (hB : ReadBranch s B.Name = (B, true)) (hself : B.Parent.Name ≠ B.Name)
    (hnew : (ReadBranch s newTrunk).2 = false)
    (h : syncBranchUpdateNewTrunk env s B newTrunk = .ok (b', t)) :
    t.store.ChildrenAgree := by
  have key : ∀ k, t.store.ReadBranch k =
      if k = B.Name then (b', true)
      else if k = B.Parent.Name then
        ({ (s.store.ReadBranch B.Parent.Name).1 with
            Children := DeleteElement (s.store.ReadBranch B.Parent.Name).1.Children B.Name },
          (s.store.ReadBranch B.Parent.Name).2)
      else s.store.ReadBranch k := fun k => syncBranchUpdateNewTrunk_read h hself k
  obtain ⟨head, _, hb', _, _⟩ := syncBranchUpdateNewTrunk_ok h
  have hB1 : (s.store.ReadBranch B.Name).1 = B := congrArg Prod.fst hB
  have hB2 : (s.store.ReadBranch B.Name).2 = true := congrArg Prod.snd hB
  have hchildren : b'.Children = B.Children := by rw [hb']
  have hparent : b'.Parent.Name = newTrunk := by rw [hb']
  -- a tracked name is not the new trunk
  have hnt : ∀ x, (s.store.ReadBranch x).2 = true → newTrunk ≠ x := by
    intro x hx heq
    rw [← heq] at hx
    rw [show (s.store.ReadBranch newTrunk).2 = false from hnew] at hx
    exact absurd hx (by decide)
  -- the parent of a name after the reparent, for the names other than `B`
  have hother : ∀ c, c ≠ B.Name →
      ((t.store.ReadBranch c).2 = (s.store.ReadBranch c).2 ∧
        (t.store.ReadBranch c).1.Parent.Name = (s.store.ReadBranch c).1.Parent.Name) := by
    intro c hc
    rw [key c, if_neg hc]
    by_cases hp : c = B.Parent.Name
    · subst hp; rw [if_pos rfl]; exact ⟨rfl, rfl⟩
    · rw [if_neg hp]; exact ⟨rfl, rfl⟩
  have hBt : (t.store.ReadBranch B.Name).2 = true ∧
      (t.store.ReadBranch B.Name).1.Parent.Name = newTrunk := by
    rw [key B.Name, if_pos rfl]
    exact ⟨rfl, hparent⟩
  -- the children of a name after the reparent
  intro x c hx
  have hxs : (s.store.ReadBranch x).2 = true := by
    by_cases hxb : x = B.Name
    · rw [hxb]; exact hB2
    · rw [← (hother x hxb).1]; exact hx
  have hold := hagree x c hxs
  have hright : ((t.store.ReadBranch c).2 = true ∧ (t.store.ReadBranch c).1.Parent.Name = x) ↔
      (((s.store.ReadBranch c).2 = true ∧ (s.store.ReadBranch c).1.Parent.Name = x) ∧
        c ≠ B.Name) := by
    by_cases hc : c = B.Name
    · subst hc
      rw [hBt.2]
      constructor
      · intro hh; exact absurd hh.2 (hnt x hxs)
      · intro hh; exact absurd rfl hh.2
    · rw [(hother c hc).1, (hother c hc).2]
      exact ⟨fun hh => ⟨hh, hc⟩, fun hh => hh.1⟩
  rw [hright, ← hold]
  by_cases hxb : x = B.Name
  · subst hxb
    rw [key B.Name, if_pos rfl]
    show c ∈ b'.Children ↔ _
    rw [hchildren, hB1]
    constructor
    · intro hmem
      refine ⟨hmem, ?_⟩
      intro hc
      subst hc
      have := (hagree B.Name B.Name hB2).1 (by rw [hB1]; exact hmem)
      rw [hB1] at this
      exact hself this.2
    · intro hh; exact hh.1
  · rw [key x, if_neg hxb]
    by_cases hxp : x = B.Parent.Name
    · subst hxp
      rw [if_pos rfl]
      exact mem_DeleteElement
    · rw [if_neg hxp]
      constructor
      · intro hmem
        refine ⟨hmem, ?_⟩
        intro hc
        subst hc
        have := (hagree x B.Name hxs).1 hmem
        rw [hB1] at this
        exact hxp this.2.symm
      · intro hh; exact hh.1

theorem Example.squashed_agree : Example.squashed.store.ChildrenAgree := by
  intro x c hx
  simp only [Store.ReadBranch, Example.squashed] at hx ⊢
  by_cases h1 : x = "stack-1"
  · subst h1
    by_cases c1 : c = "stack-1"
    · subst c1; simp
    · by_cases c2 : c = "stack-2"
      · subst c2; simp
      · simp [c1, c2]
  · by_cases h2 : x = "stack-2"
    · subst h2
      by_cases c1 : c = "stack-1"
      · subst c1; simp
      · by_cases c2 : c = "stack-2"
        · subst c2; simp
        · simp [c1, c2]
    · simp [h1, h2] at hx

theorem Example.deep_agree : Example.deep.store.ChildrenAgree := by
  intro x c hx
  simp only [Store.ReadBranch, Example.deep] at hx ⊢
  by_cases c0 : c = "stack-0"
  · subst c0
    by_cases h0 : x = "stack-0"
    · subst h0; simp
    · by_cases h1 : x = "stack-1"
      · subst h1; simp
      · by_cases h2 : x = "stack-2"
        · subst h2; simp
        · simp [h0, h1, h2] at hx
  · by_cases c1 : c = "stack-1"
    · subst c1
      by_cases h0 : x = "stack-0"
      · subst h0; simp
      · by_cases h1 : x = "stack-1"
        · subst h1; simp
        · by_cases h2 : x = "stack-2"
          · subst h2; simp
          · simp [h0, h1, h2] at hx
    · by_cases c2 : c = "stack-2"
      · subst c2
        by_cases h0 : x = "stack-0"
        · subst h0; simp
        · by_cases h1 : x = "stack-1"
          · subst h1; simp
          · by_cases h2 : x = "stack-2"
            · subst h2; simp
            · simp [h0, h1, h2] at hx
      · by_cases h0 : x = "stack-0"
        · subst h0; simp [c0, c1, c2]
        · by_cases h1 : x = "stack-1"
          · subst h1; simp [c0, c1, c2]
          · by_cases h2 : x = "stack-2"
            · subst h2; simp [c0, c1, c2]
            · simp [h0, h1, h2] at hx

theorem Example.selfParent_agree : Example.selfParent.store.ChildrenAgree := by
  intro x c hx
  simp only [Store.ReadBranch, Example.selfParent] at hx ⊢
  by_cases h2 : x = "stack-2"
  · subst h2
    by_cases c2 : c = "stack-2"
    · subst c2; simp
    · simp [c2]
  · simp [h2] at hx

/-- The reparent of `stack-2` onto the untracked trunk `main` in the squash-merge scenario:
the store agrees on the children sets before, the reparent returns, and the store agrees on
them afterwards. -/
theorem syncBranchUpdateNewTrunk_children_agree_witness :
    Example.squashed.store.ChildrenAgree ∧
    ∃ b' t, syncBranchUpdateNewTrunk Example.env Example.squashed
        (ReadBranch Example.squashed "stack-2").1 "main" = .ok (b', t) ∧
      b'.Parent.Name = "main" ∧ t.store.ChildrenAgree :=
  ⟨Example.squashed_agree, _, _, rfl, rfl,
    syncBranchUpdateNewTrunk_children_agree Example.env Example.squashed _
      (ReadBranch Example.squashed "stack-2").1 _ "main" Example.squashed_agree rfl
      (by decide) rfl rfl⟩

/-- C11 as stated fails when the new parent is a tracked branch: in `Example.deep` the
store agrees on the children sets, the reparent of `stack-2` onto the tracked branch
`stack-0` (the parent of its merged parent) returns, and afterwards `stack-2` names
`stack-0` as its parent while the record of `stack-0` does not list `stack-2`. It also
fails for a branch that is its own parent: the second write puts the old record back. -/
theorem syncBranchUpdateNewTrunk_children_agree_counterexample :
    (Example.deep.store.ChildrenAgree ∧ (ReadBranch Example.deep "stack-0").2 = true ∧
      ∃ b' t, syncBranchUpdateNewTrunk Example.env Example.deep
          (ReadBranch Example.deep "stack-2").1 "stack-0" = .ok (b', t) ∧
        (ReadBranch t "stack-2").1.Parent.Name = "stack-0" ∧
        (ReadBranch t "stack-0").1.Children = ["stack-1"] ∧
        ¬ t.store.ChildrenAgree) ∧
    (Example.selfParent.store.ChildrenAgree ∧ (ReadBranch Example.selfParent "main").2 = false ∧
      ∃ b' t, syncBranchUpdateNewTrunk Example.env Example.selfParent
          (ReadBranch Example.selfParent "stack-2").1 "main" = .ok (b', t) ∧
        (ReadBranch t "stack-2").1.Parent.Name = "stack-2" ∧
        (ReadBranch t "stack-2").1.Children = [] ∧
        ¬ t.store.ChildrenAgree) :=
  ⟨⟨Example.deep_agree, rfl, _, _, rfl, rfl, rfl,
      fun hagree => absurd ((hagree "stack-0" "stack-2" rfl).2 ⟨rfl, rfl⟩) (by decide)⟩,
   ⟨Example.selfParent_agree, rfl, _, _, rfl, rfl, rfl,
      fun hagree => absurd ((hagree "stack-2" "stack-2" rfl).2 ⟨rfl, rfl⟩) (by decide)⟩⟩

/-- A reparent that returned has written the returned record. -/
theorem syncBranchUpdateNewTrunk_written {env : Env} {s t : State} {b b' : Branch}
    {newTrunk : String} (h : syncBranchUpdateNewTrunk env s b newTrunk = .ok (b', t)) :
    env.writeError b' = none := by
  obtain ⟨head, hhead, hb', _, _⟩ := syncBranchUpdateNewTrunk_ok h
  unfold syncBranchUpdateNewTrunk ReadBranchState at h
  simp only [hhead] at h
  rw [← hb'] at h
  unfold WriteBranch at h
  cases hw : env.writeError b' with
  | none => rfl
  | some e => simp [hw] at h

/-- The reparent returns when the new trunk resolves and neither write fails. -/
theorem syncBranchUpdateNewTrunk_returns {env : Env} {s : State} {b : Branch}
    {newTrunk head : String} (hhead : s.repo.RevParse newTrunk = .ok head)
    (hw1 : env.writeError { b with Parent := { Name := newTrunk, Head := head, Trunk := true } }
      = none)
    (hw2 : env.writeError { (ReadBranch s b.Parent.Name).1 with
        Children := DeleteElement (ReadBranch s b.Parent.Name).1.Children b.Name } = none) :
    ∃ t, syncBranchUpdateNewTrunk env s b newTrunk
      = .ok ({ b with Parent := { Name := newTrunk, Head := head, Trunk := true } }, t) := by
  unfold syncBranchUpdateNewTrunk ReadBranchState WriteBranch
  simp only [hhead, hw1, hw2]
  split
  · exact ⟨_, rfl⟩
  · exact ⟨_, rfl⟩

theorem DeleteElement_of_not_mem {xs : List String} {x : String} (h : x ∉ xs) :
    DeleteElement xs x = xs := by
  unfold DeleteElement
  rw [List.filter_eq_self]
  intro a ha
  simp only [ne_eq, decide_not, Bool.not_eq_true', decide_eq_false_iff_not]
  intro heq
  subst heq
  exact h ha

/-- Replay of the reparent: for a branch `B` that is not its own parent, if the reparent of
`B` onto `newTrunk` returns the record `b'` and the store `t`, and the record of `newTrunk`
in `t` does not list `B` among its children, then every result of a second reparent from
`b'` and `t` is the record `b'` again with a store that reads the same under every name and
the same repository; and the second reparent does return when writing the record of
`newTrunk` does not fail. -/
theorem syncBranchUpdateNewTrunk_replay (env : Env) (s t : State) (B b' : Branch)
    (newTrunk : String) (h1 : syncBranchUpdateNewTrunk env s B newTrunk = .ok (b', t))
    (hself : B.Parent.Name ≠ B.Name)
    (hchild : B.Name ∉ (ReadBranch t newTrunk).1.Children) :
    (∀ b'' t2, syncBranchUpdateNewTrunk env t b' newTrunk = .ok (b'', t2) →
      b'' = b' ∧ t2.repo = t.repo ∧ ∀ k, ReadBranch t2 k = ReadBranch t k) ∧
    (env.writeError (ReadBranch t newTrunk).1 = none →
      ∃ t2, syncBranchUpdateNewTrunk env t b' newTrunk = .ok (b', t2)) := by
  obtain ⟨head, hhead, hb', hrepo, _⟩ := syncBranchUpdateNewTrunk_ok h1
  have hname : b'.Name = B.Name := by rw [hb']
  have hparent : b'.Parent.Name = newTrunk := by rw [hb']
  have hhead' : t.repo.RevParse newTrunk = .ok head := by rw [hrepo]; exact hhead
  have hsame : { b' with Parent := { Name := newTrunk, Head := head, Trunk := true } } = b' := by
    rw [hb']
  have hreadB : t.store.ReadBranch b'.Name = (b', true) := by
    have := syncBranchUpdateNewTrunk_read h1 hself B.Name
    rw [if_pos rfl] at this
    rw [hname]
    exact this
  have hdel : DeleteElement (ReadBranch t b'.Parent.Name).1.Children b'.Name
      = (ReadBranch t b'.Parent.Name).1.Children := by
    rw [hparent, hname]
    exact DeleteElement_of_not_mem hchild
  have hold : ({ (ReadBranch t b'.Parent.Name).1 with
      Children := DeleteElement (ReadBranch t b'.Parent.Name).1.Children b'.Name } : Branch)
      = (ReadBranch t newTrunk).1 := by
    rw [hdel, hparent]
  constructor
  · intro b'' t2 h2
    obtain ⟨head2, hhead2, hb'', hrepo2, hst2⟩ := syncBranchUpdateNewTrunk_ok h2
    rw [hhead'] at hhead2
    simp only [Except.ok.injEq] at hhead2
    subst hhead2
    rw [hsame] at hb''
    subst hb''
    refine ⟨rfl, hrepo2, ?_⟩
    intro k
    simp only [ReadBranch] at hst2 hold ⊢
    rw [hst2, hold]
    have hfirst : ∀ k, (t.store.WriteBranch b'').ReadBranch k = t.store.ReadBranch k :=
      Store.ReadBranch_write_self hreadB
    split
    · rename_i hlen
      rw [hparent] at hlen
      obtain ⟨htr, hpn⟩ := Store.ReadBranch_tracked_of_children hlen
      have hreadQ : (t.store.WriteBranch b'').ReadBranch (t.store.ReadBranch newTrunk).1.Name
          = ((t.store.ReadBranch newTrunk).1, true) := by
        rw [hpn, hfirst, ← htr]
      rw [Store.ReadBranch_write_self hreadQ, hfirst]
    · exact hfirst k
  · intro hw
    have := @syncBranchUpdateNewTrunk_returns env t b' newTrunk head hhead'
      (by rw [hsame]; exact syncBranchUpdateNewTrunk_written h1) (by rw [hold]; exact hw)
    rw [hsame] at this
    exact this

/-- In a consistent store the record of the new trunk does not list the branch once the
branch has been reparented. -/
theorem syncBranchUpdateNewTrunk_not_listed {env : Env} {s t : State} {B b' : Branch}
    {newTrunk : String} (hsound : s.store.TopologyConsistent)
    (hB : ReadBranch s B.Name = (B, true))
    (h1 : syncBranchUpdateNewTrunk env s B newTrunk = .ok (b', t)) :
    B.Parent.Name ≠ B.Name ∧ B.Name ∉ (ReadBranch t newTrunk).1.Children := by
  have hB1 : (s.store.ReadBranch B.Name).1 = B := congrArg Prod.fst hB
  have hB2 : (s.store.ReadBranch B.Name).2 = true := congrArg Prod.snd hB
  have hself : B.Parent.Name ≠ B.Name := by
    have := (hsound B.Name hB2).1
    rw [hB1] at this
    exact this
  refine ⟨hself, ?_⟩
  obtain ⟨_, _, hb', _, _⟩ := syncBranchUpdateNewTrunk_ok h1
  have hparent : ∀ x, (s.store.ReadBranch x).2 = true →
      B.Name ∈ (s.store.ReadBranch x).1.Children → B.Parent.Name = x := by
    intro x hx hmem
    have := (hsound x hx).2 B.Name hmem
    rw [hB1] at this
    exact this
  rw [syncBranchUpdateNewTrunk_read h1 hself newTrunk]
  by_cases hk : newTrunk = B.Name
  · rw [if_pos hk]
    intro hmem
    have hmem' : B.Name ∈ (s.store.ReadBranch B.Name).1.Children := by
      rw [hB1]
      rw [hb'] at hmem
      exact hmem
    exact hself (hparent B.Name hB2 hmem')
  · rw [if_neg hk]
    by_cases hp : newTrunk = B.Parent.Name
    · rw [if_pos hp]
      intro hmem
      exact (mem_DeleteElement.1 hmem).2 rfl
    · rw [if_neg hp]
      intro hmem
      cases htr : (s.store.ReadBranch newTrunk).2 with
      | true => exact hp (hparent newTrunk htr hmem).symm
      | false =>
        have hempty : s.store.ReadBranch newTrunk = ({}, false) := by
          unfold Store.ReadBranch at htr ⊢
          cases hm : s.store newTrunk with
          | none => rfl
          | some b => rw [hm] at htr; simp at htr
        simp only [ReadBranch] at hmem
        rw [hempty] at hmem
        simp at hmem

theorem Store.Keyed_write {m : Store} (h : m.Keyed) (b : Branch) : (m.WriteBranch b).Keyed := by
  intro k q hq
  unfold Store.WriteBranch at hq
  by_cases hk : k = b.Name
  · rw [if_pos hk] at hq
    simp only [Option.some.injEq] at hq
    rw [← hq, hk]
  · rw [if_neg hk] at hq
    exact h k q hq

/-- Stores whose records carry their keys are equal when they read the same. -/
theorem Store.eq_of_read {m m' : Store} (h : m.Keyed) (h' : m'.Keyed)
    (hread : ∀ k, m.ReadBranch k = m'.ReadBranch k) : m = m' := by
  funext k
  have hk := hread k
  unfold Store.ReadBranch at hk
  cases hm : m k with
  | none =>
    cases hm' : m' k with
    | none => rfl
    | some q' => rw [hm, hm'] at hk; simp at hk
  | some q =>
    cases hm' : m' k with
    | none => rw [hm, hm'] at hk; simp at hk
    | some q' =>
      rw [hm, hm'] at hk
      simp only [Prod.mk.injEq, and_true] at hk
      have hq := h k q hm
      have hq' := h' k q' hm'
      have e1 : q = { q with Name := k } := by rw [← hq]
      have e2 : q' = { q' with Name := k } := by rw [← hq']
      rw [e1, e2, hk]

/-- The reparent keeps the records keyed. -/
theorem syncBranchUpdateNewTrunk_keyed {env : Env} {s t : State} {b b' : Branch}
    {newTrunk : String} (h : syncBranchUpdateNewTrunk env s b newTrunk = .ok (b', t))
    (hk : s.store.Keyed) : t.store.Keyed := by
  obtain ⟨_, _, _, _, hst⟩ := syncBranchUpdateNewTrunk_ok h
  rw [hst]
  split
  · exact Store.Keyed_write (Store.Keyed_write hk _) _
  · exact Store.Keyed_write hk _

/-- C12: in a store that is topology-consistent (I1), the reparent of a tracked branch `B`
(its stored record) onto `newTrunk` is idempotent under replay: if it returns the record
`b'` and the state `t`, then every result of a second reparent from `b'` and `t` is the
record `b'` again, with the same repository and a store that reads the same under every
name, and that is the same store when the stored records carry their keys; and the second
reparent does return when writing the record of `newTrunk` does not fail. -/
theorem syncBranchUpdateNewTrunk_idempotent (env : Env) (s t : State) (B b' : Branch)
    (newTrunk : String) (hsound : s.store.TopologyConsistent)
    (hB : ReadBranch s B.Name = (B, true))
    (h1 : syncBranchUpdateNewTrunk env s B newTrunk = .ok (b', t)) :
    (∀ b'' t2, syncBranchUpdateNewTrunk env t b' newTrunk = .ok (b'', t2) →
      b'' = b' ∧ t2.repo = t.repo ∧ (∀ k, ReadBranch t2 k = ReadBranch t k) ∧
      (s.store.Keyed → t2.store = t.store)) ∧
    (env.writeError (ReadBranch t newTrunk).1 = none →
      ∃ t2, syncBranchUpdateNewTrunk env t b' newTrunk = .ok (b', t2)) := by
  obtain ⟨hself, hchild⟩ := syncBranchUpdateNewTrunk_not_listed hsound hB h1
  have h := syncBranchUpdateNewTrunk_replay env s t B b' newTrunk h1 hself hchild
  refine ⟨?_, h.2⟩
  intro b'' t2 h2
  obtain ⟨hb, hrepo, hread⟩ := h.1 b'' t2 h2
  refine ⟨hb, hrepo, hread, ?_⟩
  intro hkeyed
  have hkt := syncBranchUpdateNewTrunk_keyed h1 hkeyed
  exact Store.eq_of_read (syncBranchUpdateNewTrunk_keyed h2 hkt) hkt hread

theorem Example.squashed_consistent : Example.squashed.store.TopologyConsistent := by
  intro x hx
  simp only [Store.ReadBranch, Example.squashed] at hx ⊢
  by_cases h1 : x = "stack-1"
  · subst h1
    refine ⟨by decide, ?_⟩
    intro c hc
    simp at hc
    subst hc
    rfl
  · by_cases h2 : x = "stack-2"
    · subst h2
      refine ⟨by decide, ?_⟩
      intro c hc
      simp at hc
    · simp [h1, h2] at hx

theorem Example.squashed_keyed : Example.squashed.store.Keyed := by
  intro k b h
  simp only [Example.squashed] at h
  by_cases h1 : k = "stack-1"
  · subst h1
    simp only [if_true, Option.some.injEq] at h
    rw [← h]
  · by_cases h2 : k = "stack-2"
    · subst h2
      simp only [if_neg h1, if_true, Option.some.injEq] at h
      rw [← h]
    · simp [h1, h2] at h

theorem Example.deep_consistent : Example.deep.store.TopologyConsistent := by
  intro x hx
  simp only [Store.ReadBranch, Example.deep] at hx ⊢
  by_cases h0 : x = "stack-0"
  · subst h0
    refine ⟨by decide, ?_⟩
    intro c hc
    simp at hc
    subst hc
    rfl
  · by_cases h1 : x = "stack-1"
    · subst h1
      refine ⟨by decide, ?_⟩
      intro c hc
      simp at hc
      subst hc
      rfl
    · by_cases h2 : x = "stack-2"
      · subst h2
        refine ⟨by decide, ?_⟩
        intro c hc
        simp at hc
      · simp [h0, h1, h2] at hx

/-- The reparent run twice.  In the squash-merge scenario `stack-2` is reparented onto the
untracked trunk `main`; in `Example.deep` it is reparented onto the tracked branch
`stack-0`, whose record is written back by the second run.  Both stores are consistent, and
each second run returns the record of the first and a store that reads the same. -/
theorem syncBranchUpdateNewTrunk_idempotent_witness :
    (Example.squashed.store.TopologyConsistent ∧
      ∃ b' t, syncBranchUpdateNewTrunk Example.env Example.squashed
          (ReadBranch Example.squashed "stack-2").1 "main" = .ok (b', t) ∧
        b'.Parent.Name = "main" ∧
        ∃ t2, syncBranchUpdateNewTrunk Example.env t b' "main" = .ok (b', t2) ∧
          t2.repo = t.repo ∧ (∀ k, ReadBranch t2 k = ReadBranch t k) ∧
          t2.store = t.store) ∧
    (Example.deep.store.TopologyConsistent ∧
      ∃ b' t, syncBranchUpdateNewTrunk Example.env Example.deep
          (ReadBranch Example.deep "stack-2").1 "stack-0" = .ok (b', t) ∧
        b'.Parent.Name = "stack-0" ∧
        ∃ t2, syncBranchUpdateNewTrunk Example.env t b' "stack-0" = .ok (b', t2) ∧
          writeCalls t2.log = writeCalls t.log ++ [b', (ReadBranch t "stack-0").1] ∧
          t2.repo = t.repo ∧ ∀ k, ReadBranch t2 k = ReadBranch t k) := by
  constructor
  · refine ⟨Example.squashed_consistent, _, _, rfl, rfl, ?_⟩
    have h := syncBranchUpdateNewTrunk_idempotent Example.env Example.squashed _
      (ReadBranch Example.squashed "stack-2").1 _ "main" Example.squashed_consistent rfl rfl
    obtain ⟨t2, h2⟩ := h.2 rfl
    obtain ⟨_, hrepo, hread, hstore⟩ := h.1 _ _ h2
    exact ⟨t2, h2, hrepo, hread, hstore Example.squashed_keyed⟩
  · refine ⟨Example.deep_consistent, _, _, rfl, rfl, ?_⟩
    have h := syncBranchUpdateNewTrunk_idempotent Example.env Example.deep _
      (ReadBranch Example.deep "stack-2").1 _ "stack-0" Example.deep_consistent rfl rfl
    obtain ⟨_, hrepo, hread, _⟩ := h.1 _ _ rfl
    exact ⟨_, rfl, rfl, hrepo, hread⟩

/-! ## C13: the fetch of the merge commit -/

/-- The fetches of scenario 1 (lines 207-273), whatever its outcome: none with `NoFetch`,
otherwise the one fetch of line 221, whose ref is the merge commit of the branch itself. -/
theorem syncBranchRebaseParentMerged_fetchCalls (env : Env) (s : State) (opts : SyncBranchOpts)
    (B P : Branch) (branchHead remote : String) :
    fetchCalls (syncBranchRebaseParentMerged env s opts B P branchHead remote).state.log
      = fetchCalls s.log ++ (if opts.NoFetch then [] else [(remote, B.MergeCommit)]) := by
  unfold syncBranchRebaseParentMerged
  have hf : fetchCalls (Outcome.state (if !opts.NoFetch then Fetch env s remote B.MergeCommit
      else .ok ((), s))).log
      = fetchCalls s.log ++ (if opts.NoFetch then [] else [(remote, B.MergeCommit)]) := by
    cases opts.NoFetch <;> simp [Fetch_state]
  generalize (if !opts.NoFetch then Fetch env s remote B.MergeCommit
      else (.ok ((), s) : Outcome Unit)) = x at hf ⊢
  rcases x with e | ⟨_, s1⟩
  · simpa using hf
  · simp only [Outcome.state_ok] at hf
    simp only
    have hr := RebaseParse_state env s1
      { Branch := B.Name, Upstream := B.Parent.Name, Onto := P.MergeCommit }
    generalize RebaseParse env s1
      { Branch := B.Name, Upstream := B.Parent.Name, Onto := P.MergeCommit } = y at hr ⊢
    rcases y with e | ⟨rebase, s2⟩
    · simp at hr; simp [hr.1, hf]
    · simp only [Outcome.state_ok] at hr
      simp only
      split
      · simp [hr.1, hf]
      · have hu := syncBranchUpdateNewTrunk_state env s2 B P.Parent.Name
        generalize syncBranchUpdateNewTrunk env s2 B P.Parent.Name = z at hu ⊢
        rcases z with e | ⟨b, s3⟩
        · simp at hu; simp [hu.2.1, hr.1, hf]
        · simp at hu; simp [hu.2.1, hr.1, hf]

/-- The fetches of a fresh sync in the parent-merged scenario: the branch at hand is not
merged (a merged one is skipped before), so the ref of the one fetch is empty. -/
theorem SyncBranch_parent_merged_fetchCalls {env : Env} {s s1 : State} {opts : SyncBranchOpts}
    {B : Branch} {pull : Option GhPullRequest} {branchHead remote : String}
    (hfresh : opts.Continuation = none)
    (href : syncBranchRefresh env s opts (ReadBranch s opts.Branch).1 = .ok ((B, pull), s1))
    (hmerged : B.MergeCommit = "") (hroot : B.IsStackRoot = false)
    (hP : (ReadBranch s1 B.Parent.Name).1.MergeCommit ≠ "")
    (hhead : s1.repo.RevParse B.Name = .ok branchHead)
    (hremote : s1.repo.DefaultRemote = .ok remote) :
    fetchCalls (SyncBranch env s opts).state.log
      = fetchCalls s.log ++ (if opts.NoFetch then [] else [(remote, "")]) := by
  have h1 : fetchCalls s1.log = fetchCalls s.log := by
    have := (syncBranchRefresh_state env s opts (ReadBranch s opts.Branch).1).2.2.1
    rw [href] at this
    exact this
  have h2 := (SyncBranch_fresh_state hfresh href hmerged).2.2.2.1
  have hreb : syncBranchRebase env s1 opts B
      = syncBranchRebaseParentMerged env s1 opts B (ReadBranch s1 B.Parent.Name).1
          branchHead remote := by
    unfold syncBranchRebase
    simp only [hhead, hremote, hroot, Bool.false_eq_true, if_false, if_pos hP]
  rw [h2, hreb, syncBranchRebaseParentMerged_fetchCalls, h1, hmerged]

/-- C13 fails on the code: in the squash-merge scenario the parent `stack-1` of `stack-2` has
the merge commit `S` and `stack-2` itself has none; the fresh sync of `stack-2` without
`NoFetch` returns `Updated` after the one fetch `git fetch origin ""`, whose ref is the
(empty) merge commit of `stack-2`, not `S`. With `NoFetch` no fetch is issued. -/
theorem SyncBranch_fetches_own_merge_commit :
    (ReadBranch Example.squashed "stack-1").1.MergeCommit = "S" ∧
    (ReadBranch Example.squashed "stack-2").1.MergeCommit = "" ∧
    (∃ res t, SyncBranch Example.env Example.squashed { Branch := "stack-2", NoPush := true }
        = .ok (res, t) ∧
      res.Status = RebaseUpdated ∧ fetchCalls t.log = [("origin", "")] ∧
      rebaseCalls t.log = [{ Branch := "stack-2", Upstream := "stack-1", Onto := "S" }]) ∧
    fetchCalls (SyncBranch Example.env Example.squashed
      { Branch := "stack-2", NoFetch := true, NoPush := true }).state.log = [] :=
  ⟨rfl, rfl, ⟨_, _, rfl, rfl, rfl, rfl⟩, rfl⟩

/-! ## C14: a failing refresh -/

/-- A refresh that fails leaves the store as it was. -/
theorem UpdatePullRequestState_error_store {env : Env} {s sE : State} {name e : String}
    (h : UpdatePullRequestState env s name = .error (e, sE)) : sE.store = s.store := by
  unfold UpdatePullRequestState WriteBranch at h
  simp only at h
  cases hq : env.PullRequestState (ReadBranch s name).1 with
  | error e0 =>
    rw [hq] at h
    simp only [Except.error.injEq, Prod.mk.injEq] at h
    rw [← h.2]
  | ok remote =>
    rw [hq] at h
    simp only at h
    split at h
    · simp at h
    · cases hw : env.writeError { (ReadBranch s name).1 with
          PullRequest := remote.PullRequest, MergeCommit := remote.MergeCommit } with
      | none => rw [hw] at h; simp at h
      | some e1 =>
        rw [hw] at h
        simp only [Except.error.injEq, Prod.mk.injEq] at h
        rw [← h.2]

/-- C14 (amended): in a fresh sync with `NoFetch` false whose pull-request refresh fails with
the error `e`, `SyncBranch` returns the error `failed to fetch latest PR info: e` in the
state the refresh left: the repository and the store are as before, and neither the merged
check nor any rebase, fetch, push or pull-request update takes place. -/
theorem SyncBranch_refresh_failure (env : Env) (s sE : State) (opts : SyncBranchOpts)
    (e : String) (hfresh : opts.Continuation = none) (hfetch : opts.NoFetch = false)
    (hfail : UpdatePullRequestState env s (ReadBranch s opts.Branch).1.Name = .error (e, sE)) :
    SyncBranch env s opts = .error ("failed to fetch latest PR info: " ++ e, sE) ∧
    sE.repo = s.repo ∧ sE.store = s.store ∧ rebaseCalls sE.log = rebaseCalls s.log ∧
    fetchCalls sE.log = fetchCalls s.log ∧ remoteWrites sE.log = remoteWrites s.log := by
  have hst := UpdatePullRequestState_state env s (ReadBranch s opts.Branch).1.Name
  rw [hfail] at hst
  refine ⟨?_, hst.1, UpdatePullRequestState_error_store hfail, hst.2.1, hst.2.2.1, hst.2.2.2⟩
  unfold SyncBranch syncBranchRefresh
  simp only [hfresh, hfetch, hfail, Bool.not_false, if_true]

/-- With the hosting service out of reach the sync of `stack-2` in `Example.moved` returns
the error of the refresh; only the refresh has been issued. -/
theorem SyncBranch_refresh_failure_witness :
    SyncBranch Example.envOffline Example.moved { Branch := "stack-2", NoPush := true }
      = .error ("failed to fetch latest PR info: network unreachable",
          { Example.moved with log := [Event.refresh "stack-2"] }) :=
  (SyncBranch_refresh_failure Example.envOffline Example.moved
    { Example.moved with log := [Event.refresh "stack-2"] }
    { Branch := "stack-2", NoPush := true } "network unreachable" rfl rfl rfl).1

/-- C14 as stated fails: with the hosting service out of reach the refresh of `stack-2`
fails and `SyncBranch` returns an error without any rebase, although the last-known
metadata (the same sync with `NoFetch`) calls for the rebase of `stack-2` onto `B`. -/
theorem SyncBranch_refresh_failure_counterexample :
    (∃ e, UpdatePullRequestState Example.envOffline Example.moved "stack-2" = .error e) ∧
    (∃ e, SyncBranch Example.envOffline Example.moved { Branch := "stack-2", NoPush := true }
      = .error e) ∧
    rebaseCalls (SyncBranch Example.envOffline Example.moved
      { Branch := "stack-2", NoPush := true }).state.log = [] ∧
    rebaseCalls (SyncBranch Example.envOffline Example.moved
      { Branch := "stack-2", NoFetch := true, NoPush := true }).state.log
      = [{ Branch := "stack-2", Upstream := "A", Onto := "B" }] :=
  ⟨⟨_, rfl⟩, ⟨_, rfl⟩, rfl, rfl⟩

/-! ## C15: the pull request during a change of base -/

/-- The flag of lines 460-477: when the base of the pull request differs from the parent of
the record, the configured value if there is one and otherwise whether the repository has
CODEOWNERS; false when the base is the parent already. -/
theorem rebaseWithDraft_eq (env : Env) (pr : GhPullRequest) (branch : Branch) :
    (pr.BaseBranchName ≠ branch.Parent.Name →
      (∀ v, env.RebaseWithDraft = some v → rebaseWithDraft env pr branch = v) ∧
      (env.RebaseWithDraft = none → rebaseWithDraft env pr branch = env.HasCodeowners)) ∧
    (pr.BaseBranchName = branch.Parent.Name → rebaseWithDraft env pr branch = false) := by
  unfold rebaseWithDraft
  constructor
  · intro hne
    rw [if_pos hne]
    constructor
    · intro v hv; rw [hv]
    · intro hv; rw [hv]; cases env.HasCodeowners <;> rfl
  · intro heq
    rw [if_neg (by simp [heq])]

/-- The calls of the reconciler on an open pull request when nothing fails: the push, the
update of the pull request and, when the flag is set, the call that marks it ready for
review; no call comes before the push. -/
theorem syncBranchPushAndUpdatePullRequest_open {env : Env} {s : State} {branch : Branch}
    {bpr : PullRequest} {pr : GhPullRequest} {body : String}
    (hbpr : branch.PullRequest = some bpr) (hid : bpr.ID ≠ "")
    (hopen : pr.State = PullRequestState.Open) (hpush : env.pushError = none)
    (hbody : env.AddPRMetadata pr.Body branch = .ok body)
    (hupdate : env.updatePullRequestError = none) (hready : env.markReadyError = none) :
    syncBranchPushAndUpdatePullRequest env s branch (some pr) = .ok ((),
      { s with log := s.log ++
          [Event.push { ForceWithLease := true, SkipIfUpstreamNotSet := true,
                        SkipIfUpstreamMatches := true },
           Event.updatePullRequest bpr.ID branch.Parent.Name body] ++
          (if rebaseWithDraft env pr branch then [Event.markReadyForReview pr.ID] else []) }) := by
  unfold syncBranchPushAndUpdatePullRequest Push UpdatePullRequest MarkPullRequestReadyForReview
  simp only [hbpr, hid, if_false, hopen, hpush, hbody, hupdate, hready]
  cases rebaseWithDraft env pr branch <;> simp

/-- C15 fails on the code: for the open pull request of `stack-2`, whose base `stack-1`
differs from the parent `main` of the record, in a repository with CODEOWNERS and no
configured value, the flag `rebaseWithDraft` is true and the reconciler issues exactly the
push, the update of the pull request and the call that marks it ready for review: nothing
converts the pull request to a draft before the push. The same holds when the flag is
configured to true. -/
theorem syncBranchPushAndUpdatePullRequest_no_draft :
    Example.openPull.State = PullRequestState.Open ∧
    Example.openPull.BaseBranchName = "stack-1" ∧ Example.reparented.Parent.Name = "main" ∧
    rebaseWithDraft Example.envCodeowners Example.openPull Example.reparented = true ∧
    (∃ t, syncBranchPushAndUpdatePullRequest Example.envCodeowners Example.squashed
        Example.reparented (some Example.openPull) = .ok ((), t) ∧
      t.log = [Event.push { ForceWithLease := true, SkipIfUpstreamNotSet := true,
                            SkipIfUpstreamMatches := true },
               Event.updatePullRequest "PR_2" "main" "",
               Event.markReadyForReview "PR_2"]) ∧
    rebaseWithDraft { RebaseWithDraft := some true } Example.openPull Example.reparented = true ∧
    (∃ t, syncBranchPushAndUpdatePullRequest { RebaseWithDraft := some true } Example.squashed
        Example.reparented (some Example.openPull) = .ok ((), t) ∧
      t.log = [Event.push { ForceWithLease := true, SkipIfUpstreamNotSet := true,
                            SkipIfUpstreamMatches := true },
               Event.updatePullRequest "PR_2" "main" "",
               Event.markReadyForReview "PR_2"]) :=
  ⟨rfl, rfl, rfl, rfl, ⟨_, rfl, rfl⟩, rfl, ⟨_, rfl, rfl⟩⟩

end Av
